import Mathlib

/-!
Shallow embedding of the miniOS kernel (Sir-Teo/minios) used to settle the
frozen specification claims C1..C10.

Each namespace embeds one subsystem of the C source:
  * Pit     - src/drivers/timer/pit.c           (claim C7)
  * Syscall - src/kernel/syscall/syscall.c      (claim C8)
  * Pmm     - src/kernel/mm/pmm.c               (claim C10)
  * Sched   - src/kernel/sched/scheduler.c      (claim C4)
  * Vmm     - src/arch/x86_64/mm/vmm.c          (claims C1, C3)
  * Sfs     - src/kernel/fs/simplefs.c          (claims C2, C5, C6, C9)

Machine integers are modelled as Nat with the same bit operations the C
performs; pointers are modelled as explicit identifiers (physical frame
bases, task ids, block numbers); mutable global state is passed explicitly
as structures.
-/

set_option maxHeartbeats 1000000

/-! ## PIT timer, from src/drivers/timer/pit.c -/

namespace Pit

def PIT_BASE_FREQ : Nat := 1193182

/-- pit_init from pit.c lines 75-108, reduced to its observable effect on
the PIT divisor: returns the divisor programmed into channel 0, or none
when the frequency is rejected before any programming happens.
The C computes divisor = PIT_BASE_FREQ / frequency with C unsigned
(truncating) division, then clamps to 65535 and raises 0 to 1. -/
def pit_init (frequency : Nat) : Option Nat :=
  if frequency = 0 ∨ frequency > PIT_BASE_FREQ then
    none
  else
    let divisor := PIT_BASE_FREQ / frequency
    let divisor := if divisor > 65535 then 65535 else divisor
    let divisor := if divisor = 0 then 1 else divisor
    some divisor

/-- The divisor the specification asks for: round(B / F) to the nearest
integer, then clamped to the interval from 1 to 65535.  This definition
follows the words of the spec, for comparison against pit_init above. -/
def spec_rounded_divisor (frequency : Nat) : Nat :=
  max 1 (min ((2 * PIT_BASE_FREQ + frequency) / (2 * frequency)) 65535)

end Pit

/-- C7, counterexample: at frequency 100 Hz the code programs
floor(1193182 / 100) = 11931, while round(1193182 / 100) = 11932, so the
programmed divisor is not the rounded one the claim demands. -/
theorem C7_counterexample :
    Pit.pit_init 100 = some 11931 ∧
    Pit.spec_rounded_divisor 100 = 11932 ∧
    Pit.pit_init 100 ≠ some (Pit.spec_rounded_divisor 100) := by
  refine ⟨by decide, by decide, ?_⟩
  decide

/-- C7, amended: for every requested frequency F with 1 ≤ F ≤ 1193182
(the range pit_init accepts), the divisor programmed into the PIT equals
floor(1193182 / F) - truncating integer division, not rounding to
nearest - clamped to the interval from 1 to 65535. -/
theorem C7_amended (f : Nat) (h1 : 1 ≤ f) (h2 : f ≤ Pit.PIT_BASE_FREQ) :
    Pit.pit_init f = some (max 1 (min (Pit.PIT_BASE_FREQ / f) 65535)) := by
  have hf0 : f ≠ 0 := by omega
  have hle : ¬ f > Pit.PIT_BASE_FREQ := by omega
  have hdiv1 : 1 ≤ Pit.PIT_BASE_FREQ / f := by
    exact (Nat.one_le_div_iff (by omega)).mpr h2
  unfold Pit.pit_init
  simp only [hf0, hle, or_self, if_false, false_or]
  by_cases hbig : Pit.PIT_BASE_FREQ / f > 65535
  · simp only [hbig, if_true]
    have : min (Pit.PIT_BASE_FREQ / f) 65535 = 65535 := by omega
    rw [this]
    norm_num
  · simp only [hbig, if_false]
    have hne : ¬ (Pit.PIT_BASE_FREQ / f = 0) := by omega
    simp only [hne, if_false]
    have : min (Pit.PIT_BASE_FREQ / f) 65535 = Pit.PIT_BASE_FREQ / f := by omega
    rw [this]
    have : max 1 (Pit.PIT_BASE_FREQ / f) = Pit.PIT_BASE_FREQ / f := by omega
    rw [this]

/-- C7 amended witness at F = 100. -/
theorem C7_amended_witness :
    Pit.pit_init 100 = some (max 1 (min (Pit.PIT_BASE_FREQ / 100) 65535)) :=
  C7_amended 100 (by decide) (by decide)

/-! ## System-call gateway, from src/kernel/syscall/syscall.c -/

namespace Syscall

/-- Interpretation of a Nat as the int64_t the C cast produces
(two's-complement wrap of the low 64 bits). -/
def toInt64 (n : Nat) : Int :=
  if n % 2 ^ 64 < 2 ^ 63 then ((n % 2 ^ 64 : Nat) : Int)
  else ((n % 2 ^ 64 : Nat) : Int) - 2 ^ 64

/-- sys_write from syscall.c lines 97-108.  buf is the user buffer as a
byte function; the result is the list of bytes emitted to the serial
console (via kprintf percent-c in a loop) together with the int64_t
return value. -/
def sys_write (fd : Nat) (buf : Nat → Nat) (count : Nat) : List Nat × Int :=
  if fd = 1 ∨ fd = 2 then
    (((List.range count).map buf), toInt64 count)
  else
    ([], -1)

end Syscall

/-- C8: for every fd, buf and n (n below 2 to the 63, so that the int64_t
return value is n itself), sys_write emits the n bytes of buf and returns
n when fd is 1 or 2, and returns -1 with no output for every other fd. -/
theorem C8_sys_write (fd : Nat) (buf : Nat → Nat) (n : Nat) (hn : n < 2 ^ 63) :
    (fd = 1 ∨ fd = 2 →
      Syscall.sys_write fd buf n = (((List.range n).map buf), (n : Int))) ∧
    (fd ≠ 1 → fd ≠ 2 →
      Syscall.sys_write fd buf n = ([], -1)) := by
  constructor
  · intro hfd
    unfold Syscall.sys_write
    simp only [hfd, if_true]
    have hmod : n % 2 ^ 64 = n := Nat.mod_eq_of_lt (by omega)
    unfold Syscall.toInt64
    rw [hmod]
    simp only [hn, if_true]
  · intro h1 h2
    unfold Syscall.sys_write
    have : ¬ (fd = 1 ∨ fd = 2) := by tauto
    simp only [this, if_false]

/-- C8 witness: fd 1 with a 3-byte buffer, and fd 7 rejected. -/
theorem C8_sys_write_witness :
    (Syscall.sys_write 1 (fun i => i + 65) 3 =
      (((List.range 3).map (fun i => i + 65)), (3 : Int))) ∧
    (Syscall.sys_write 7 (fun i => i + 65) 3 = ([], -1)) :=
  ⟨(C8_sys_write 1 (fun i => i + 65) 3 (by norm_num)).1 (Or.inl rfl),
   (C8_sys_write 7 (fun i => i + 65) 3 (by norm_num)).2 (by decide) (by decide)⟩

/-! ## Physical frame allocator, from src/kernel/mm/pmm.c -/

namespace Pmm

def PAGE_SIZE : Nat := 4096

/-- Global allocator state of pmm.c: the bitmap of 64-bit words, the
number of frames it covers, and the used-page counter. -/
structure PmmState where
  bitmap : Nat → Nat
  total_pages : Nat
  used_pages : Nat

/-- bitmap_test from pmm.c lines 38-40. -/
def bitmap_test (st : PmmState) (bit : Nat) : Bool :=
  (st.bitmap (bit / 64)) &&& (1 <<< (bit % 64)) ≠ 0

/-- bitmap_set from pmm.c lines 28-30. -/
def bitmap_set (st : PmmState) (bit : Nat) : PmmState :=
  { st with bitmap := fun w =>
      if w = bit / 64 then st.bitmap (bit / 64) ||| (1 <<< (bit % 64))
      else st.bitmap w }

/-- One iteration chain of the pmm_alloc scan loop (pmm.c lines 139-148),
expressed with fuel equal to the number of remaining loop iterations. -/
def alloc_scan (st : PmmState) (i : Nat) : Nat → Nat × PmmState
  | 0 => (0, st)
  | fuel + 1 =>
    if i < st.total_pages then
      if bitmap_test st i = false then
        (i * PAGE_SIZE, { bitmap_set st i with used_pages := st.used_pages + 1 })
      else
        alloc_scan st (i + 1) fuel
    else
      (0, st)

/-- pmm_alloc from pmm.c lines 139-148: scan for the first clear bit, set
it and return the frame base; return 0 when no frame is free. -/
def pmm_alloc (st : PmmState) : Nat × PmmState :=
  alloc_scan st 0 st.total_pages

/-- pmm_free from pmm.c lines 150-156. -/
def pmm_free (st : PmmState) (addr : Nat) : PmmState :=
  let page := addr / PAGE_SIZE
  if page < st.total_pages ∧ bitmap_test st page = true then
    { st with
      bitmap := fun w =>
        if w = page / 64 then
          st.bitmap (page / 64) &&& (2 ^ 64 - 1 - (1 <<< (page % 64)))
        else st.bitmap w,
      used_pages := st.used_pages - 1 }
  else st

theorem alloc_scan_full (st : PmmState)
    (hfull : ∀ j, j < st.total_pages → bitmap_test st j = true) :
    ∀ fuel i, alloc_scan st i fuel = (0, st) := by
  intro fuel
  induction fuel with
  | zero => intro i; rfl
  | succ n ih =>
    intro i
    unfold alloc_scan
    by_cases hi : i < st.total_pages
    · simp only [hi, if_true]
      have := hfull i hi
      simp only [this]
      simpa using ih (i + 1)
    · simp only [hi, if_false]

end Pmm

/-- C10: the frame allocator signals out-of-frames with the integer 0,
which is also the physical address of frame 0.  Whenever frame 0 is free,
pmm_alloc succeeds (marks frame 0 used and increments used_pages) yet
returns 0, exactly the value it returns when every frame is already
allocated - the interface has no separate NoFrame value. -/
theorem C10_pmm_zero_ambiguity :
    (∀ st : Pmm.PmmState, 0 < st.total_pages →
      Pmm.bitmap_test st 0 = false →
      (Pmm.pmm_alloc st).1 = 0 ∧
      (Pmm.pmm_alloc st).2.used_pages = st.used_pages + 1 ∧
      Pmm.bitmap_test (Pmm.pmm_alloc st).2 0 = true) ∧
    (∀ st : Pmm.PmmState,
      (∀ j, j < st.total_pages → Pmm.bitmap_test st j = true) →
      (Pmm.pmm_alloc st).1 = 0 ∧ (Pmm.pmm_alloc st).2 = st) := by
  constructor
  · intro st hpos hfree
    unfold Pmm.pmm_alloc
    obtain ⟨n, hn⟩ : ∃ n, st.total_pages = n + 1 :=
      ⟨st.total_pages - 1, by omega⟩
    rw [hn]
    unfold Pmm.alloc_scan
    rw [if_pos hpos, if_pos hfree]
    refine ⟨rfl, rfl, ?_⟩
    have hne : (st.bitmap 0 ||| 1) &&& 1 ≠ 0 := by
      intro hcontra
      have htb := congrArg (fun x => Nat.testBit x 0) hcontra
      simp at htb
    simp [Pmm.bitmap_test, Pmm.bitmap_set, hne]
  · intro st hfull
    exact by
      unfold Pmm.pmm_alloc
      rw [Pmm.alloc_scan_full st hfull st.total_pages 0]
      exact ⟨rfl, rfl⟩

/-- C10 witness: a 4-frame state with frame 0 free behaves exactly like
the fully-allocated state at the interface - both return 0. -/
theorem C10_pmm_zero_ambiguity_witness :
    ((Pmm.pmm_alloc ⟨fun _ => 0, 4, 0⟩).1 = 0 ∧
     (Pmm.pmm_alloc ⟨fun _ => 0, 4, 0⟩).2.used_pages = 0 + 1 ∧
     Pmm.bitmap_test (Pmm.pmm_alloc ⟨fun _ => 0, 4, 0⟩).2 0 = true) ∧
    ((Pmm.pmm_alloc ⟨fun _ => 15, 4, 4⟩).1 = 0 ∧
     (Pmm.pmm_alloc ⟨fun _ => 15, 4, 4⟩).2 = ⟨fun _ => 15, 4, 4⟩) :=
  ⟨C10_pmm_zero_ambiguity.1 ⟨fun _ => 0, 4, 0⟩ (by decide) (by decide),
   C10_pmm_zero_ambiguity.2 ⟨fun _ => 15, 4, 4⟩ (by decide)⟩

/-! ## Round-robin scheduler, from src/kernel/sched/scheduler.c

Tasks are identified by their pid (task.c hands out pids from 1).  The
per-task fields the scheduler touches (state, intrusive next pointer)
are functions of the task id.  The ready queue is exactly the C intrusive
list: a head pointer, a tail pointer and the per-task next links.  C
statement sequences that update several fields are flattened into single
record updates; the field values written are identical to the C's. -/

namespace Sched

def TASK_READY : Nat := 0
def TASK_RUNNING : Nat := 1
def TASK_BLOCKED : Nat := 2
def TASK_TERMINATED : Nat := 3

structure SchedState where
  state : Nat → Nat
  next : Nat → Option Nat
  head : Option Nat
  tail : Option Nat
  task_count : Nat
  current : Option Nat
  enabled : Bool
  idle : Nat

/-- Pointwise update of a per-task field. -/
def upd {α : Type} (f : Nat → α) (t : Nat) (v : α) : Nat → α :=
  fun x => if x = t then v else f x

/-- sched_add_task from scheduler.c lines 54-102 (serial logging elided):
set state Ready, clear the next link, append at the tail. -/
def sched_add_task (st : SchedState) (t : Nat) : SchedState :=
  match st.tail with
  | some tl =>
    { st with state := upd st.state t TASK_READY,
              next := upd (upd st.next t none) tl (some t),
              tail := some t, task_count := st.task_count + 1 }
  | none =>
    { st with state := upd st.state t TASK_READY,
              next := upd st.next t none,
              head := some t, tail := some t,
              task_count := st.task_count + 1 }

/-- Inner while loop of sched_remove_task (scheduler.c lines 119-134),
with fuel bounding the traversal; on every null-terminated queue the C
builds, fuel task_count covers the whole list. -/
def remove_from (st : SchedState) (t : Nat) : Nat → Option Nat → Nat → SchedState
  | _, _, 0 => st
  | _, none, _ + 1 => st
  | prev, some c, fuel + 1 =>
    if c = t then
      if st.tail = some c then
        { st with next := upd st.next prev (st.next c), tail := some prev,
                  task_count := st.task_count - 1 }
      else
        { st with next := upd st.next prev (st.next c),
                  task_count := st.task_count - 1 }
    else
      remove_from st t c (st.next c) fuel

/-- sched_remove_task from scheduler.c lines 104-135. -/
def sched_remove_task (st : SchedState) (t : Nat) : SchedState :=
  match st.head with
  | none => st
  | some h =>
    if h = t then
      if st.tail = some t then
        { st with head := st.next t, tail := none,
                  task_count := st.task_count - 1 }
      else
        { st with head := st.next t, task_count := st.task_count - 1 }
    else
      remove_from st t h (st.next h) st.task_count

/-- scheduler.c lines 151-158: demote the Running current task c to Ready
and pop it from the queue head (the C assumes c sits at the head and pops
it by writing head = current->next). -/
def rotate_pop (st : SchedState) (c : Nat) : SchedState :=
  if st.next c = none then
    { st with state := upd st.state c TASK_READY, head := st.next c,
              tail := none }
  else
    { st with state := upd st.state c TASK_READY, head := st.next c }

/-- scheduler.c lines 160-168: clear c's next link and append c at the
tail of the queue. -/
def rotate_append (st : SchedState) (c : Nat) : SchedState :=
  match st.tail with
  | some tl =>
    { st with next := upd (upd st.next c none) tl (some c), tail := some c }
  | none =>
    { st with next := upd st.next c none, head := some c, tail := some c }

/-- scheduler.c lines 150-169: the round-robin rotation performed when the
current task is still Running. -/
def schedule_rotate (st : SchedState) : SchedState :=
  match st.current with
  | some c =>
    if st.state c = TASK_RUNNING then rotate_append (rotate_pop st c) c
    else st
  | none => st

/-- schedule from scheduler.c lines 137-189.  The context_switch call has
no effect on the scheduler state; everything else is mirrored branch by
branch, including the early idle-only return and the fact that the task
chosen to run is the queue head and is NOT removed from the queue. -/
def schedule (st : SchedState) : SchedState :=
  if st.enabled = false then st
  else
    match st.head with
    | none => st
    | some h0 =>
      if st.task_count = 1 ∧ h0 = st.idle ∧ st.current = some st.idle then st
      else
        match (schedule_rotate st).head with
        | none => schedule_rotate st
        | some n =>
          { schedule_rotate st with
              state := upd (schedule_rotate st).state n TASK_RUNNING,
              current := some n }

/-- task_exit from scheduler.c lines 195-241 (logging elided): mark the
current task Terminated, remove it from the queue, reschedule. -/
def task_exit (st : SchedState) : SchedState :=
  match st.current with
  | none => st
  | some c =>
    schedule (sched_remove_task
      { st with state := upd st.state c TASK_TERMINATED } c)

/-- sched_set_enabled from scheduler.c lines 247-254. -/
def sched_set_enabled (st : SchedState) (b : Bool) : SchedState :=
  { st with enabled := b }

/-- State right after sched_init (scheduler.c lines 30-52): empty queue,
scheduler disabled, then the idle task (pid 1, created Ready by
task_create) is added.  task_get_current is still NULL. -/
def initState : SchedState :=
  sched_add_task
    { state := fun _ => TASK_READY, next := fun _ => none,
      head := none, tail := none, task_count := 0, current := none,
      enabled := false, idle := 1 } 1

/-- One scheduler operation, as named by the claim: add, remove,
schedule (= tick = yield), exit, plus the enable switch that gates
schedule. -/
inductive Step : SchedState → SchedState → Prop
  | add (st : SchedState) (t : Nat) : Step st (sched_add_task st t)
  | remove (st : SchedState) (t : Nat) : Step st (sched_remove_task st t)
  | sched (st : SchedState) : Step st (schedule st)
  | exit (st : SchedState) : Step st (task_exit st)
  | setEnabled (st : SchedState) (b : Bool) : Step st (sched_set_enabled st b)

/-- States reachable from the post-init state by scheduler operations. -/
inductive Reached : SchedState → Prop
  | init : Reached initState
  | step {st st' : SchedState} : Reached st → Step st st' → Reached st'

/-- The ready queue read off the intrusive list, with fuel task_count
plus one (enough for every null-terminated list the C builds). -/
def queue_from (st : SchedState) : Option Nat → Nat → List Nat
  | none, _ => []
  | some _, 0 => []
  | some t, fuel + 1 => t :: queue_from st (st.next t) fuel

def queue_list (st : SchedState) : List Nat :=
  queue_from st st.head (st.task_count + 1)

/-- Key invariant: any task whose state is Running is the current task
(hence there is at most one Running task). -/
def RunningIsCurrent (st : SchedState) : Prop :=
  ∀ t, st.state t = TASK_RUNNING → st.current = some t

theorem remove_from_state_current (st : SchedState) (t : Nat) :
    ∀ fuel prev c, (remove_from st t prev c fuel).state = st.state ∧
      (remove_from st t prev c fuel).current = st.current := by
  intro fuel
  induction fuel with
  | zero => intro prev c; cases c <;> exact ⟨rfl, rfl⟩
  | succ n ih =>
    intro prev c
    cases c with
    | none => exact ⟨rfl, rfl⟩
    | some c0 =>
      simp only [remove_from]
      by_cases hc : c0 = t
      · rw [if_pos hc]
        split <;> exact ⟨rfl, rfl⟩
      · rw [if_neg hc]
        exact ih c0 (st.next c0)

theorem sched_remove_task_state_current (st : SchedState) (t : Nat) :
    (sched_remove_task st t).state = st.state ∧
    (sched_remove_task st t).current = st.current := by
  unfold sched_remove_task
  cases hh : st.head with
  | none => exact ⟨rfl, rfl⟩
  | some h =>
    dsimp only
    by_cases hht : h = t
    · rw [if_pos hht]
      split <;> exact ⟨rfl, rfl⟩
    · rw [if_neg hht]
      exact remove_from_state_current st t st.task_count h (st.next h)

theorem sched_add_task_state (st : SchedState) (t : Nat) :
    (sched_add_task st t).state = upd st.state t TASK_READY ∧
    (sched_add_task st t).current = st.current := by
  unfold sched_add_task
  cases st.tail <;> exact ⟨rfl, rfl⟩

theorem rotate_pop_state (st : SchedState) (c : Nat) :
    (rotate_pop st c).state = upd st.state c TASK_READY ∧
    (rotate_pop st c).current = st.current := by
  unfold rotate_pop
  split <;> exact ⟨rfl, rfl⟩

theorem rotate_append_state (st : SchedState) (c : Nat) :
    (rotate_append st c).state = st.state ∧
    (rotate_append st c).current = st.current := by
  unfold rotate_append
  cases st.tail <;> exact ⟨rfl, rfl⟩

/-- Case analysis of the rotation: either it is the identity on state and
current (current task absent or not Running), or it demotes the current
task c from Running to Ready. -/
theorem schedule_rotate_cases (st : SchedState) :
    ((schedule_rotate st).state = st.state ∧
     (schedule_rotate st).current = st.current ∧
     (st.current = none ∨
       ∃ c, st.current = some c ∧ st.state c ≠ TASK_RUNNING)) ∨
    (∃ c, st.current = some c ∧ st.state c = TASK_RUNNING ∧
      (schedule_rotate st).state = upd st.state c TASK_READY ∧
      (schedule_rotate st).current = st.current) := by
  unfold schedule_rotate
  cases hcur : st.current with
  | none => exact Or.inl ⟨rfl, hcur, Or.inl rfl⟩
  | some c =>
    dsimp only
    by_cases hrun : st.state c = TASK_RUNNING
    · rw [if_pos hrun]
      refine Or.inr ⟨c, rfl, hrun, ?_, ?_⟩
      · rw [(rotate_append_state (rotate_pop st c) c).1,
            (rotate_pop_state st c).1]
      · rw [(rotate_append_state (rotate_pop st c) c).2,
            (rotate_pop_state st c).2]
        exact hcur
    · rw [if_neg hrun]
      exact Or.inl ⟨rfl, hcur, Or.inr ⟨c, rfl, hrun⟩⟩

theorem running_is_current_add (st : SchedState) (t : Nat)
    (h : RunningIsCurrent st) : RunningIsCurrent (sched_add_task st t) := by
  intro u hu
  rw [(sched_add_task_state st t).1] at hu
  rw [(sched_add_task_state st t).2]
  by_cases hut : u = t
  · exfalso
    rw [hut] at hu
    unfold upd at hu
    rw [if_pos rfl] at hu
    exact absurd hu (by unfold TASK_READY TASK_RUNNING; omega)
  · unfold upd at hu
    rw [if_neg hut] at hu
    exact h u hu

theorem running_is_current_remove (st : SchedState) (t : Nat)
    (h : RunningIsCurrent st) : RunningIsCurrent (sched_remove_task st t) := by
  intro u hu
  rw [(sched_remove_task_state_current st t).1] at hu
  rw [(sched_remove_task_state_current st t).2]
  exact h u hu

theorem running_is_current_rotate (st : SchedState)
    (h : RunningIsCurrent st) : RunningIsCurrent (schedule_rotate st) := by
  intro u hu
  rcases schedule_rotate_cases st with ⟨hs, hc, _⟩ | ⟨c, hcur, hrun, hs, hc⟩
  · rw [hs] at hu; rw [hc]; exact h u hu
  · rw [hs] at hu
    rw [hc]
    by_cases huc : u = c
    · exfalso
      rw [huc] at hu
      unfold upd at hu
      rw [if_pos rfl] at hu
      exact absurd hu (by unfold TASK_READY TASK_RUNNING; omega)
    · unfold upd at hu
      rw [if_neg huc] at hu
      exact h u hu

theorem running_is_current_schedule (st : SchedState)
    (h : RunningIsCurrent st) : RunningIsCurrent (schedule st) := by
  unfold schedule
  by_cases hen : st.enabled = false
  · rw [if_pos hen]; exact h
  · rw [if_neg hen]
    cases hh : st.head with
    | none => exact h
    | some h0 =>
      dsimp only
      by_cases hidle : st.task_count = 1 ∧ h0 = st.idle ∧
          st.current = some st.idle
      · rw [if_pos hidle]; exact h
      · rw [if_neg hidle]
        cases hh1 : (schedule_rotate st).head with
        | none => exact running_is_current_rotate st h
        | some n =>
          dsimp only
          intro u hu
          have hu2 : upd (schedule_rotate st).state n TASK_RUNNING u =
              TASK_RUNNING := hu
          show some n = some u
          by_cases hun : u = n
          · rw [hun]
          · exfalso
            unfold upd at hu2
            rw [if_neg hun] at hu2
            have hrot := running_is_current_rotate st h u hu2
            rcases schedule_rotate_cases st with ⟨_, hc, hor⟩ |
                ⟨c, hcur, hrun, hs, hc⟩
            · rw [hc] at hrot
              rcases hor with hnone | ⟨c, hcur, hnrun⟩
              · rw [hnone] at hrot; exact Option.noConfusion hrot
              · rw [hcur] at hrot
                have huc : u = c := by injection hrot; omega
                rcases schedule_rotate_cases st with ⟨hs2, _, _⟩ |
                    ⟨c2, hcur2, hrun2, hs2, _⟩
                · rw [hs2] at hu2
                  rw [huc] at hu2
                  exact hnrun hu2
                · rw [hcur2] at hcur
                  have : c2 = c := by injection hcur
                  rw [hs2, huc, this] at hu2
                  unfold upd at hu2
                  rw [if_pos rfl] at hu2
                  exact absurd hu2 (by unfold TASK_READY TASK_RUNNING; omega)
            · rw [hc, hcur] at hrot
              have huc : u = c := by injection hrot; omega
              rw [hs, huc] at hu2
              unfold upd at hu2
              rw [if_pos rfl] at hu2
              exact absurd hu2 (by unfold TASK_READY TASK_RUNNING; omega)

theorem running_is_current_exit (st : SchedState)
    (h : RunningIsCurrent st) : RunningIsCurrent (task_exit st) := by
  unfold task_exit
  cases hcur : st.current with
  | none => exact h
  | some c =>
    apply running_is_current_schedule
    apply running_is_current_remove
    intro u hu
    have hu2 : upd st.state c TASK_TERMINATED u = TASK_RUNNING := hu
    show some c = some u
    by_cases huc : u = c
    · exfalso
      rw [huc] at hu2
      unfold upd at hu2
      rw [if_pos rfl] at hu2
      exact absurd hu2 (by unfold TASK_RUNNING TASK_TERMINATED; omega)
    · unfold upd at hu2
      rw [if_neg huc] at hu2
      have h3 := h u hu2
      rw [hcur] at h3
      exact h3

theorem running_is_current_init : RunningIsCurrent initState := by
  intro u hu
  exfalso
  revert hu
  unfold initState sched_add_task
  simp only
  unfold upd
  by_cases hu1 : u = 1 <;>
    simp [hu1, TASK_READY, TASK_RUNNING]

theorem running_is_current_reached {st : SchedState} (h : Reached st) :
    RunningIsCurrent st := by
  induction h with
  | init => exact running_is_current_init
  | step _ hstep ih =>
    cases hstep with
    | add t => exact running_is_current_add _ t ih
    | remove t => exact running_is_current_remove _ t ih
    | sched => exact running_is_current_schedule _ ih
    | exit => exact running_is_current_exit _ ih
    | setEnabled b => exact fun u hu => ih u hu

end Sched

namespace Sched

theorem schedule_rotate_id (st : SchedState)
    (h : st.current = none ∨
      ∃ c, st.current = some c ∧ st.state c ≠ TASK_RUNNING) :
    schedule_rotate st = st := by
  unfold schedule_rotate
  rcases h with hnone | ⟨c, hcur, hnrun⟩
  · rw [hnone]
  · rw [hcur]
    dsimp only
    rw [if_neg hnrun]

theorem rotate_head_ne_none (st : SchedState) (c : Nat) :
    (rotate_append (rotate_pop st c) c).head ≠ none := by
  unfold rotate_pop rotate_append
  by_cases h : st.next c = none
  · rw [if_pos h]
    dsimp only
    intro hx
    exact Option.noConfusion hx
  · rw [if_neg h]
    dsimp only
    cases st.tail with
    | none =>
      dsimp only
      intro hx
      exact Option.noConfusion hx
    | some tl =>
      dsimp only
      exact h

end Sched

/-- C4, counterexample: starting from the post-init state (idle task 1 in
the queue), enabling the scheduler and running schedule() once yields a
reachable state in which task 1 has state Running and task 1 is still an
element of the ready queue (it stays at the head), contradicting the
claim that the Running task is never in the queue. -/
theorem C4_counterexample :
    Sched.Reached
      (Sched.schedule (Sched.sched_set_enabled Sched.initState true)) ∧
    (Sched.schedule (Sched.sched_set_enabled Sched.initState true)).state 1 =
      Sched.TASK_RUNNING ∧
    1 ∈ Sched.queue_list
      (Sched.schedule (Sched.sched_set_enabled Sched.initState true)) := by
  refine ⟨?_, by decide, by decide⟩
  exact Sched.Reached.step
    (Sched.Reached.step Sched.Reached.init (Sched.Step.setEnabled _ true))
    (Sched.Step.sched _)

/-- C4, amended: in every reachable scheduler state at most one task has
state Running; however the Running task is not outside the ready queue -
whenever schedule() changes the state at all, the task it sets Running is
the head of the ready queue (current = head), i.e. the Running task
remains an element of the queue. -/
theorem C4_amended :
    (∀ st : Sched.SchedState, Sched.Reached st →
      ∀ t1 t2, st.state t1 = Sched.TASK_RUNNING →
        st.state t2 = Sched.TASK_RUNNING → t1 = t2) ∧
    (∀ st : Sched.SchedState,
      Sched.schedule st = st ∨
      ((Sched.schedule st).current = (Sched.schedule st).head ∧
        ∃ n, (Sched.schedule st).head = some n ∧
          (Sched.schedule st).state n = Sched.TASK_RUNNING)) := by
  constructor
  · intro st hst t1 t2 h1 h2
    have hc1 := Sched.running_is_current_reached hst t1 h1
    have hc2 := Sched.running_is_current_reached hst t2 h2
    rw [hc1] at hc2
    injection hc2
  · intro st
    by_cases hen : st.enabled = false
    · exact Or.inl (by unfold Sched.schedule; rw [if_pos hen])
    · cases hh : st.head with
      | none =>
        refine Or.inl ?_
        unfold Sched.schedule
        rw [if_neg hen, hh]
      | some h0 =>
        by_cases hidle : st.task_count = 1 ∧ h0 = st.idle ∧
            st.current = some st.idle
        · refine Or.inl ?_
          unfold Sched.schedule
          rw [if_neg hen, hh]
          dsimp only
          rw [if_pos hidle]
        · cases hh1 : (Sched.schedule_rotate st).head with
          | none =>
            refine Or.inl ?_
            have hid : Sched.schedule_rotate st = st := by
              apply Sched.schedule_rotate_id
              cases hcur : st.current with
              | none => exact Or.inl rfl
              | some c =>
                by_cases hrun : st.state c = Sched.TASK_RUNNING
                · exfalso
                  apply Sched.rotate_head_ne_none st c
                  rw [← hh1]
                  unfold Sched.schedule_rotate
                  rw [hcur]
                  dsimp only
                  rw [if_pos hrun]
                · exact Or.inr ⟨c, rfl, hrun⟩
            unfold Sched.schedule
            rw [if_neg hen, hh]
            dsimp only
            rw [if_neg hidle, hh1]
            exact hid
          | some n =>
            have heq : Sched.schedule st =
                { Sched.schedule_rotate st with
                    state := Sched.upd (Sched.schedule_rotate st).state n
                      Sched.TASK_RUNNING,
                    current := some n } := by
              unfold Sched.schedule
              rw [if_neg hen, hh]
              dsimp only
              rw [if_neg hidle, hh1]
            refine Or.inr ?_
            rw [heq]
            refine ⟨?_, n, ?_, ?_⟩
            · show some n = (Sched.schedule_rotate st).head
              rw [hh1]
            · show (Sched.schedule_rotate st).head = some n
              exact hh1
            · show Sched.upd (Sched.schedule_rotate st).state n
                Sched.TASK_RUNNING n = Sched.TASK_RUNNING
              unfold Sched.upd
              rw [if_pos rfl]

/-- C4 amended witness: in the reachable state where idle runs, the
uniqueness part pins the Running task, and the schedule disjunction is
instantiated at the init state. -/
theorem C4_amended_witness :
    (1 : Nat) = 1 ∧
    (Sched.schedule Sched.initState = Sched.initState ∨
      ((Sched.schedule Sched.initState).current =
        (Sched.schedule Sched.initState).head ∧
       ∃ n, (Sched.schedule Sched.initState).head = some n ∧
         (Sched.schedule Sched.initState).state n = Sched.TASK_RUNNING)) :=
  ⟨C4_amended.1
      (Sched.schedule (Sched.sched_set_enabled Sched.initState true))
      (Sched.Reached.step
        (Sched.Reached.step Sched.Reached.init (Sched.Step.setEnabled _ true))
        (Sched.Step.sched _))
      1 1 (by decide) (by decide),
   C4_amended.2 Sched.initState⟩

/-! ## Virtual memory manager, from src/arch/x86_64/mm/vmm.c

Page-table frames are identified by their physical base address; the HHDM
virtual aliasing (phys_to_virt / virt_to_phys) is the identity on these
identifiers.  The memory holding page tables is a function from frame
base and entry index to the 64-bit entry value.

pmm_alloc is abstracted by a monotone frame counter: each allocation
hands out the next page-aligned frame base and fails (the C receives 0)
once the 2^52 physical limit is reached.  This reflects the pmm contract
the vmm relies on: a successful allocation is a page-aligned frame
distinct from every frame previously handed out and still in use, and
x86_64 physical addresses fit in 52 bits.  The `level` field is ghost
bookkeeping (4 = pml4 root, 3 = pdpt, 2 = pd, 1 = pt, 0 = not a page
table); no operation's behaviour depends on it.

Every kernel call site of vmm_map_page / vmm_unmap_page passes a
lower-half user virtual address (usermode.c, elf.c), so the operation
relation below quantifies over lower-half (below 2^47) virtual
addresses. -/

namespace Vmm

def PAGE_SIZE : Nat := 4096
def VMM_PRESENT : Nat := 1
def VMM_WRITABLE : Nat := 2
def VMM_USER : Nat := 4
def VMM_HUGE : Nat := 128
def PHYS_LIMIT : Nat := 2 ^ 52

/-- PTE_GET_ADDR from vmm.h line 36: mask 0x000FFFFFFFFFF000, bits 12..51. -/
def PTE_GET_ADDR (pte : Nat) : Nat := pte &&& (2 ^ 52 - 2 ^ 12)

/-- PAGE_ALIGN_DOWN from vmm.h line 31: addr & ~(PAGE_SIZE-1) on uint64,
i.e. mask 0xFFFFFFFFFFFFF000. -/
def PAGE_ALIGN_DOWN (addr : Nat) : Nat := addr &&& (2 ^ 64 - 2 ^ 12)

def PML4_INDEX (addr : Nat) : Nat := (addr >>> 39) &&& 0x1FF
def PDPT_INDEX (addr : Nat) : Nat := (addr >>> 30) &&& 0x1FF
def PD_INDEX (addr : Nat) : Nat := (addr >>> 21) &&& 0x1FF
def PT_INDEX (addr : Nat) : Nat := (addr >>> 12) &&& 0x1FF

structure VmState where
  mem : Nat → Nat → Nat
  level : Nat → Nat
  next : Nat
  roots : List Nat

/-- vmm_get_or_create_table from vmm.c lines 31-56.  The lvl argument is
the ghost level recorded for a freshly allocated table and influences
nothing else.  On allocation failure (physical limit) the C receives 0
from pmm_alloc and returns NULL without mutating anything. -/
def get_or_create (st : VmState) (table index : Nat) (create : Bool)
    (lvl : Nat) : Option Nat × VmState :=
  if st.mem table index &&& VMM_PRESENT = 0 then
    if create = false then (none, st)
    else if PHYS_LIMIT ≤ st.next then (none, st)
    else
      (some (PTE_GET_ADDR
          (st.next ||| VMM_PRESENT ||| VMM_WRITABLE ||| VMM_USER)),
        { mem := fun t i =>
            if t = table ∧ i = index then
              st.next ||| VMM_PRESENT ||| VMM_WRITABLE ||| VMM_USER
            else if t = st.next then 0
            else st.mem t i,
          level := fun t => if t = st.next then lvl else st.level t,
          next := st.next + PAGE_SIZE,
          roots := st.roots })
  else
    (some (PTE_GET_ADDR (st.mem table index)), st)

/-- vmm_map_page from vmm.c lines 174-206. -/
def vmm_map_page (st : VmState) (asr virt phys flags : Nat) :
    Bool × VmState :=
  let virt := PAGE_ALIGN_DOWN virt
  let phys := PAGE_ALIGN_DOWN phys
  match get_or_create st asr (PML4_INDEX virt) true 3 with
  | (none, st1) => (false, st1)
  | (some pdpt, st1) =>
    match get_or_create st1 pdpt (PDPT_INDEX virt) true 2 with
    | (none, st2) => (false, st2)
    | (some pd, st2) =>
      match get_or_create st2 pd (PD_INDEX virt) true 1 with
      | (none, st3) => (false, st3)
      | (some pt, st3) =>
        (true,
          { st3 with mem := fun t i =>
              if t = pt ∧ i = PT_INDEX virt then
                phys ||| flags ||| VMM_PRESENT
              else st3.mem t i })

/-- vmm_unmap_page from vmm.c lines 208-238. -/
def vmm_unmap_page (st : VmState) (asr virt : Nat) : Bool × VmState :=
  let virt := PAGE_ALIGN_DOWN virt
  match get_or_create st asr (PML4_INDEX virt) false 0 with
  | (none, st1) => (false, st1)
  | (some pdpt, st1) =>
    match get_or_create st1 pdpt (PDPT_INDEX virt) false 0 with
    | (none, st2) => (false, st2)
    | (some pd, st2) =>
      match get_or_create st2 pd (PD_INDEX virt) false 0 with
      | (none, st3) => (false, st3)
      | (some pt, st3) =>
        (true,
          { st3 with mem := fun t i =>
              if t = pt ∧ i = PT_INDEX virt then 0
              else st3.mem t i })

/-- vmm_get_physical from vmm.c lines 240-271, including the 1 GiB huge
check on the pd entry (performed before the presence check, as in the C). -/
def vmm_get_physical (st : VmState) (asr virt : Nat) : Nat :=
  let virt := PAGE_ALIGN_DOWN virt
  match get_or_create st asr (PML4_INDEX virt) false 0 with
  | (none, _) => 0
  | (some pdpt, _) =>
    match get_or_create st pdpt (PDPT_INDEX virt) false 0 with
    | (none, _) => 0
    | (some pd, _) =>
      if st.mem pd (PD_INDEX virt) &&& VMM_HUGE ≠ 0 then
        PTE_GET_ADDR (st.mem pd (PD_INDEX virt))
      else
        match get_or_create st pd (PD_INDEX virt) false 0 with
        | (none, _) => 0
        | (some pt, _) =>
          if st.mem pt (PT_INDEX virt) &&& VMM_PRESENT = 0 then 0
          else PTE_GET_ADDR (st.mem pt (PT_INDEX virt))

/-- vmm_create_address_space from vmm.c lines 100-130: allocate and zero
a fresh pml4, copy the kernel half (entries 256..511) from the kernel
root (the head of roots, created by vmm_init), reference count 1.  The
kmalloc of the descriptor is assumed to succeed; pmm exhaustion fails. -/
def vmm_create_address_space (st : VmState) : Option Nat × VmState :=
  if PHYS_LIMIT ≤ st.next then (none, st)
  else
    (some st.next,
      { mem := fun t i =>
          if t = st.next ∧ 256 ≤ i ∧ i < 512 then
            (if st.roots.headI = st.next then 0
             else st.mem st.roots.headI i)
          else if t = st.next then 0
          else st.mem t i,
        level := fun t => if t = st.next then 4 else st.level t,
        next := st.next + PAGE_SIZE,
        roots := st.roots ++ [st.next] })

/-- State after vmm_init (vmm.c lines 58-98): the kernel pml4 is the
first frame handed out and is zeroed; all other frames hold arbitrary
junk j. -/
def initVM (j : Nat → Nat → Nat) : VmState :=
  { mem := fun t i => if t = 4096 then 0 else j t i,
    level := fun t => if t = 4096 then 4 else 0,
    next := 8192,
    roots := [4096] }

/-- The operations of the address-space manager. -/
inductive VOp where
  | create : VOp
  | map : Nat → Nat → Nat → Nat → VOp
  | unmap : Nat → Nat → VOp

def execVM (st : VmState) : VOp → VmState
  | VOp.create => (vmm_create_address_space st).2
  | VOp.map r v p f => (vmm_map_page st r v p f).2
  | VOp.unmap r v => (vmm_unmap_page st r v).2

/-- A legal call: the space argument is one of the created roots and the
virtual address is a lower-half (user) address, as at every kernel call
site; the remaining arguments are arbitrary uint64 values. -/
def LegalOp (st : VmState) : VOp → Prop
  | VOp.create => True
  | VOp.map r v p f => r ∈ st.roots ∧ v < 2 ^ 47 ∧ p < 2 ^ 64 ∧ f < 2 ^ 64
  | VOp.unmap r v => r ∈ st.roots ∧ v < 2 ^ 47

def execList (st : VmState) : List VOp → VmState
  | [] => st
  | op :: ops => execList (execVM st op) ops

def LegalFrom (st : VmState) : List VOp → Prop
  | [] => True
  | op :: ops => LegalOp st op ∧ LegalFrom (execVM st op) ops

/-- An operation that does not touch the page of v in space r: anything
except a map or unmap of that very page in that very space. -/
def Avoids (r pv : Nat) : VOp → Prop
  | VOp.create => True
  | VOp.map r2 v2 _ _ => r2 ≠ r ∨ PAGE_ALIGN_DOWN v2 ≠ pv
  | VOp.unmap r2 v2 => r2 ≠ r ∨ PAGE_ALIGN_DOWN v2 ≠ pv

def AvoidsAll (r pv : Nat) (ops : List VOp) : Prop :=
  ∀ op, op ∈ ops → Avoids r pv op

/-- States reachable from vmm_init by legal operations. -/
inductive ReachedVM : VmState → Prop
  | init (j : Nat → Nat → Nat) : ReachedVM (initVM j)
  | step {st : VmState} (op : VOp) :
      ReachedVM st → LegalOp st op → ReachedVM (execVM st op)

end Vmm

namespace Vmm

theorem testBit_low_zero {c : Nat} (h : c % 4096 = 0) {i : Nat}
    (hi : i < 12) : c.testBit i = false := by
  obtain ⟨m, rfl⟩ := Nat.dvd_of_mod_eq_zero h
  rw [Nat.testBit_to_div_mod]
  have h12 : (4096 : Nat) = 2 ^ i * 2 ^ (12 - i) := by
    rw [← pow_add]
    have hii : i + (12 - i) = 12 := by omega
    rw [hii]
    norm_num
  rw [h12, Nat.mul_assoc, Nat.mul_div_cancel_left _ (Nat.two_pow_pos i)]
  have h1 : 12 - i = (12 - i - 1) + 1 := by omega
  rw [h1, pow_succ]
  have : 2 ^ (12 - i - 1) * 2 * m = 2 * (2 ^ (12 - i - 1) * m) := by ring
  rw [this, Nat.mul_mod_right]
  decide

theorem testBit_of_and_mask_zero {f : Nat}
    (hf : f &&& (2 ^ 52 - 2 ^ 12) = 0) {i : Nat} (h12 : 12 ≤ i)
    (h52 : i < 52) : f.testBit i = false := by
  have hmask : (2 ^ 52 - 2 ^ 12 : Nat).testBit i = true := by
    have hrw : (2 ^ 52 - 2 ^ 12 : Nat) = 2 ^ 12 * (2 ^ 40 - 1) := by norm_num
    rw [hrw, Nat.testBit_mul_pow_two, Nat.testBit_two_pow_sub_one]
    simp only [ge_iff_le, Bool.and_eq_true, decide_eq_true_eq]
    exact ⟨h12, by omega⟩
  have hz := congrArg (fun x => x.testBit i) hf
  simp only [Nat.testBit_and, Nat.zero_testBit] at hz
  rw [hmask] at hz
  simpa using hz

theorem or_and_one_ne (x : Nat) : (x ||| 1) &&& 1 ≠ 0 := by
  intro h
  have := congrArg (fun y => y.testBit 0) h
  simp only [Nat.testBit_and, Nat.testBit_or, Nat.zero_testBit] at this
  simp at this

theorem or_three_eq (x : Nat) :
    x ||| VMM_PRESENT ||| VMM_WRITABLE ||| VMM_USER = x ||| 7 := by
  unfold VMM_PRESENT VMM_WRITABLE VMM_USER
  rw [Nat.or_assoc, Nat.or_assoc]
  congr 1

theorem or_seven_present (x : Nat) : (x ||| 7) &&& VMM_PRESENT ≠ 0 := by
  unfold VMM_PRESENT
  intro h
  have := congrArg (fun y => y.testBit 0) h
  simp only [Nat.testBit_and, Nat.testBit_or, Nat.zero_testBit] at this
  simp at this

theorem or_seven_not_huge {c : Nat} (h : c % 4096 = 0) :
    (c ||| 7) &&& VMM_HUGE = 0 := by
  unfold VMM_HUGE
  apply Nat.eq_of_testBit_eq
  intro i
  simp only [Nat.testBit_and, Nat.testBit_or, Nat.zero_testBit]
  have h128 : (128 : Nat) = 2 ^ 7 := by norm_num
  rw [h128, Nat.testBit_two_pow]
  by_cases hi : 7 = i
  · subst hi
    rw [testBit_low_zero h (by omega)]
    have : (7 : Nat).testBit 7 = false :=
      Nat.testBit_lt_two_pow (by norm_num)
    rw [this]
    simp
  · simp [hi]

theorem pte_get_addr_or {c f : Nat} (hal : c % 4096 = 0)
    (hlt : c < 2 ^ 52)
    (hf : ∀ i, 12 ≤ i → i < 52 → f.testBit i = false) :
    PTE_GET_ADDR (c ||| f) = c := by
  unfold PTE_GET_ADDR
  apply Nat.eq_of_testBit_eq
  intro i
  simp only [Nat.testBit_and, Nat.testBit_or]
  have hmask : (2 ^ 52 - 2 ^ 12 : Nat).testBit i =
      (decide (12 ≤ i) && decide (i < 52)) := by
    have hrw : (2 ^ 52 - 2 ^ 12 : Nat) = 2 ^ 12 * (2 ^ 40 - 1) := by norm_num
    rw [hrw, Nat.testBit_mul_pow_two, Nat.testBit_two_pow_sub_one]
    rcases Nat.lt_or_ge i 12 with h | h
    · have e1 : decide (i ≥ 12) = false := decide_eq_false (by omega)
      rw [e1, Bool.false_and, Bool.false_and]
    · have e1 : decide (i ≥ 12) = true := decide_eq_true (by omega)
      rw [e1, Bool.true_and, Bool.true_and]
      exact decide_eq_decide.mpr (by omega)
  rw [hmask]
  by_cases h12 : 12 ≤ i
  · by_cases h52 : i < 52
    · rw [hf i h12 h52]
      simp [h12, h52]
    · have hc : c.testBit i = false :=
        Nat.testBit_lt_two_pow (lt_of_lt_of_le hlt
          (Nat.pow_le_pow_right (by norm_num) (by omega)))
      rw [hc]
      simp [h52]
  · have hc : c.testBit i = false := testBit_low_zero hal (by omega)
    rw [hc]
    simp [h12]

end Vmm

namespace Vmm

theorem mask_testBit (k n i : Nat) :
    (2 ^ (k + n) - 2 ^ k : Nat).testBit i =
      (decide (k ≤ i) && decide (i < k + n)) := by
  have hrw : (2 ^ (k + n) - 2 ^ k : Nat) = 2 ^ k * (2 ^ n - 1) := by
    rw [Nat.mul_sub, Nat.pow_add, Nat.mul_one]
  rw [hrw, Nat.testBit_mul_pow_two, Nat.testBit_two_pow_sub_one]
  rcases Nat.lt_or_ge i k with h | h
  · have e1 : decide (i ≥ k) = false := decide_eq_false (by omega)
    rw [e1, Bool.false_and, Bool.false_and]
  · have e1 : decide (i ≥ k) = true := decide_eq_true (by omega)
    rw [e1, Bool.true_and, Bool.true_and]
    exact decide_eq_decide.mpr (by omega)

theorem leaf_present (p f : Nat) :
    (p ||| f ||| VMM_PRESENT) &&& VMM_PRESENT ≠ 0 := by
  unfold VMM_PRESENT
  exact or_and_one_ne (p ||| f)

theorem pte_or7 {c : Nat} (hal : c % 4096 = 0) (hlt : c < 2 ^ 52) :
    PTE_GET_ADDR (c ||| 7) = c := by
  apply pte_get_addr_or hal hlt
  intro i h12 _
  exact Nat.testBit_lt_two_pow
    (lt_of_lt_of_le (by norm_num : (7 : Nat) < 2 ^ 3)
      (Nat.pow_le_pow_right (by norm_num) (by omega)))

theorem pte_leaf {p f : Nat} (hal : p % 4096 = 0) (hlt : p < 2 ^ 52)
    (hf : f &&& (2 ^ 52 - 2 ^ 12) = 0) :
    PTE_GET_ADDR (p ||| f ||| VMM_PRESENT) = p := by
  unfold VMM_PRESENT
  rw [Nat.or_assoc]
  apply pte_get_addr_or hal hlt
  intro i h12 h52
  rw [Nat.testBit_or, testBit_of_and_mask_zero hf h12 h52]
  have h1 : (1 : Nat).testBit i = false :=
    Nat.testBit_lt_two_pow
      (lt_of_lt_of_le (by norm_num : (1 : Nat) < 2 ^ 1)
        (Nat.pow_le_pow_right (by norm_num) (by omega)))
  rw [h1]
  rfl

theorem align_mod (a : Nat) : PAGE_ALIGN_DOWN a % 4096 = 0 := by
  unfold PAGE_ALIGN_DOWN
  have h : (4096 : Nat) = 2 ^ 12 := by norm_num
  rw [h, ← Nat.and_pow_two_sub_one_eq_mod, Nat.and_assoc]
  have h2 : ((2 ^ 64 - 2 ^ 12) &&& (2 ^ 12 - 1) : Nat) = 0 := by decide
  rw [h2, Nat.and_zero]

theorem align_le (a : Nat) : PAGE_ALIGN_DOWN a ≤ a := Nat.and_le_left

theorem align_div_form {a : Nat} (h : a < 2 ^ 64) :
    PAGE_ALIGN_DOWN a = a / 4096 * 4096 := by
  unfold PAGE_ALIGN_DOWN
  apply Nat.eq_of_testBit_eq
  intro i
  have hm : (2 ^ 64 - 2 ^ 12 : Nat) = 2 ^ (12 + 52) - 2 ^ 12 := by norm_num
  rw [Nat.testBit_and, hm, mask_testBit]
  have hq : a / 4096 * 4096 = 2 ^ 12 * (a >>> 12) := by
    rw [Nat.shiftRight_eq_div_pow]
    have h46 : (4096 : Nat) = 2 ^ 12 := by norm_num
    rw [h46, Nat.mul_comm]
  rw [hq, Nat.testBit_mul_pow_two]
  rcases Nat.lt_or_ge i 12 with hi | hi
  · have e1 : decide (12 ≤ i) = false := decide_eq_false (by omega)
    rw [e1]
    simp
  · rcases Nat.lt_or_ge i 64 with hi64 | hi64
    · have e1 : decide (12 ≤ i) = true := decide_eq_true (by omega)
      have e2 : decide (i < 12 + 52) = true := decide_eq_true (by omega)
      rw [e1, e2]
      simp only [Bool.and_true, Bool.true_and]
      rw [Nat.testBit_shiftRight]
      congr 1
      omega
    · have e1 : decide (12 ≤ i) = true := decide_eq_true (by omega)
      have e2 : decide (i < 12 + 52) = false := decide_eq_false (by omega)
      rw [e1, e2]
      simp only [Bool.and_false, Bool.true_and]
      rw [Nat.testBit_shiftRight]
      have hz : a.testBit (12 + (i - 12)) = false :=
        Nat.testBit_lt_two_pow (lt_of_lt_of_le h
          (Nat.pow_le_pow_right (by norm_num) (by omega)))
      rw [hz]

theorem pml4_eq (a : Nat) : PML4_INDEX a = a / 2 ^ 39 % 512 := by
  unfold PML4_INDEX
  rw [Nat.shiftRight_eq_div_pow]
  have h : (0x1FF : Nat) = 2 ^ 9 - 1 := by norm_num
  rw [h, Nat.and_pow_two_sub_one_eq_mod]

theorem pdpt_eq (a : Nat) : PDPT_INDEX a = a / 2 ^ 30 % 512 := by
  unfold PDPT_INDEX
  rw [Nat.shiftRight_eq_div_pow]
  have h : (0x1FF : Nat) = 2 ^ 9 - 1 := by norm_num
  rw [h, Nat.and_pow_two_sub_one_eq_mod]

theorem pd_eq (a : Nat) : PD_INDEX a = a / 2 ^ 21 % 512 := by
  unfold PD_INDEX
  rw [Nat.shiftRight_eq_div_pow]
  have h : (0x1FF : Nat) = 2 ^ 9 - 1 := by norm_num
  rw [h, Nat.and_pow_two_sub_one_eq_mod]

theorem pt_eq (a : Nat) : PT_INDEX a = a / 2 ^ 12 % 512 := by
  unfold PT_INDEX
  rw [Nat.shiftRight_eq_div_pow]
  have h : (0x1FF : Nat) = 2 ^ 9 - 1 := by norm_num
  rw [h, Nat.and_pow_two_sub_one_eq_mod]

theorem pml4_align {a : Nat} (h : a < 2 ^ 64) :
    PML4_INDEX (PAGE_ALIGN_DOWN a) = PML4_INDEX a := by
  rw [pml4_eq, pml4_eq, align_div_form h]
  omega

theorem pdpt_align {a : Nat} (h : a < 2 ^ 64) :
    PDPT_INDEX (PAGE_ALIGN_DOWN a) = PDPT_INDEX a := by
  rw [pdpt_eq, pdpt_eq, align_div_form h]
  omega

theorem pd_align {a : Nat} (h : a < 2 ^ 64) :
    PD_INDEX (PAGE_ALIGN_DOWN a) = PD_INDEX a := by
  rw [pd_eq, pd_eq, align_div_form h]
  omega

theorem pt_align {a : Nat} (h : a < 2 ^ 64) :
    PT_INDEX (PAGE_ALIGN_DOWN a) = PT_INDEX a := by
  rw [pt_eq, pt_eq, align_div_form h]
  omega

theorem pml4_lt (a : Nat) : PML4_INDEX a < 512 := by
  rw [pml4_eq]; omega

theorem pdpt_lt (a : Nat) : PDPT_INDEX a < 512 := by
  rw [pdpt_eq]; omega

theorem pd_lt (a : Nat) : PD_INDEX a < 512 := by
  rw [pd_eq]; omega

theorem pt_lt (a : Nat) : PT_INDEX a < 512 := by
  rw [pt_eq]; omega

theorem pml4_lower {a : Nat} (h : a < 2 ^ 47) : PML4_INDEX a < 256 := by
  rw [pml4_eq]; omega

/-- Two lower-half addresses on the same page have the same four indices;
contrapositively, distinct pages differ in at least one index. -/
theorem align_eq_of_idx {v w : Nat} (hv : v < 2 ^ 47) (hw : w < 2 ^ 47)
    (h4 : PML4_INDEX v = PML4_INDEX w) (h3 : PDPT_INDEX v = PDPT_INDEX w)
    (h2 : PD_INDEX v = PD_INDEX w) (h1 : PT_INDEX v = PT_INDEX w) :
    PAGE_ALIGN_DOWN v = PAGE_ALIGN_DOWN w := by
  rw [pml4_eq, pml4_eq] at h4
  rw [pdpt_eq, pdpt_eq] at h3
  rw [pd_eq, pd_eq] at h2
  rw [pt_eq, pt_eq] at h1
  rw [align_div_form (lt_trans hv (by norm_num)),
      align_div_form (lt_trans hw (by norm_num))]
  omega

end Vmm
namespace Vmm

/-- An intermediate (non-leaf) page-table entry is either clear or the
standard present|writable|user pointer to a child table of ghost level l,
exactly as vmm_get_or_create_table writes it. -/
def inter_ok (st : VmState) (t i l : Nat) : Prop :=
  st.mem t i = 0 ∨ ∃ c, st.mem t i = c ||| 7 ∧ st.level c = l

/-- The structural invariant of reachable vmm states: the frame counter
is page-aligned and within the physical limit, roots are exactly the
level-4 tables, every table is an allocated aligned frame, intermediate
entries are well-formed pointers one level down, upper-half root entries
are clear (the kernel root is never populated and creation copies it),
and distinct present intermediate entries point to distinct children. -/
structure Inv (st : VmState) : Prop where
  next_al : st.next % 4096 = 0
  next_pos : 4096 ≤ st.next
  next_le : st.next ≤ 2 ^ 52
  roots_ne : st.roots ≠ []
  roots_nd : st.roots.Nodup
  root_lvl : ∀ r, r ∈ st.roots → st.level r = 4
  lvl_root : ∀ t, st.level t = 4 → t ∈ st.roots
  lvl_le : ∀ t, st.level t ≤ 4
  tab_wf : ∀ t, 1 ≤ st.level t → t % 4096 = 0 ∧ 4096 ≤ t ∧ t < st.next
  ent4 : ∀ t i, st.level t = 4 → i < 256 → inter_ok st t i 3
  ent4_hi : ∀ t i, st.level t = 4 → 256 ≤ i → st.mem t i = 0
  ent3 : ∀ t i, st.level t = 3 → i < 512 → inter_ok st t i 2
  ent2 : ∀ t i, st.level t = 2 → i < 512 → inter_ok st t i 1
  inj : ∀ t1 i1 t2 i2, 2 ≤ st.level t1 → 2 ≤ st.level t2 →
      i1 < 512 → i2 < 512 →
      st.mem t1 i1 &&& VMM_PRESENT ≠ 0 → st.mem t2 i2 &&& VMM_PRESENT ≠ 0 →
      PTE_GET_ADDR (st.mem t1 i1) = PTE_GET_ADDR (st.mem t2 i2) →
      t1 = t2 ∧ i1 = i2

theorem zero_absent : (0 : Nat) &&& VMM_PRESENT = 0 := by decide

theorem child_of_inter {st : VmState} (hInv : Inv st) {t i l : Nat}
    (h : inter_ok st t i l) (hl : 1 ≤ l)
    (hp : st.mem t i &&& VMM_PRESENT ≠ 0) :
    ∃ c, st.mem t i = c ||| 7 ∧ st.level c = l ∧ c % 4096 = 0 ∧
      4096 ≤ c ∧ c < st.next ∧ PTE_GET_ADDR (st.mem t i) = c := by
  rcases h with h0 | ⟨c, hc, hlc⟩
  · rw [h0] at hp
    exact absurd zero_absent hp
  · have hw := hInv.tab_wf c (by omega)
    have hlt52 : c < 2 ^ 52 := lt_of_lt_of_le hw.2.2 hInv.next_le
    exact ⟨c, hc, hlc, hw.1, hw.2.1, hw.2.2, by rw [hc]; exact pte_or7 hw.1 hlt52⟩

/-- Branch-free characterization of get_or_create with create = false. -/
theorem goc_false (st : VmState) (t i lvl : Nat) :
    get_or_create st t i false lvl =
      (if st.mem t i &&& VMM_PRESENT = 0 then none
       else some (PTE_GET_ADDR (st.mem t i)), st) := by
  unfold get_or_create
  by_cases h : st.mem t i &&& VMM_PRESENT = 0
  · rw [if_pos h, if_pos h]
    rfl
  · rw [if_neg h, if_neg h]

/-- Three-way characterization of get_or_create with create = true. -/
theorem goc_true_cases (st : VmState) (t i lvl : Nat) :
    (st.mem t i &&& VMM_PRESENT ≠ 0 ∧
      get_or_create st t i true lvl =
        (some (PTE_GET_ADDR (st.mem t i)), st)) ∨
    (st.mem t i &&& VMM_PRESENT = 0 ∧ PHYS_LIMIT ≤ st.next ∧
      get_or_create st t i true lvl = (none, st)) ∨
    (st.mem t i &&& VMM_PRESENT = 0 ∧ st.next < PHYS_LIMIT ∧
      get_or_create st t i true lvl =
        (some (PTE_GET_ADDR
            (st.next ||| VMM_PRESENT ||| VMM_WRITABLE ||| VMM_USER)),
         { mem := fun x j =>
             if x = t ∧ j = i then
               st.next ||| VMM_PRESENT ||| VMM_WRITABLE ||| VMM_USER
             else if x = st.next then 0
             else st.mem x j,
           level := fun x => if x = st.next then lvl else st.level x,
           next := st.next + PAGE_SIZE,
           roots := st.roots })) := by
  unfold get_or_create
  by_cases h : st.mem t i &&& VMM_PRESENT = 0
  · by_cases hl : PHYS_LIMIT ≤ st.next
    · refine Or.inr (Or.inl ⟨h, hl, ?_⟩)
      rw [if_pos h, if_neg (by simp : ¬ (true = false)), if_pos hl]
    · refine Or.inr (Or.inr ⟨h, by omega, ?_⟩)
      rw [if_pos h, if_neg (by simp : ¬ (true = false)), if_neg hl]
  · exact Or.inl ⟨h, by rw [if_neg h]⟩

end Vmm

namespace Vmm

/-- Following one present page-table entry, as the walk in
vmm_get_or_create_table does without create. -/
def ptr (st : VmState) (t i : Nat) : Option Nat :=
  if st.mem t i &&& VMM_PRESENT = 0 then none
  else some (PTE_GET_ADDR (st.mem t i))

/-- The pdpt (level-3 table) on the walk of v (v page-aligned). -/
def pdptOf (st : VmState) (r v : Nat) : Option Nat :=
  ptr st r (PML4_INDEX v)

/-- The pd (level-2 table) on the walk of v. -/
def pdOf (st : VmState) (r v : Nat) : Option Nat :=
  match pdptOf st r v with
  | none => none
  | some t3 => ptr st t3 (PDPT_INDEX v)

/-- The pt (level-1 leaf table) on the walk of v. -/
def ptOf (st : VmState) (r v : Nat) : Option Nat :=
  match pdOf st r v with
  | none => none
  | some t2 => ptr st t2 (PD_INDEX v)

theorem pdptOf_level {st : VmState} (hInv : Inv st) {r v t3 : Nat}
    (hr : r ∈ st.roots) (hv : PML4_INDEX v < 256)
    (h : pdptOf st r v = some t3) :
    st.level t3 = 3 ∧ st.mem r (PML4_INDEX v) = t3 ||| 7 ∧ t3 < st.next := by
  unfold pdptOf ptr at h
  by_cases hp : st.mem r (PML4_INDEX v) &&& VMM_PRESENT = 0
  · rw [if_pos hp] at h
    exact absurd h (by simp)
  · rw [if_neg hp] at h
    obtain ⟨c, hc, hlc, _, _, hcn, hpte⟩ :=
      child_of_inter hInv (hInv.ent4 r (PML4_INDEX v)
        (hInv.root_lvl r hr) hv) (by omega) hp
    have : c = t3 := by rw [hpte] at h; injection h
    subst this
    exact ⟨hlc, hc, hcn⟩

theorem pdOf_level {st : VmState} (hInv : Inv st) {r v t2 : Nat}
    (hr : r ∈ st.roots) (hv : PML4_INDEX v < 256)
    (h : pdOf st r v = some t2) :
    ∃ t3, pdptOf st r v = some t3 ∧ st.level t3 = 3 ∧
      st.level t2 = 2 ∧ st.mem t3 (PDPT_INDEX v) = t2 ||| 7 ∧
      t2 < st.next := by
  unfold pdOf at h
  cases h3 : pdptOf st r v with
  | none => rw [h3] at h; exact absurd h (by simp)
  | some t3 =>
    rw [h3] at h
    dsimp only at h
    obtain ⟨hl3, he3, hn3⟩ := pdptOf_level hInv hr hv h3
    unfold ptr at h
    by_cases hp : st.mem t3 (PDPT_INDEX v) &&& VMM_PRESENT = 0
    · rw [if_pos hp] at h
      exact absurd h (by simp)
    · rw [if_neg hp] at h
      obtain ⟨c, hc, hlc, _, _, hcn, hpte⟩ :=
        child_of_inter hInv (hInv.ent3 t3 (PDPT_INDEX v) hl3 (pdpt_lt v))
          (by omega) hp
      have : c = t2 := by rw [hpte] at h; injection h
      subst this
      exact ⟨t3, rfl, hl3, hlc, hc, hcn⟩

theorem ptOf_level {st : VmState} (hInv : Inv st) {r v t1 : Nat}
    (hr : r ∈ st.roots) (hv : PML4_INDEX v < 256)
    (h : ptOf st r v = some t1) :
    ∃ t2, pdOf st r v = some t2 ∧ st.level t2 = 2 ∧
      st.level t1 = 1 ∧ st.mem t2 (PD_INDEX v) = t1 ||| 7 ∧
      t1 < st.next := by
  unfold ptOf at h
  cases h2 : pdOf st r v with
  | none => rw [h2] at h; exact absurd h (by simp)
  | some t2 =>
    rw [h2] at h
    dsimp only at h
    obtain ⟨t3, _, _, hl2, _, _⟩ := pdOf_level hInv hr hv h2
    unfold ptr at h
    by_cases hp : st.mem t2 (PD_INDEX v) &&& VMM_PRESENT = 0
    · rw [if_pos hp] at h
      exact absurd h (by simp)
    · rw [if_neg hp] at h
      obtain ⟨c, hc, hlc, _, _, hcn, hpte⟩ :=
        child_of_inter hInv (hInv.ent2 t2 (PD_INDEX v) hl2 (pd_lt v))
          (by omega) hp
      have : c = t1 := by rw [hpte] at h; injection h
      subst this
      exact ⟨t2, rfl, hl2, hlc, hc, hcn⟩

end Vmm

namespace Vmm

theorem get_physical_char {st : VmState} (hInv : Inv st) {r v : Nat}
    (hr : r ∈ st.roots) (hv : v < 2 ^ 47) :
    vmm_get_physical st r v =
      match ptOf st r (PAGE_ALIGN_DOWN v) with
      | none => 0
      | some t1 =>
        if st.mem t1 (PT_INDEX (PAGE_ALIGN_DOWN v)) &&& VMM_PRESENT = 0
        then 0
        else PTE_GET_ADDR (st.mem t1 (PT_INDEX (PAGE_ALIGN_DOWN v))) := by
  have hva : PAGE_ALIGN_DOWN v < 2 ^ 47 := lt_of_le_of_lt (align_le v) hv
  have hi4 : PML4_INDEX (PAGE_ALIGN_DOWN v) < 256 := pml4_lower hva
  simp only [vmm_get_physical]
  rw [goc_false st r (PML4_INDEX (PAGE_ALIGN_DOWN v)) 0]
  by_cases h4 : st.mem r (PML4_INDEX (PAGE_ALIGN_DOWN v)) &&& VMM_PRESENT = 0
  · rw [if_pos h4]
    have hpt : ptOf st r (PAGE_ALIGN_DOWN v) = none := by
      unfold ptOf pdOf pdptOf ptr
      rw [if_pos h4]
    rw [hpt]
  · obtain ⟨c3, hc3, hl3, _, _, hn3, hpte3⟩ :=
      child_of_inter hInv (hInv.ent4 r _ (hInv.root_lvl r hr) hi4)
        (by omega) h4
    rw [if_neg h4, hpte3]
    dsimp only
    have hpdpt : pdptOf st r (PAGE_ALIGN_DOWN v) = some c3 := by
      unfold pdptOf ptr
      rw [if_neg h4, hpte3]
    rw [goc_false st c3 (PDPT_INDEX (PAGE_ALIGN_DOWN v)) 0]
    by_cases h3 : st.mem c3 (PDPT_INDEX (PAGE_ALIGN_DOWN v)) &&&
        VMM_PRESENT = 0
    · rw [if_pos h3]
      have hpt : ptOf st r (PAGE_ALIGN_DOWN v) = none := by
        unfold ptOf pdOf
        rw [hpdpt]
        dsimp only
        unfold ptr
        rw [if_pos h3]
      rw [hpt]
    · obtain ⟨c2, hc2, hl2, _, _, hn2, hpte2⟩ :=
        child_of_inter hInv (hInv.ent3 c3 _ hl3 (pdpt_lt _)) (by omega) h3
      rw [if_neg h3, hpte2]
      dsimp only
      have hpd : pdOf st r (PAGE_ALIGN_DOWN v) = some c2 := by
        unfold pdOf
        rw [hpdpt]
        dsimp only
        unfold ptr
        rw [if_neg h3, hpte2]
      rcases hInv.ent2 c2 (PD_INDEX (PAGE_ALIGN_DOWN v)) hl2 (pd_lt _) with
        h20 | ⟨c1, hc1, hl1⟩
      · rw [h20]
        rw [if_neg (by unfold VMM_HUGE; decide :
          ¬ ((0 : Nat) &&& VMM_HUGE ≠ 0))]
        rw [goc_false st c2 (PD_INDEX (PAGE_ALIGN_DOWN v)) 0]
        rw [if_pos (by rw [h20]; exact zero_absent)]
        have hpt : ptOf st r (PAGE_ALIGN_DOWN v) = none := by
          unfold ptOf
          rw [hpd]
          dsimp only
          unfold ptr
          rw [if_pos (by rw [h20]; exact zero_absent)]
        rw [hpt]
      · have hal1 : c1 % 4096 = 0 := (hInv.tab_wf c1 (by omega)).1
        have hlt1 : c1 < 2 ^ 52 :=
          lt_of_lt_of_le (hInv.tab_wf c1 (by omega)).2.2 hInv.next_le
        rw [hc1]
        rw [if_neg (by
          rw [or_seven_not_huge hal1]
          simp)]
        rw [goc_false st c2 (PD_INDEX (PAGE_ALIGN_DOWN v)) 0]
        have hp1 : ¬ (st.mem c2 (PD_INDEX (PAGE_ALIGN_DOWN v)) &&&
            VMM_PRESENT = 0) := by
          rw [hc1]
          exact or_seven_present c1
        have hpt : ptOf st r (PAGE_ALIGN_DOWN v) = some c1 := by
          unfold ptOf
          rw [hpd]
          dsimp only
          unfold ptr
          rw [if_neg hp1, hc1, pte_or7 hal1 hlt1]
        rw [if_neg hp1, hc1, pte_or7 hal1 hlt1]
        dsimp only
        rw [hpt]

end Vmm

namespace Vmm

theorem ptr_present {st : VmState} {t i x : Nat} (h : ptr st t i = some x) :
    st.mem t i &&& VMM_PRESENT ≠ 0 ∧ PTE_GET_ADDR (st.mem t i) = x := by
  unfold ptr at h
  by_cases hp : st.mem t i &&& VMM_PRESENT = 0
  · rw [if_pos hp] at h
    exact absurd h (by simp)
  · rw [if_neg hp] at h
    exact ⟨hp, by injection h⟩

theorem pdptOf_inj {st : VmState} (hInv : Inv st) {r1 v1 r2 v2 x : Nat}
    (hr1 : r1 ∈ st.roots) (hr2 : r2 ∈ st.roots)
    (h1 : pdptOf st r1 v1 = some x) (h2 : pdptOf st r2 v2 = some x) :
    r1 = r2 ∧ PML4_INDEX v1 = PML4_INDEX v2 := by
  obtain ⟨hp1, he1⟩ := ptr_present h1
  obtain ⟨hp2, he2⟩ := ptr_present h2
  exact hInv.inj r1 (PML4_INDEX v1) r2 (PML4_INDEX v2)
    (by rw [hInv.root_lvl r1 hr1]; omega) (by rw [hInv.root_lvl r2 hr2]; omega)
    (pml4_lt v1) (pml4_lt v2) hp1 hp2 (by rw [he1, he2])

theorem pdOf_inj {st : VmState} (hInv : Inv st) {r1 v1 r2 v2 x : Nat}
    (hr1 : r1 ∈ st.roots) (hr2 : r2 ∈ st.roots)
    (hv1 : PML4_INDEX v1 < 256) (hv2 : PML4_INDEX v2 < 256)
    (h1 : pdOf st r1 v1 = some x) (h2 : pdOf st r2 v2 = some x) :
    r1 = r2 ∧ PML4_INDEX v1 = PML4_INDEX v2 ∧
      PDPT_INDEX v1 = PDPT_INDEX v2 := by
  obtain ⟨t31, h31, hl31, _, _, _⟩ := pdOf_level hInv hr1 hv1 h1
  obtain ⟨t32, h32, hl32, _, _, _⟩ := pdOf_level hInv hr2 hv2 h2
  unfold pdOf at h1 h2
  rw [h31] at h1
  rw [h32] at h2
  dsimp only at h1 h2
  obtain ⟨hp1, he1⟩ := ptr_present h1
  obtain ⟨hp2, he2⟩ := ptr_present h2
  have h33 := hInv.inj t31 (PDPT_INDEX v1) t32 (PDPT_INDEX v2)
    (by omega) (by omega) (pdpt_lt v1) (pdpt_lt v2) hp1 hp2
    (by rw [he1, he2])
  have hr := pdptOf_inj hInv hr1 hr2 h31 (h33.1 ▸ h32)
  exact ⟨hr.1, hr.2, h33.2⟩

theorem ptOf_inj {st : VmState} (hInv : Inv st) {r1 v1 r2 v2 x : Nat}
    (hr1 : r1 ∈ st.roots) (hr2 : r2 ∈ st.roots)
    (hv1 : PML4_INDEX v1 < 256) (hv2 : PML4_INDEX v2 < 256)
    (h1 : ptOf st r1 v1 = some x) (h2 : ptOf st r2 v2 = some x) :
    r1 = r2 ∧ PML4_INDEX v1 = PML4_INDEX v2 ∧
      PDPT_INDEX v1 = PDPT_INDEX v2 ∧ PD_INDEX v1 = PD_INDEX v2 := by
  obtain ⟨t21, h21, hl21, _, _, _⟩ := ptOf_level hInv hr1 hv1 h1
  obtain ⟨t22, h22, hl22, _, _, _⟩ := ptOf_level hInv hr2 hv2 h2
  unfold ptOf at h1 h2
  rw [h21] at h1
  rw [h22] at h2
  dsimp only at h1 h2
  obtain ⟨hp1, he1⟩ := ptr_present h1
  obtain ⟨hp2, he2⟩ := ptr_present h2
  have h23 := hInv.inj t21 (PD_INDEX v1) t22 (PD_INDEX v2)
    (by omega) (by omega) (pd_lt v1) (pd_lt v2) hp1 hp2
    (by rw [he1, he2])
  have hr := pdOf_inj hInv hr1 hr2 hv1 hv2 h21 (h23.1 ▸ h22)
  exact ⟨hr.1, hr.2.1, hr.2.2, h23.2⟩

end Vmm

namespace Vmm

theorem inter_ok_transfer {st st' : VmState} {x j l : Nat}
    (hmem : st'.mem x j = st.mem x j)
    (hlvl : ∀ y, y < st.next → st'.level y = st.level y)
    (hwf : ∀ y, 1 ≤ st.level y → y < st.next)
    (h : inter_ok st x j l) (hl : 1 ≤ l) : inter_ok st' x j l := by
  rcases h with h0 | ⟨c, hc, hlc⟩
  · exact Or.inl (by rw [hmem, h0])
  · refine Or.inr ⟨c, by rw [hmem, hc], ?_⟩
    rw [hlvl c (hwf c (by omega)), hlc]

/-- Any present entry of a parent-level table points below the frame
counter. -/
theorem old_childval_lt {st : VmState} (hInv : Inv st) {x j : Nat}
    (hx2 : 2 ≤ st.level x) (hj : j < 512)
    (hp : st.mem x j &&& VMM_PRESENT ≠ 0) :
    PTE_GET_ADDR (st.mem x j) < st.next := by
  have hx4 := hInv.lvl_le x
  have hcases : st.level x = 2 ∨ st.level x = 3 ∨ st.level x = 4 := by omega
  rcases hcases with hlv | hlv | hlv
  · obtain ⟨c, _, _, _, _, hcn, hpte⟩ :=
      child_of_inter hInv (hInv.ent2 x j hlv hj) (by omega) hp
    rw [hpte]; exact hcn
  · obtain ⟨c, _, _, _, _, hcn, hpte⟩ :=
      child_of_inter hInv (hInv.ent3 x j hlv hj) (by omega) hp
    rw [hpte]; exact hcn
  · by_cases hj256 : j < 256
    · obtain ⟨c, _, _, _, _, hcn, hpte⟩ :=
        child_of_inter hInv (hInv.ent4 x j hlv hj256) (by omega) hp
      rw [hpte]; exact hcn
    · rw [hInv.ent4_hi x j hlv (by omega)] at hp
      exact absurd zero_absent hp

end Vmm

namespace Vmm

theorem goc_step {st : VmState} (hInv : Inv st) {t i L : Nat}
    (hlt : st.level t = L) (hL2 : 2 ≤ L) (hL4 : L ≤ 4)
    (hok : inter_ok st t i (L - 1))
    (hi : i < 512) (hi256 : L = 4 → i < 256) :
    get_or_create st t i true (L - 1) = (none, st) ∨
    (∃ c st', get_or_create st t i true (L - 1) = (some c, st') ∧
      Inv st' ∧ st'.roots = st.roots ∧
      st.next ≤ st'.next ∧ st'.next ≤ st.next + PAGE_SIZE ∧
      st'.level c = L - 1 ∧ c % 4096 = 0 ∧ 4096 ≤ c ∧ c < st'.next ∧
      (∀ x, x < st.next → st'.level x = st.level x) ∧
      st'.mem t i = c ||| 7 ∧
      (∀ x j, ¬ (x = t ∧ j = i) → x < st.next → st'.mem x j = st.mem x j) ∧
      (st' = st ∨ st.mem t i &&& VMM_PRESENT = 0)) := by
  have ht_lt : t < st.next := (hInv.tab_wf t (by omega)).2.2
  rcases goc_true_cases st t i (L - 1) with ⟨hp, heq⟩ | ⟨hp, hlim, heq⟩ |
    ⟨hp, hfree, heq⟩
  · obtain ⟨c, hc, hlc, hcal, hc4, hcn, hpte⟩ :=
      child_of_inter hInv hok (by omega) hp
    exact Or.inr ⟨c, st, by rw [heq, hpte], hInv, rfl, le_refl _,
      by unfold PAGE_SIZE; omega, hlc, hcal, hc4, hcn,
      fun x _ => rfl, hc, fun x j _ _ => rfl, Or.inl rfl⟩
  · exact Or.inl (by rw [heq])
  · have hal : st.next % 4096 = 0 := hInv.next_al
    have hlt52 : st.next < 2 ^ 52 := hfree
    have hval : PTE_GET_ADDR
        (st.next ||| VMM_PRESENT ||| VMM_WRITABLE ||| VMM_USER) =
        st.next := by
      rw [or_three_eq]
      exact pte_or7 hal hlt52
    have hfl : st.level st.next = 0 := by
      by_contra hx
      have := (hInv.tab_wf st.next (by omega)).2.2
      omega
    have htf : t ≠ st.next := by omega
    set stn : VmState :=
      { mem := fun x j =>
          if x = t ∧ j = i then
            st.next ||| VMM_PRESENT ||| VMM_WRITABLE ||| VMM_USER
          else if x = st.next then 0
          else st.mem x j,
        level := fun x => if x = st.next then L - 1 else st.level x,
        next := st.next + PAGE_SIZE,
        roots := st.roots } with hstn
    have hmem_new : stn.mem t i = st.next ||| 7 := by
      rw [hstn]
      dsimp only
      rw [if_pos ⟨rfl, rfl⟩, or_three_eq]
    have hmem_fresh : ∀ j, stn.mem st.next j = 0 := by
      intro j
      rw [hstn]
      dsimp only
      rw [if_neg (by intro hx; exact htf hx.1.symm), if_pos rfl]
    have hmem_old : ∀ x j, ¬ (x = t ∧ j = i) → x ≠ st.next →
        stn.mem x j = st.mem x j := by
      intro x j hs hxf
      rw [hstn]
      dsimp only
      rw [if_neg hs, if_neg hxf]
    have hlvl_old : ∀ x, x ≠ st.next → stn.level x = st.level x := by
      intro x hx
      rw [hstn]
      dsimp only
      rw [if_neg hx]
    have hlvl_oldlt : ∀ x, x < st.next → stn.level x = st.level x :=
      fun x hx => hlvl_old x (by omega)
    have hlvl_fresh : stn.level st.next = L - 1 := by
      rw [hstn]
      dsimp only
      rw [if_pos rfl]
    have hwfn : ∀ y, 1 ≤ st.level y → y < st.next :=
      fun y hy => (hInv.tab_wf y hy).2.2
    have hInvn : Inv stn := by
      refine ⟨?_, ?_, ?_, ?_, ?_, ?_, ?_, ?_, ?_, ?_, ?_, ?_, ?_, ?_⟩
      · show (st.next + PAGE_SIZE) % 4096 = 0
        unfold PAGE_SIZE
        omega
      · show 4096 ≤ st.next + PAGE_SIZE
        unfold PAGE_SIZE
        omega
      · show st.next + PAGE_SIZE ≤ 2 ^ 52
        unfold PAGE_SIZE
        have := hInv.next_le
        omega
      · exact hInv.roots_ne
      · exact hInv.roots_nd
      · intro r hr
        have hr4 := hInv.root_lvl r hr
        rw [hlvl_old r (by have := hwfn r (by omega); omega)]
        exact hr4
      · intro x hx
        by_cases hxf : x = st.next
        · rw [hxf, hlvl_fresh] at hx
          omega
        · rw [hlvl_old x hxf] at hx
          exact hInv.lvl_root x hx
      · intro x
        by_cases hxf : x = st.next
        · rw [hxf, hlvl_fresh]
          omega
        · rw [hlvl_old x hxf]
          exact hInv.lvl_le x
      · intro x hx
        by_cases hxf : x = st.next
        · rw [hxf]
          show st.next % 4096 = 0 ∧ 4096 ≤ st.next ∧
            st.next < st.next + PAGE_SIZE
          unfold PAGE_SIZE
          exact ⟨hal, hInv.next_pos, by omega⟩
        · rw [hlvl_old x hxf] at hx
          have := hInv.tab_wf x hx
          show x % 4096 = 0 ∧ 4096 ≤ x ∧ x < st.next + PAGE_SIZE
          unfold PAGE_SIZE
          omega
      · -- ent4
        intro x j2 hlx hj2
        by_cases hxf : x = st.next
        · rw [hxf, hlvl_fresh] at hlx
          omega
        · rw [hlvl_old x hxf] at hlx
          by_cases hs : x = t ∧ j2 = i
          · have hL4eq : L = 4 := by rw [← hlt, ← hs.1]; exact hlx
            refine Or.inr ⟨st.next, ?_, ?_⟩
            · rw [hs.1, hs.2, hmem_new]
            · rw [hlvl_fresh]
              omega
          · exact inter_ok_transfer (hmem_old x j2 hs hxf) hlvl_oldlt hwfn
              (hInv.ent4 x j2 hlx hj2) (by omega)
      · -- ent4_hi
        intro x j2 hlx hj2
        by_cases hxf : x = st.next
        · rw [hxf, hlvl_fresh] at hlx
          omega
        · rw [hlvl_old x hxf] at hlx
          by_cases hs : x = t ∧ j2 = i
          · exfalso
            have hL4eq : L = 4 := by rw [← hlt, ← hs.1]; exact hlx
            have := hi256 hL4eq
            omega
          · rw [hmem_old x j2 hs hxf]
            exact hInv.ent4_hi x j2 hlx hj2
      · -- ent3
        intro x j2 hlx hj2
        by_cases hxf : x = st.next
        · refine Or.inl ?_
          rw [hxf, hmem_fresh]
        · rw [hlvl_old x hxf] at hlx
          by_cases hs : x = t ∧ j2 = i
          · have hL3eq : L = 3 := by rw [← hlt, ← hs.1]; exact hlx
            refine Or.inr ⟨st.next, ?_, ?_⟩
            · rw [hs.1, hs.2, hmem_new]
            · rw [hlvl_fresh]
              omega
          · exact inter_ok_transfer (hmem_old x j2 hs hxf) hlvl_oldlt hwfn
              (hInv.ent3 x j2 hlx hj2) (by omega)
      · -- ent2
        intro x j2 hlx hj2
        by_cases hxf : x = st.next
        · refine Or.inl ?_
          rw [hxf, hmem_fresh]
        · rw [hlvl_old x hxf] at hlx
          by_cases hs : x = t ∧ j2 = i
          · have hL2eq : L = 2 := by rw [← hlt, ← hs.1]; exact hlx
            refine Or.inr ⟨st.next, ?_, ?_⟩
            · rw [hs.1, hs.2, hmem_new]
            · rw [hlvl_fresh]
              omega
          · exact inter_ok_transfer (hmem_old x j2 hs hxf) hlvl_oldlt hwfn
              (hInv.ent2 x j2 hlx hj2) (by omega)
      · -- inj
        intro x1 j1 x2 j2 h21 h22 hj1 hj2 hp1 hp2 hcv
        by_cases hx1f : x1 = st.next
        · exfalso
          rw [hx1f, hmem_fresh] at hp1
          exact absurd zero_absent hp1
        · by_cases hx2f : x2 = st.next
          · exfalso
            rw [hx2f, hmem_fresh] at hp2
            exact absurd zero_absent hp2
          · rw [hlvl_old x1 hx1f] at h21
            rw [hlvl_old x2 hx2f] at h22
            by_cases hs1 : x1 = t ∧ j1 = i
            · by_cases hs2 : x2 = t ∧ j2 = i
              · exact ⟨by rw [hs1.1, hs2.1], by rw [hs1.2, hs2.2]⟩
              · exfalso
                rw [hs1.1, hs1.2, hmem_new] at hcv
                rw [hmem_old x2 j2 hs2 hx2f] at hcv hp2
                have hbound := old_childval_lt hInv h22 hj2 hp2
                rw [pte_or7 hal hlt52] at hcv
                omega
            · by_cases hs2 : x2 = t ∧ j2 = i
              · exfalso
                rw [hs2.1, hs2.2, hmem_new] at hcv
                rw [hmem_old x1 j1 hs1 hx1f] at hcv hp1
                have hbound := old_childval_lt hInv h21 hj1 hp1
                rw [pte_or7 hal hlt52] at hcv
                omega
              · rw [hmem_old x1 j1 hs1 hx1f] at hcv hp1
                rw [hmem_old x2 j2 hs2 hx2f] at hcv hp2
                exact hInv.inj x1 j1 x2 j2 h21 h22 hj1 hj2 hp1 hp2 hcv
    refine Or.inr ⟨st.next, stn, ?_, hInvn, rfl, ?_, ?_, ?_, hal,
      hInv.next_pos, ?_, hlvl_oldlt, hmem_new, ?_, Or.inr hp⟩
    · rw [heq, hval]
    · show st.next ≤ st.next + PAGE_SIZE
      omega
    · show st.next + PAGE_SIZE ≤ st.next + PAGE_SIZE
      omega
    · exact hlvl_fresh
    · show st.next < st.next + PAGE_SIZE
      unfold PAGE_SIZE
      omega
    · intro x j hs hx
      exact hmem_old x j hs (by omega)

end Vmm

namespace Vmm

theorem leaf_write_inv {st : VmState} (hInv : Inv st) {pt i1 val : Nat}
    (hl1 : st.level pt = 1) :
    Inv { st with mem := fun x j =>
        if x = pt ∧ j = i1 then val else st.mem x j } := by
  have hmem : ∀ x j, x ≠ pt →
      (if x = pt ∧ j = i1 then val else st.mem x j) = st.mem x j := by
    intro x j hx
    rw [if_neg (by intro hs; exact hx hs.1)]
  refine ⟨hInv.next_al, hInv.next_pos, hInv.next_le, hInv.roots_ne,
    hInv.roots_nd, hInv.root_lvl, hInv.lvl_root, hInv.lvl_le,
    hInv.tab_wf, ?_, ?_, ?_, ?_, ?_⟩
  · intro x j hlx hj
    have hx : x ≠ pt := by intro he; rw [he, hl1] at hlx; omega
    show inter_ok _ x j 3
    unfold inter_ok
    dsimp only
    rw [hmem x j hx]
    exact hInv.ent4 x j hlx hj
  · intro x j hlx hj
    have hx : x ≠ pt := by intro he; rw [he, hl1] at hlx; omega
    show (if x = pt ∧ j = i1 then val else st.mem x j) = 0
    rw [hmem x j hx]
    exact hInv.ent4_hi x j hlx hj
  · intro x j hlx hj
    have hx : x ≠ pt := by intro he; rw [he, hl1] at hlx; omega
    show inter_ok _ x j 2
    unfold inter_ok
    dsimp only
    rw [hmem x j hx]
    exact hInv.ent3 x j hlx hj
  · intro x j hlx hj
    have hx : x ≠ pt := by intro he; rw [he, hl1] at hlx; omega
    show inter_ok _ x j 1
    unfold inter_ok
    dsimp only
    rw [hmem x j hx]
    exact hInv.ent2 x j hlx hj
  · intro x1 j1 x2 j2 h21 h22 hj1 hj2 hp1 hp2 hcv
    dsimp only at h21 h22 hp1 hp2 hcv
    have hx1 : x1 ≠ pt := by
      intro he
      rw [he, hl1] at h21
      omega
    have hx2 : x2 ≠ pt := by
      intro he
      rw [he, hl1] at h22
      omega
    rw [hmem x1 j1 hx1] at hp1 hcv
    rw [hmem x2 j2 hx2] at hp2 hcv
    exact hInv.inj x1 j1 x2 j2 h21 h22 hj1 hj2 hp1 hp2 hcv

end Vmm

namespace Vmm

/-- Full characterization of a vmm_map_page call on an invariant state
with a legal root and lower-half address: the invariant, roots and old
levels are preserved, the frame counter only grows, every changed
memory slot below the old frame counter lies on the walk of the mapped
page (and, except for the leaf slot, was absent before), and on success
the leaf entry of the walk holds the aligned frame with the caller
flags and the present bit. -/
theorem map_spec {st : VmState} (hInv : Inv st) {r v p f : Nat}
    (hr : r ∈ st.roots) (hv : v < 2 ^ 47) :
    ∃ b st', vmm_map_page st r v p f = (b, st') ∧ Inv st' ∧
      st'.roots = st.roots ∧ st.next ≤ st'.next ∧
      (∀ x, x < st.next → st'.level x = st.level x) ∧
      (∀ x j, x < st.next → st'.mem x j ≠ st.mem x j →
        (x = r ∧ j = PML4_INDEX (PAGE_ALIGN_DOWN v) ∧
          st.mem x j &&& VMM_PRESENT = 0) ∨
        (pdptOf st' r (PAGE_ALIGN_DOWN v) = some x ∧
          j = PDPT_INDEX (PAGE_ALIGN_DOWN v) ∧
          st.mem x j &&& VMM_PRESENT = 0) ∨
        (pdOf st' r (PAGE_ALIGN_DOWN v) = some x ∧
          j = PD_INDEX (PAGE_ALIGN_DOWN v) ∧
          st.mem x j &&& VMM_PRESENT = 0) ∨
        (ptOf st' r (PAGE_ALIGN_DOWN v) = some x ∧
          j = PT_INDEX (PAGE_ALIGN_DOWN v))) ∧
      (b = true → ∃ t1, ptOf st' r (PAGE_ALIGN_DOWN v) = some t1 ∧
        st'.mem t1 (PT_INDEX (PAGE_ALIGN_DOWN v)) =
          PAGE_ALIGN_DOWN p ||| f ||| VMM_PRESENT) := by
  have hva47 : PAGE_ALIGN_DOWN v < 2 ^ 47 :=
    lt_of_le_of_lt (align_le v) hv
  have hi4 : PML4_INDEX (PAGE_ALIGN_DOWN v) < 512 := pml4_lt _
  have hi4lo : PML4_INDEX (PAGE_ALIGN_DOWN v) < 256 := pml4_lower hva47
  have hi3 : PDPT_INDEX (PAGE_ALIGN_DOWN v) < 512 := pdpt_lt _
  have hi2 : PD_INDEX (PAGE_ALIGN_DOWN v) < 512 := pd_lt _
  have hlr : st.level r = 4 := hInv.root_lvl r hr
  have hrlt : r < st.next := (hInv.tab_wf r (by omega)).2.2
  rcases goc_step hInv hlr (by omega) (le_refl 4)
      (hInv.ent4 r _ hlr hi4lo) hi4 (fun _ => hi4lo) with heq1 |
    ⟨c3, st1, heq1, hInv1, hroots1, hnext1, hnext1u, hlc3_1, hc3al, hc3ge,
      hc3lt1, hlvl1, hm1, hold1, hcase1⟩
  · -- stage 1 out of frames: nothing changed
    have heq1a : get_or_create st r (PML4_INDEX (PAGE_ALIGN_DOWN v))
        true 3 = (none, st) := heq1
    refine ⟨false, st, ?_, hInv, rfl, le_refl _, fun x _ => rfl, ?_, ?_⟩
    · simp only [vmm_map_page]
      rw [heq1a]
    · intro x j _ hne
      exact absurd rfl hne
    · intro hb
      exact absurd hb (by decide)
  · have heq1a : get_or_create st r (PML4_INDEX (PAGE_ALIGN_DOWN v))
        true 3 = (some c3, st1) := heq1
    have hlc3 : st1.level c3 = 3 := hlc3_1
    have hlr1 : st1.level r = 4 := by
      rw [hlvl1 r hrlt]
      exact hlr
    have hrc3 : r ≠ c3 := by
      intro he
      rw [he] at hlr1
      omega
    have hrlt1 : r < st1.next := lt_of_lt_of_le hrlt hnext1
    have hc3lt52 : c3 < 2 ^ 52 := lt_of_lt_of_le hc3lt1 hInv1.next_le
    rcases goc_step hInv1 hlc3 (by omega) (by omega)
        (hInv1.ent3 c3 _ hlc3 hi3) hi3 (fun h => absurd h (by decide)) with
      heq2 | ⟨c2, st2, heq2, hInv2, hroots2, hnext2, hnext2u, hlc2_2,
        hc2al, hc2ge, hc2lt, hlvl2, hm2, hold2, hcase2⟩
    · -- stage 2 out of frames: only the pml4 slot may have changed
      have heq2a : get_or_create st1 c3 (PDPT_INDEX (PAGE_ALIGN_DOWN v))
          true 2 = (none, st1) := heq2
      refine ⟨false, st1, ?_, hInv1, hroots1, hnext1, hlvl1, ?_, ?_⟩
      · simp only [vmm_map_page]
        rw [heq1a]
        dsimp only
        rw [heq2a]
      · intro x j hx hne
        have hs : x = r ∧ j = PML4_INDEX (PAGE_ALIGN_DOWN v) := by
          by_contra hc
          exact hne (hold1 x j hc hx)
        rcases hcase1 with he | habs
        · exfalso
          rw [he] at hne
          exact hne rfl
        · exact Or.inl ⟨hs.1, hs.2, by rw [hs.1, hs.2]; exact habs⟩
      · intro hb
        exact absurd hb (by decide)
    · have heq2a : get_or_create st1 c3 (PDPT_INDEX (PAGE_ALIGN_DOWN v))
          true 2 = (some c2, st2) := heq2
      have hlc2 : st2.level c2 = 2 := hlc2_2
      have hlr2 : st2.level r = 4 := by
        rw [hlvl2 r hrlt1]
        exact hlr1
      have hc3lt2 : c3 < st2.next := lt_of_lt_of_le hc3lt1 hnext2
      have hlc3_2 : st2.level c3 = 3 := by
        rw [hlvl2 c3 hc3lt1]
        exact hlc3
      have hrc2 : r ≠ c2 := by
        intro he
        rw [he] at hlr2
        omega
      have hc3c2 : c3 ≠ c2 := by
        intro he
        rw [he] at hlc3_2
        omega
      have hrlt2 : r < st2.next := lt_of_lt_of_le hrlt1 hnext2
      have hc2lt52 : c2 < 2 ^ 52 := lt_of_lt_of_le hc2lt hInv2.next_le
      have hm1_2 : st2.mem r (PML4_INDEX (PAGE_ALIGN_DOWN v)) =
          c3 ||| 7 := by
        rw [hold2 r _ (fun hss => hrc3 hss.1) hrlt1]
        exact hm1
      have hpdpt2 : pdptOf st2 r (PAGE_ALIGN_DOWN v) = some c3 := by
        unfold pdptOf ptr
        rw [hm1_2, if_neg (or_seven_present c3), pte_or7 hc3al hc3lt52]
      rcases goc_step hInv2 hlc2 (le_refl 2) (by omega)
          (hInv2.ent2 c2 _ hlc2 hi2) hi2 (fun h => absurd h (by decide)) with
        heq3 | ⟨c1, st3, heq3, hInv3, hroots3, hnext3, hnext3u, hlc1_3,
          hc1al, hc1ge, hc1lt, hlvl3, hm3, hold3, hcase3⟩
      · -- stage 3 out of frames: pml4 and pdpt slots may have changed
        have heq3a : get_or_create st2 c2 (PD_INDEX (PAGE_ALIGN_DOWN v))
            true 1 = (none, st2) := heq3
        refine ⟨false, st2, ?_, hInv2, ?_, ?_, ?_, ?_, ?_⟩
        · simp only [vmm_map_page]
          rw [heq1a]
          dsimp only
          rw [heq2a]
          dsimp only
          rw [heq3a]
        · rw [hroots2, hroots1]
        · exact le_trans hnext1 hnext2
        · intro x hx
          rw [hlvl2 x (lt_of_lt_of_le hx hnext1), hlvl1 x hx]
        · intro x j hx hne
          by_cases hs2 : st2.mem x j = st1.mem x j
          · rw [hs2] at hne
            have hs : x = r ∧ j = PML4_INDEX (PAGE_ALIGN_DOWN v) := by
              by_contra hc
              exact hne (hold1 x j hc hx)
            rcases hcase1 with he | habs
            · exfalso
              rw [he] at hne
              exact hne rfl
            · exact Or.inl ⟨hs.1, hs.2, by rw [hs.1, hs.2]; exact habs⟩
          · have hs : x = c3 ∧ j = PDPT_INDEX (PAGE_ALIGN_DOWN v) := by
              by_contra hc
              exact hs2 (hold2 x j hc (lt_of_lt_of_le hx hnext1))
            refine Or.inr (Or.inl
              ⟨by rw [hs.1]; exact hpdpt2, hs.2, ?_⟩)
            rcases hcase2 with he | habs
            · exfalso
              rw [he] at hs2
              exact hs2 rfl
            · rw [hs.1, hs.2]
              have hc3st : st1.mem c3 (PDPT_INDEX (PAGE_ALIGN_DOWN v)) =
                  st.mem c3 (PDPT_INDEX (PAGE_ALIGN_DOWN v)) :=
                hold1 c3 _ (fun hss => hrc3 hss.1.symm)
                  (by rw [← hs.1]; exact hx)
              rw [← hc3st]
              exact habs
        · intro hb
          exact absurd hb (by decide)
      · -- all three stages succeeded: the leaf write happens
        have heq3a : get_or_create st2 c2 (PD_INDEX (PAGE_ALIGN_DOWN v))
            true 1 = (some c1, st3) := heq3
        have hlc1 : st3.level c1 = 1 := hlc1_3
        have hc1lt52 : c1 < 2 ^ 52 := lt_of_lt_of_le hc1lt hInv3.next_le
        have hlr3 : st3.level r = 4 := by
          rw [hlvl3 r hrlt2]
          exact hlr2
        have hlc3_3 : st3.level c3 = 3 := by
          rw [hlvl3 c3 hc3lt2]
          exact hlc3_2
        have hlc2_3 : st3.level c2 = 2 := by
          rw [hlvl3 c2 hc2lt]
          exact hlc2
        have hrc1 : r ≠ c1 := by
          intro he
          rw [he] at hlr3
          omega
        have hc3c1 : c3 ≠ c1 := by
          intro he
          rw [he] at hlc3_3
          omega
        have hc2c1 : c2 ≠ c1 := by
          intro he
          rw [he] at hlc2_3
          omega
        have hm1_3 : st3.mem r (PML4_INDEX (PAGE_ALIGN_DOWN v)) =
            c3 ||| 7 := by
          rw [hold3 r _ (fun hss => hrc2 hss.1) hrlt2]
          exact hm1_2
        have hm2_3 : st3.mem c3 (PDPT_INDEX (PAGE_ALIGN_DOWN v)) =
            c2 ||| 7 := by
          rw [hold3 c3 _ (fun hss => hc3c2 hss.1) hc3lt2]
          exact hm2
        set stw : VmState := { st3 with mem := fun x j =>
            (if x = c1 ∧ j = PT_INDEX (PAGE_ALIGN_DOWN v) then
              PAGE_ALIGN_DOWN p ||| f ||| VMM_PRESENT
            else st3.mem x j) } with hstw
        have hInvw : Inv stw := leaf_write_inv hInv3 hlc1
        have hmw_old : ∀ x j,
            ¬ (x = c1 ∧ j = PT_INDEX (PAGE_ALIGN_DOWN v)) →
            stw.mem x j = st3.mem x j := by
          intro x j hs
          show (if x = c1 ∧ j = PT_INDEX (PAGE_ALIGN_DOWN v) then
              PAGE_ALIGN_DOWN p ||| f ||| VMM_PRESENT
            else st3.mem x j) = st3.mem x j
          rw [if_neg hs]
        have hmw_leaf : stw.mem c1 (PT_INDEX (PAGE_ALIGN_DOWN v)) =
            PAGE_ALIGN_DOWN p ||| f ||| VMM_PRESENT := by
          show (if c1 = c1 ∧ PT_INDEX (PAGE_ALIGN_DOWN v) =
              PT_INDEX (PAGE_ALIGN_DOWN v) then
              PAGE_ALIGN_DOWN p ||| f ||| VMM_PRESENT
            else st3.mem c1 (PT_INDEX (PAGE_ALIGN_DOWN v))) =
            PAGE_ALIGN_DOWN p ||| f ||| VMM_PRESENT
          rw [if_pos ⟨rfl, rfl⟩]
        have hpdptw : pdptOf stw r (PAGE_ALIGN_DOWN v) = some c3 := by
          unfold pdptOf ptr
          rw [hmw_old r _ (fun hss => hrc1 hss.1), hm1_3,
            if_neg (or_seven_present c3), pte_or7 hc3al hc3lt52]
        have hpdw : pdOf stw r (PAGE_ALIGN_DOWN v) = some c2 := by
          unfold pdOf
          rw [hpdptw]
          show ptr stw c3 (PDPT_INDEX (PAGE_ALIGN_DOWN v)) = some c2
          unfold ptr
          rw [hmw_old c3 _ (fun hss => hc3c1 hss.1), hm2_3,
            if_neg (or_seven_present c2), pte_or7 hc2al hc2lt52]
        have hptw : ptOf stw r (PAGE_ALIGN_DOWN v) = some c1 := by
          unfold ptOf
          rw [hpdw]
          show ptr stw c2 (PD_INDEX (PAGE_ALIGN_DOWN v)) = some c1
          unfold ptr
          rw [hmw_old c2 _ (fun hss => hc2c1 hss.1), hm3,
            if_neg (or_seven_present c1), pte_or7 hc1al hc1lt52]
        refine ⟨true, stw, ?_, hInvw, ?_, ?_, ?_, ?_, ?_⟩
        · simp only [vmm_map_page]
          rw [heq1a]
          dsimp only
          rw [heq2a]
          dsimp only
          rw [heq3a]
        · show st3.roots = st.roots
          rw [hroots3, hroots2, hroots1]
        · show st.next ≤ st3.next
          exact le_trans hnext1 (le_trans hnext2 hnext3)
        · intro x hx
          show st3.level x = st.level x
          rw [hlvl3 x (lt_of_lt_of_le hx (le_trans hnext1 hnext2)),
            hlvl2 x (lt_of_lt_of_le hx hnext1), hlvl1 x hx]
        · intro x j hx hne
          by_cases hsw : x = c1 ∧ j = PT_INDEX (PAGE_ALIGN_DOWN v)
          · exact Or.inr (Or.inr (Or.inr
              ⟨by rw [hsw.1]; exact hptw, hsw.2⟩))
          · rw [hmw_old x j hsw] at hne
            by_cases hs3 : st3.mem x j = st2.mem x j
            · rw [hs3] at hne
              by_cases hs2 : st2.mem x j = st1.mem x j
              · rw [hs2] at hne
                have hs : x = r ∧ j = PML4_INDEX (PAGE_ALIGN_DOWN v) := by
                  by_contra hc
                  exact hne (hold1 x j hc hx)
                rcases hcase1 with he | habs
                · exfalso
                  rw [he] at hne
                  exact hne rfl
                · exact Or.inl ⟨hs.1, hs.2, by rw [hs.1, hs.2]; exact habs⟩
              · have hs : x = c3 ∧ j = PDPT_INDEX (PAGE_ALIGN_DOWN v) := by
                  by_contra hc
                  exact hs2 (hold2 x j hc (lt_of_lt_of_le hx hnext1))
                refine Or.inr (Or.inl
                  ⟨by rw [hs.1]; exact hpdptw, hs.2, ?_⟩)
                rcases hcase2 with he | habs
                · exfalso
                  rw [he] at hs2
                  exact hs2 rfl
                · rw [hs.1, hs.2]
                  have hc3st :
                      st1.mem c3 (PDPT_INDEX (PAGE_ALIGN_DOWN v)) =
                      st.mem c3 (PDPT_INDEX (PAGE_ALIGN_DOWN v)) :=
                    hold1 c3 _ (fun hss => hrc3 hss.1.symm)
                      (by rw [← hs.1]; exact hx)
                  rw [← hc3st]
                  exact habs
            · have hs : x = c2 ∧ j = PD_INDEX (PAGE_ALIGN_DOWN v) := by
                by_contra hc
                exact hs3 (hold3 x j hc
                  (lt_of_lt_of_le hx (le_trans hnext1 hnext2)))
              refine Or.inr (Or.inr (Or.inl
                ⟨by rw [hs.1]; exact hpdw, hs.2, ?_⟩))
              rcases hcase3 with he | habs
              · exfalso
                rw [he] at hs3
                exact hs3 rfl
              · rw [hs.1, hs.2]
                have hc2lt0 : c2 < st.next := by
                  rw [← hs.1]
                  exact hx
                have h21 : st1.mem c2 (PD_INDEX (PAGE_ALIGN_DOWN v)) =
                    st.mem c2 (PD_INDEX (PAGE_ALIGN_DOWN v)) :=
                  hold1 c2 _ (fun hss => hrc2 hss.1.symm) hc2lt0
                have h22 : st2.mem c2 (PD_INDEX (PAGE_ALIGN_DOWN v)) =
                    st1.mem c2 (PD_INDEX (PAGE_ALIGN_DOWN v)) :=
                  hold2 c2 _ (fun hss => hc3c2 hss.1.symm)
                    (lt_of_lt_of_le hc2lt0 hnext1)
                rw [← h21, ← h22]
                exact habs
        · intro _
          exact ⟨c1, hptw, hmw_leaf⟩

end Vmm

namespace Vmm

/-- Full characterization of vmm_unmap_page: the walk allocates nothing
(create = false), so the state is unchanged except possibly the leaf
entry of the walk of v, which is cleared on success. -/
theorem unmap_spec {st : VmState} (hInv : Inv st) {r v : Nat}
    (hr : r ∈ st.roots) (hv : v < 2 ^ 47) :
    ∃ b st', vmm_unmap_page st r v = (b, st') ∧ Inv st' ∧
      st'.roots = st.roots ∧ st'.next = st.next ∧
      (∀ x, st'.level x = st.level x) ∧
      (∀ x j, st'.mem x j ≠ st.mem x j →
        ptOf st r (PAGE_ALIGN_DOWN v) = some x ∧
        j = PT_INDEX (PAGE_ALIGN_DOWN v) ∧ st'.mem x j = 0) := by
  have hva : PAGE_ALIGN_DOWN v < 2 ^ 47 := lt_of_le_of_lt (align_le v) hv
  have hi4 : PML4_INDEX (PAGE_ALIGN_DOWN v) < 256 := pml4_lower hva
  simp only [vmm_unmap_page]
  rw [goc_false st r (PML4_INDEX (PAGE_ALIGN_DOWN v)) 0]
  by_cases h4 : st.mem r (PML4_INDEX (PAGE_ALIGN_DOWN v)) &&&
      VMM_PRESENT = 0
  · rw [if_pos h4]
    dsimp only
    exact ⟨false, st, rfl, hInv, rfl, rfl, fun _ => rfl,
      fun x j hne => absurd rfl hne⟩
  · obtain ⟨c3, hc3, hl3, _, _, hn3, hpte3⟩ :=
      child_of_inter hInv (hInv.ent4 r _ (hInv.root_lvl r hr) hi4)
        (by omega) h4
    rw [if_neg h4, hpte3]
    dsimp only
    have hpdpt : pdptOf st r (PAGE_ALIGN_DOWN v) = some c3 := by
      unfold pdptOf ptr
      rw [if_neg h4, hpte3]
    rw [goc_false st c3 (PDPT_INDEX (PAGE_ALIGN_DOWN v)) 0]
    by_cases h3 : st.mem c3 (PDPT_INDEX (PAGE_ALIGN_DOWN v)) &&&
        VMM_PRESENT = 0
    · rw [if_pos h3]
      dsimp only
      exact ⟨false, st, rfl, hInv, rfl, rfl, fun _ => rfl,
        fun x j hne => absurd rfl hne⟩
    · obtain ⟨c2, hc2, hl2, _, _, hn2, hpte2⟩ :=
        child_of_inter hInv (hInv.ent3 c3 _ hl3 (pdpt_lt _)) (by omega) h3
      rw [if_neg h3, hpte2]
      dsimp only
      have hpd : pdOf st r (PAGE_ALIGN_DOWN v) = some c2 := by
        unfold pdOf
        rw [hpdpt]
        dsimp only
        unfold ptr
        rw [if_neg h3, hpte2]
      rw [goc_false st c2 (PD_INDEX (PAGE_ALIGN_DOWN v)) 0]
      by_cases h2 : st.mem c2 (PD_INDEX (PAGE_ALIGN_DOWN v)) &&&
          VMM_PRESENT = 0
      · rw [if_pos h2]
        dsimp only
        exact ⟨false, st, rfl, hInv, rfl, rfl, fun _ => rfl,
          fun x j hne => absurd rfl hne⟩
      · obtain ⟨c1, hc1, hl1, _, _, hn1, hpte1⟩ :=
          child_of_inter hInv (hInv.ent2 c2 _ hl2 (pd_lt _)) (by omega) h2
        rw [if_neg h2, hpte1]
        dsimp only
        have hpt : ptOf st r (PAGE_ALIGN_DOWN v) = some c1 := by
          unfold ptOf
          rw [hpd]
          dsimp only
          unfold ptr
          rw [if_neg h2, hpte1]
        refine ⟨true, _, rfl, leaf_write_inv hInv hl1, rfl, rfl,
          fun _ => rfl, ?_⟩
        intro x j hne
        dsimp only at hne
        by_cases hs : x = c1 ∧ j = PT_INDEX (PAGE_ALIGN_DOWN v)
        · refine ⟨by rw [hs.1]; exact hpt, hs.2, ?_⟩
          show (if x = c1 ∧ j = PT_INDEX (PAGE_ALIGN_DOWN v) then 0
            else st.mem x j) = 0
          rw [if_pos hs]
        · rw [if_neg hs] at hne
          exact absurd rfl hne

end Vmm

namespace Vmm

/-- A freshly created address space preserves the invariant: the new
root is zero in the lower half, and the copied kernel half is zero too
because every level-4 table keeps its upper entries clear (ent4_hi). -/
theorem create_inv {st : VmState} (hInv : Inv st)
    (hfree : st.next < 2 ^ 52) :
    Inv (vmm_create_address_space st).2 := by
  unfold vmm_create_address_space
  rw [if_neg (show ¬ PHYS_LIMIT ≤ st.next by unfold PHYS_LIMIT; omega)]
  dsimp only
  have hal := hInv.next_al
  have hwfn : ∀ y, 1 ≤ st.level y → y < st.next :=
    fun y hy => (hInv.tab_wf y hy).2.2
  have hkr : st.roots.headI ∈ st.roots := by
    cases hroots : st.roots with
    | nil => exact absurd hroots hInv.roots_ne
    | cons a as => exact List.mem_cons_self a as
  have hkrl : st.level st.roots.headI = 4 := hInv.root_lvl _ hkr
  set stn : VmState := { mem := fun t i => (if t = st.next ∧ 256 ≤ i ∧ i < 512 then (if st.roots.headI = st.next then 0 else st.mem st.roots.headI i) else if t = st.next then 0 else st.mem t i), level := fun t => (if t = st.next then 4 else st.level t), next := st.next + PAGE_SIZE, roots := st.roots ++ [st.next] } with hstn
  have hmem_old : ∀ x j, x ≠ st.next → stn.mem x j = st.mem x j := by
    intro x j hx
    show (if x = st.next ∧ 256 ≤ j ∧ j < 512 then
        (if st.roots.headI = st.next then 0
         else st.mem st.roots.headI j)
      else if x = st.next then 0
      else st.mem x j) = st.mem x j
    rw [if_neg (fun hc => hx hc.1), if_neg hx]
  have hmem_new : ∀ j, stn.mem st.next j = 0 := by
    intro j
    show (if st.next = st.next ∧ 256 ≤ j ∧ j < 512 then
        (if st.roots.headI = st.next then 0
         else st.mem st.roots.headI j)
      else if st.next = st.next then 0
      else st.mem st.next j) = 0
    by_cases hj : 256 ≤ j ∧ j < 512
    · rw [if_pos ⟨rfl, hj.1, hj.2⟩]
      by_cases hk : st.roots.headI = st.next
      · rw [if_pos hk]
      · rw [if_neg hk]
        exact hInv.ent4_hi _ j hkrl hj.1
    · rw [if_neg (fun hc => hj ⟨hc.2.1, hc.2.2⟩), if_pos rfl]
  have hlvl_old : ∀ y, y ≠ st.next → stn.level y = st.level y := by
    intro y hy
    show (if y = st.next then 4 else st.level y) = st.level y
    rw [if_neg hy]
  have hlvl_oldlt : ∀ y, y < st.next → stn.level y = st.level y :=
    fun y hy => hlvl_old y (by omega)
  have hlvl_new : stn.level st.next = 4 := by
    show (if st.next = st.next then 4 else st.level st.next) = 4
    rw [if_pos rfl]
  refine ⟨?_, ?_, ?_, ?_, ?_, ?_, ?_, ?_, ?_, ?_, ?_, ?_, ?_, ?_⟩
  · show (st.next + PAGE_SIZE) % 4096 = 0
    unfold PAGE_SIZE
    omega
  · show 4096 ≤ st.next + PAGE_SIZE
    unfold PAGE_SIZE
    omega
  · show st.next + PAGE_SIZE ≤ 2 ^ 52
    unfold PAGE_SIZE
    omega
  · show st.roots ++ [st.next] ≠ []
    simp
  · show (st.roots ++ [st.next]).Nodup
    refine List.Nodup.append hInv.roots_nd (List.nodup_singleton _) ?_
    intro a ha hb
    have hab : a = st.next := List.mem_singleton.mp hb
    have h4a : st.level a = 4 := hInv.root_lvl a ha
    have := hwfn a (by omega)
    omega
  · intro r hrm
    rcases List.mem_append.mp hrm with h | h
    · have h4r : st.level r = 4 := hInv.root_lvl r h
      rw [hlvl_old r (by have := hwfn r (by omega); omega)]
      exact h4r
    · rw [List.mem_singleton.mp h]
      exact hlvl_new
  · intro t ht
    show t ∈ st.roots ++ [st.next]
    by_cases htn : t = st.next
    · rw [htn]
      exact List.mem_append.mpr (Or.inr (List.mem_singleton.mpr rfl))
    · rw [hlvl_old t htn] at ht
      exact List.mem_append.mpr (Or.inl (hInv.lvl_root t ht))
  · intro t
    by_cases htn : t = st.next
    · rw [htn, hlvl_new]
    · rw [hlvl_old t htn]
      exact hInv.lvl_le t
  · intro t ht
    by_cases htn : t = st.next
    · show t % 4096 = 0 ∧ 4096 ≤ t ∧ t < st.next + PAGE_SIZE
      rw [htn]
      unfold PAGE_SIZE
      exact ⟨hal, hInv.next_pos, by omega⟩
    · rw [hlvl_old t htn] at ht
      have := hInv.tab_wf t ht
      show t % 4096 = 0 ∧ 4096 ≤ t ∧ t < st.next + PAGE_SIZE
      unfold PAGE_SIZE
      omega
  · intro t i hlt4 hi
    by_cases htn : t = st.next
    · refine Or.inl ?_
      rw [htn]
      exact hmem_new i
    · rw [hlvl_old t htn] at hlt4
      exact inter_ok_transfer (hmem_old t i htn) hlvl_oldlt hwfn
        (hInv.ent4 t i hlt4 hi) (by omega)
  · intro t i hlt4 hi
    by_cases htn : t = st.next
    · rw [htn]
      exact hmem_new i
    · rw [hlvl_old t htn] at hlt4
      rw [hmem_old t i htn]
      exact hInv.ent4_hi t i hlt4 hi
  · intro t i hlt3 hi
    by_cases htn : t = st.next
    · rw [htn, hlvl_new] at hlt3
      omega
    · rw [hlvl_old t htn] at hlt3
      exact inter_ok_transfer (hmem_old t i htn) hlvl_oldlt hwfn
        (hInv.ent3 t i hlt3 hi) (by omega)
  · intro t i hlt2 hi
    by_cases htn : t = st.next
    · rw [htn, hlvl_new] at hlt2
      omega
    · rw [hlvl_old t htn] at hlt2
      exact inter_ok_transfer (hmem_old t i htn) hlvl_oldlt hwfn
        (hInv.ent2 t i hlt2 hi) (by omega)
  · intro x1 j1 x2 j2 h21 h22 hj1 hj2 hp1 hp2 hcv
    by_cases h1n : x1 = st.next
    · rw [h1n, hmem_new j1] at hp1
      exact absurd zero_absent hp1
    · by_cases h2n : x2 = st.next
      · rw [h2n, hmem_new j2] at hp2
        exact absurd zero_absent hp2
      · rw [hlvl_old x1 h1n] at h21
        rw [hlvl_old x2 h2n] at h22
        rw [hmem_old x1 j1 h1n] at hp1 hcv
        rw [hmem_old x2 j2 h2n] at hp2 hcv
        exact hInv.inj x1 j1 x2 j2 h21 h22 hj1 hj2 hp1 hp2 hcv

/-- vmm_create_address_space preserves the invariant and touches no
frame below the old frame counter; old roots stay valid. -/
theorem create_spec {st : VmState} (hInv : Inv st) :
    ∃ o st', vmm_create_address_space st = (o, st') ∧ Inv st' ∧
      st.next ≤ st'.next ∧
      (∀ x, x < st.next → st'.level x = st.level x) ∧
      (∀ x j, x < st.next → st'.mem x j = st.mem x j) ∧
      (∀ r, r ∈ st.roots → r ∈ st'.roots) := by
  unfold vmm_create_address_space
  by_cases hl : PHYS_LIMIT ≤ st.next
  · rw [if_pos hl]
    exact ⟨none, st, rfl, hInv, le_refl _, fun _ _ => rfl,
      fun _ _ _ => rfl, fun r hr => hr⟩
  · rw [if_neg hl]
    have hfree : st.next < 2 ^ 52 := by
      unfold PHYS_LIMIT at hl
      omega
    have hInvn := create_inv hInv hfree
    unfold vmm_create_address_space at hInvn
    rw [if_neg hl] at hInvn
    dsimp only at hInvn
    refine ⟨some st.next, _, rfl, hInvn, ?_, ?_, ?_, ?_⟩
    · show st.next ≤ st.next + PAGE_SIZE
      omega
    · intro x hx
      show (if x = st.next then 4 else st.level x) = st.level x
      rw [if_neg (by omega)]
    · intro x j hx
      show (if x = st.next ∧ 256 ≤ j ∧ j < 512 then
          (if st.roots.headI = st.next then 0
           else st.mem st.roots.headI j)
        else if x = st.next then 0
        else st.mem x j) = st.mem x j
      rw [if_neg (fun hc => by omega), if_neg (by omega)]
    · intro r hr
      show r ∈ st.roots ++ [st.next]
      exact List.mem_append.mpr (Or.inl hr)

end Vmm

namespace Vmm

/-- The state after vmm_init satisfies the structural invariant. -/
theorem init_inv (j : Nat → Nat → Nat) : Inv (initVM j) := by
  unfold initVM
  refine ⟨?_, ?_, ?_, ?_, ?_, ?_, ?_, ?_, ?_, ?_, ?_, ?_, ?_, ?_⟩
  · show (8192 : Nat) % 4096 = 0
    omega
  · show (4096 : Nat) ≤ 8192
    omega
  · show (8192 : Nat) ≤ 2 ^ 52
    omega
  · show [4096] ≠ ([] : List Nat)
    simp
  · show ([4096] : List Nat).Nodup
    exact List.nodup_singleton _
  · intro r hrm
    rw [List.mem_singleton.mp hrm]
    show (if (4096 : Nat) = 4096 then 4 else 0) = 4
    rw [if_pos rfl]
  · intro t ht
    have htb : (if t = 4096 then (4 : Nat) else 0) = 4 := ht
    by_cases htn : t = 4096
    · show t ∈ [4096]
      rw [htn]
      exact List.mem_singleton.mpr rfl
    · rw [if_neg htn] at htb
      omega
  · intro t
    show (if t = 4096 then (4 : Nat) else 0) ≤ 4
    by_cases htn : t = 4096
    · rw [if_pos htn]
    · rw [if_neg htn]
      omega
  · intro t ht
    have htb : 1 ≤ (if t = 4096 then (4 : Nat) else 0) := ht
    by_cases htn : t = 4096
    · show t % 4096 = 0 ∧ 4096 ≤ t ∧ t < 8192
      rw [htn]
      omega
    · rw [if_neg htn] at htb
      omega
  · intro t i hl4 hi
    have hlb : (if t = 4096 then (4 : Nat) else 0) = 4 := hl4
    by_cases htn : t = 4096
    · refine Or.inl ?_
      show (if t = 4096 then 0 else j t i) = 0
      rw [if_pos htn]
    · rw [if_neg htn] at hlb
      omega
  · intro t i hl4 hi
    have hlb : (if t = 4096 then (4 : Nat) else 0) = 4 := hl4
    by_cases htn : t = 4096
    · show (if t = 4096 then 0 else j t i) = 0
      rw [if_pos htn]
    · rw [if_neg htn] at hlb
      omega
  · intro t i hl3 hi
    have hlb : (if t = 4096 then (4 : Nat) else 0) = 3 := hl3
    by_cases htn : t = 4096
    · rw [if_pos htn] at hlb
      omega
    · rw [if_neg htn] at hlb
      omega
  · intro t i hl2 hi
    have hlb : (if t = 4096 then (4 : Nat) else 0) = 2 := hl2
    by_cases htn : t = 4096
    · rw [if_pos htn] at hlb
      omega
    · rw [if_neg htn] at hlb
      omega
  · intro x1 j1 x2 j2 h21 h22 hj1 hj2 hp1 hp2 hcv
    have hp1b : (if x1 = 4096 then 0 else j x1 j1) &&& VMM_PRESENT ≠ 0 :=
      hp1
    by_cases hx1 : x1 = 4096
    · rw [if_pos hx1] at hp1b
      exact absurd zero_absent hp1b
    · have h21b : 2 ≤ (if x1 = 4096 then (4 : Nat) else 0) := h21
      rw [if_neg hx1] at h21b
      omega

/-- Every state reachable from vmm_init by legal create / map / unmap
operations satisfies the structural invariant. -/
theorem reached_inv {st : VmState} (h : ReachedVM st) : Inv st := by
  induction h with
  | init j => exact init_inv j
  | step op hre hleg ih =>
    cases op with
    | create =>
      obtain ⟨o, st2, heq, hInv2, _, _, _, _⟩ := create_spec ih
      show Inv (vmm_create_address_space _).2
      rw [heq]
      exact hInv2
    | map r v p f =>
      have hleg2 := hleg
      unfold LegalOp at hleg2
      obtain ⟨hr, hv, _, _⟩ := hleg2
      obtain ⟨b, st2, heq, hInv2, _⟩ := map_spec ih hr hv
      show Inv (vmm_map_page _ r v p f).2
      rw [heq]
      exact hInv2
    | unmap r v =>
      have hleg2 := hleg
      unfold LegalOp at hleg2
      obtain ⟨hr, hv⟩ := hleg2
      obtain ⟨b, st2, heq, hInv2, _⟩ := unmap_spec ih hr hv
      show Inv (vmm_unmap_page _ r v).2
      rw [heq]
      exact hInv2

end Vmm

namespace Vmm

theorem align_idem (a : Nat) :
    PAGE_ALIGN_DOWN (PAGE_ALIGN_DOWN a) = PAGE_ALIGN_DOWN a := by
  unfold PAGE_ALIGN_DOWN
  rw [Nat.and_assoc, Nat.and_self]

theorem pdptOf_congr {st st2 : VmState} {r v : Nat}
    (h : st2.mem r (PML4_INDEX v) = st.mem r (PML4_INDEX v)) :
    pdptOf st2 r v = pdptOf st r v := by
  unfold pdptOf ptr
  rw [h]

theorem pdOf_congr {st st2 : VmState} {r v : Nat}
    (h3 : pdptOf st2 r v = pdptOf st r v)
    (h : ∀ t3, pdptOf st r v = some t3 →
      st2.mem t3 (PDPT_INDEX v) = st.mem t3 (PDPT_INDEX v)) :
    pdOf st2 r v = pdOf st r v := by
  unfold pdOf
  rw [h3]
  cases hp : pdptOf st r v with
  | none => rfl
  | some t3 =>
    dsimp only
    unfold ptr
    rw [h t3 hp]

theorem ptOf_congr {st st2 : VmState} {r v : Nat}
    (h2 : pdOf st2 r v = pdOf st r v)
    (h : ∀ t2, pdOf st r v = some t2 →
      st2.mem t2 (PD_INDEX v) = st.mem t2 (PD_INDEX v)) :
    ptOf st2 r v = ptOf st r v := by
  unfold ptOf
  rw [h2]
  cases hp : pdOf st r v with
  | none => rfl
  | some t2 =>
    dsimp only
    unfold ptr
    rw [h t2 hp]

/-- Noninterference step: a legal operation that avoids the page of v in
space r leaves the walk of v in r and its leaf entry untouched. -/
theorem op_preserves {st : VmState} (hInv : Inv st) {r v t1 : Nat}
    (hr : r ∈ st.roots) (hv : v < 2 ^ 47)
    (hpt : ptOf st r (PAGE_ALIGN_DOWN v) = some t1)
    (hpres : st.mem t1 (PT_INDEX (PAGE_ALIGN_DOWN v)) &&& VMM_PRESENT ≠ 0)
    {op : VOp} (hleg : LegalOp st op)
    (hav : Avoids r (PAGE_ALIGN_DOWN v) op) :
    Inv (execVM st op) ∧ r ∈ (execVM st op).roots ∧
    ptOf (execVM st op) r (PAGE_ALIGN_DOWN v) = some t1 ∧
    (execVM st op).mem t1 (PT_INDEX (PAGE_ALIGN_DOWN v)) =
      st.mem t1 (PT_INDEX (PAGE_ALIGN_DOWN v)) := by
  have hva : PAGE_ALIGN_DOWN v < 2 ^ 47 := lt_of_le_of_lt (align_le v) hv
  have hi4lo : PML4_INDEX (PAGE_ALIGN_DOWN v) < 256 := pml4_lower hva
  obtain ⟨t2w, hpd, hl2w, hl1w, hm21, hn1⟩ := ptOf_level hInv hr hi4lo hpt
  obtain ⟨t3w, hpdpt, hl3w, _, hm32, hn2⟩ := pdOf_level hInv hr hi4lo hpd
  obtain ⟨_, hm43, hn3⟩ := pdptOf_level hInv hr hi4lo hpdpt
  have hrlt : r < st.next :=
    (hInv.tab_wf r (by rw [hInv.root_lvl r hr]; omega)).2.2
  have hp4 : st.mem r (PML4_INDEX (PAGE_ALIGN_DOWN v)) &&&
      VMM_PRESENT ≠ 0 := by
    rw [hm43]
    exact or_seven_present t3w
  have hp3 : st.mem t3w (PDPT_INDEX (PAGE_ALIGN_DOWN v)) &&&
      VMM_PRESENT ≠ 0 := by
    rw [hm32]
    exact or_seven_present t2w
  have hp2 : st.mem t2w (PD_INDEX (PAGE_ALIGN_DOWN v)) &&&
      VMM_PRESENT ≠ 0 := by
    rw [hm21]
    exact or_seven_present t1
  cases op with
  | create =>
    obtain ⟨o, st2, heq, hInv2, hnext2, hlvl2, hmem2, hroots2⟩ :=
      create_spec hInv
    have hex : execVM st VOp.create = st2 := by
      show (vmm_create_address_space st).2 = st2
      rw [heq]
    rw [hex]
    have c4 : pdptOf st2 r (PAGE_ALIGN_DOWN v) =
        pdptOf st r (PAGE_ALIGN_DOWN v) := pdptOf_congr (hmem2 r _ hrlt)
    have c3 : pdOf st2 r (PAGE_ALIGN_DOWN v) =
        pdOf st r (PAGE_ALIGN_DOWN v) := by
      refine pdOf_congr c4 ?_
      intro t3 h
      rw [h] at hpdpt
      injection hpdpt with ht
      rw [ht]
      exact hmem2 t3w _ hn3
    have c2 : ptOf st2 r (PAGE_ALIGN_DOWN v) =
        ptOf st r (PAGE_ALIGN_DOWN v) := by
      refine ptOf_congr c3 ?_
      intro t2 h
      rw [h] at hpd
      injection hpd with ht
      rw [ht]
      exact hmem2 t2w _ hn2
    exact ⟨hInv2, hroots2 r hr, by rw [c2]; exact hpt, hmem2 t1 _ hn1⟩
  | map r2 v2 p2 f2 =>
    have hleg2 := hleg
    unfold LegalOp at hleg2
    obtain ⟨hr2, hv2, _, _⟩ := hleg2
    have hav2 := hav
    unfold Avoids at hav2
    obtain ⟨b, st2, heq, hInv2, hroots2, hnext2, hlvl2, hfoot, _⟩ :=
      map_spec hInv hr2 hv2
    have hex : execVM st (VOp.map r2 v2 p2 f2) = st2 := by
      show (vmm_map_page st r2 v2 p2 f2).2 = st2
      rw [heq]
    rw [hex]
    have hr2b : r2 ∈ st2.roots := by
      rw [hroots2]
      exact hr2
    have hrb : r ∈ st2.roots := by
      rw [hroots2]
      exact hr
    have hva2 : PAGE_ALIGN_DOWN v2 < 2 ^ 47 :=
      lt_of_le_of_lt (align_le v2) hv2
    have hi4lo2 : PML4_INDEX (PAGE_ALIGN_DOWN v2) < 256 := pml4_lower hva2
    have e4slot : st2.mem r (PML4_INDEX (PAGE_ALIGN_DOWN v)) =
        st.mem r (PML4_INDEX (PAGE_ALIGN_DOWN v)) := by
      by_contra hne
      rcases hfoot r _ hrlt hne with ⟨_, _, habs⟩ | ⟨_, _, habs⟩ |
        ⟨_, _, habs⟩ | ⟨hptx, _⟩
      · exact hp4 habs
      · exact hp4 habs
      · exact hp4 habs
      · obtain ⟨_, _, _, hl1x, _, _⟩ := ptOf_level hInv2 hr2b hi4lo2 hptx
        rw [hlvl2 r hrlt, hInv.root_lvl r hr] at hl1x
        omega
    have e3slot : st2.mem t3w (PDPT_INDEX (PAGE_ALIGN_DOWN v)) =
        st.mem t3w (PDPT_INDEX (PAGE_ALIGN_DOWN v)) := by
      by_contra hne
      rcases hfoot t3w _ hn3 hne with ⟨_, _, habs⟩ | ⟨_, _, habs⟩ |
        ⟨_, _, habs⟩ | ⟨hptx, _⟩
      · exact hp3 habs
      · exact hp3 habs
      · exact hp3 habs
      · obtain ⟨_, _, _, hl1x, _, _⟩ := ptOf_level hInv2 hr2b hi4lo2 hptx
        rw [hlvl2 t3w hn3, hl3w] at hl1x
        omega
    have e2slot : st2.mem t2w (PD_INDEX (PAGE_ALIGN_DOWN v)) =
        st.mem t2w (PD_INDEX (PAGE_ALIGN_DOWN v)) := by
      by_contra hne
      rcases hfoot t2w _ hn2 hne with ⟨_, _, habs⟩ | ⟨_, _, habs⟩ |
        ⟨_, _, habs⟩ | ⟨hptx, _⟩
      · exact hp2 habs
      · exact hp2 habs
      · exact hp2 habs
      · obtain ⟨_, _, _, hl1x, _, _⟩ := ptOf_level hInv2 hr2b hi4lo2 hptx
        rw [hlvl2 t2w hn2, hl2w] at hl1x
        omega
    have c4 : pdptOf st2 r (PAGE_ALIGN_DOWN v) =
        pdptOf st r (PAGE_ALIGN_DOWN v) := pdptOf_congr e4slot
    have c3 : pdOf st2 r (PAGE_ALIGN_DOWN v) =
        pdOf st r (PAGE_ALIGN_DOWN v) := by
      refine pdOf_congr c4 ?_
      intro t3 h
      rw [h] at hpdpt
      injection hpdpt with ht
      rw [ht]
      exact e3slot
    have c2 : ptOf st2 r (PAGE_ALIGN_DOWN v) =
        ptOf st r (PAGE_ALIGN_DOWN v) := by
      refine ptOf_congr c3 ?_
      intro t2 h
      rw [h] at hpd
      injection hpd with ht
      rw [ht]
      exact e2slot
    have e1slot : st2.mem t1 (PT_INDEX (PAGE_ALIGN_DOWN v)) =
        st.mem t1 (PT_INDEX (PAGE_ALIGN_DOWN v)) := by
      by_contra hne
      rcases hfoot t1 _ hn1 hne with ⟨_, _, habs⟩ | ⟨_, _, habs⟩ |
        ⟨_, _, habs⟩ | ⟨hptx, hj⟩
      · exact hpres habs
      · exact hpres habs
      · exact hpres habs
      · have hptr : ptOf st2 r (PAGE_ALIGN_DOWN v) = some t1 := by
          rw [c2]
          exact hpt
        obtain ⟨hrr, h4i, h3i, h2i⟩ :=
          ptOf_inj hInv2 hr2b hrb hi4lo2 hi4lo hptx hptr
        have heqv : PAGE_ALIGN_DOWN (PAGE_ALIGN_DOWN v2) =
            PAGE_ALIGN_DOWN (PAGE_ALIGN_DOWN v) :=
          align_eq_of_idx hva2 hva h4i h3i h2i hj.symm
        rw [align_idem, align_idem] at heqv
        rcases hav2 with hne2 | hne2
        · exact hne2 hrr
        · exact hne2 heqv
    exact ⟨hInv2, hrb, by rw [c2]; exact hpt, e1slot⟩
  | unmap r2 v2 =>
    have hleg2 := hleg
    unfold LegalOp at hleg2
    obtain ⟨hr2, hv2⟩ := hleg2
    have hav2 := hav
    unfold Avoids at hav2
    obtain ⟨b, st2, heq, hInv2, hroots2, hnext2, hlvl2, hfoot⟩ :=
      unmap_spec hInv hr2 hv2
    have hex : execVM st (VOp.unmap r2 v2) = st2 := by
      show (vmm_unmap_page st r2 v2).2 = st2
      rw [heq]
    rw [hex]
    have hrb : r ∈ st2.roots := by
      rw [hroots2]
      exact hr
    have hva2 : PAGE_ALIGN_DOWN v2 < 2 ^ 47 :=
      lt_of_le_of_lt (align_le v2) hv2
    have hi4lo2 : PML4_INDEX (PAGE_ALIGN_DOWN v2) < 256 := pml4_lower hva2
    have e4slot : st2.mem r (PML4_INDEX (PAGE_ALIGN_DOWN v)) =
        st.mem r (PML4_INDEX (PAGE_ALIGN_DOWN v)) := by
      by_contra hne
      obtain ⟨hptx, _, _⟩ := hfoot r _ hne
      obtain ⟨_, _, _, hl1x, _, _⟩ := ptOf_level hInv hr2 hi4lo2 hptx
      rw [hInv.root_lvl r hr] at hl1x
      omega
    have e3slot : st2.mem t3w (PDPT_INDEX (PAGE_ALIGN_DOWN v)) =
        st.mem t3w (PDPT_INDEX (PAGE_ALIGN_DOWN v)) := by
      by_contra hne
      obtain ⟨hptx, _, _⟩ := hfoot t3w _ hne
      obtain ⟨_, _, _, hl1x, _, _⟩ := ptOf_level hInv hr2 hi4lo2 hptx
      rw [hl3w] at hl1x
      omega
    have e2slot : st2.mem t2w (PD_INDEX (PAGE_ALIGN_DOWN v)) =
        st.mem t2w (PD_INDEX (PAGE_ALIGN_DOWN v)) := by
      by_contra hne
      obtain ⟨hptx, _, _⟩ := hfoot t2w _ hne
      obtain ⟨_, _, _, hl1x, _, _⟩ := ptOf_level hInv hr2 hi4lo2 hptx
      rw [hl2w] at hl1x
      omega
    have c4 : pdptOf st2 r (PAGE_ALIGN_DOWN v) =
        pdptOf st r (PAGE_ALIGN_DOWN v) := pdptOf_congr e4slot
    have c3 : pdOf st2 r (PAGE_ALIGN_DOWN v) =
        pdOf st r (PAGE_ALIGN_DOWN v) := by
      refine pdOf_congr c4 ?_
      intro t3 h
      rw [h] at hpdpt
      injection hpdpt with ht
      rw [ht]
      exact e3slot
    have c2 : ptOf st2 r (PAGE_ALIGN_DOWN v) =
        ptOf st r (PAGE_ALIGN_DOWN v) := by
      refine ptOf_congr c3 ?_
      intro t2 h
      rw [h] at hpd
      injection hpd with ht
      rw [ht]
      exact e2slot
    have e1slot : st2.mem t1 (PT_INDEX (PAGE_ALIGN_DOWN v)) =
        st.mem t1 (PT_INDEX (PAGE_ALIGN_DOWN v)) := by
      by_contra hne
      obtain ⟨hptx, hj, _⟩ := hfoot t1 _ hne
      obtain ⟨hrr, h4i, h3i, h2i⟩ :=
        ptOf_inj hInv hr2 hr hi4lo2 hi4lo hptx hpt
      have heqv : PAGE_ALIGN_DOWN (PAGE_ALIGN_DOWN v2) =
          PAGE_ALIGN_DOWN (PAGE_ALIGN_DOWN v) :=
        align_eq_of_idx hva2 hva h4i h3i h2i hj.symm
      rw [align_idem, align_idem] at heqv
      rcases hav2 with hne2 | hne2
      · exact hne2 hrr
      · exact hne2 heqv
    exact ⟨hInv2, hrb, by rw [c2]; exact hpt, e1slot⟩

end Vmm

namespace Vmm

/-- Noninterference along a sequence: legal operations all avoiding the
page of v in space r leave the walk of v in r and its leaf entry
untouched. -/
theorem execList_preserves (ops : List VOp) :
    ∀ {st : VmState}, Inv st → ∀ {r v t1 : Nat}, r ∈ st.roots →
    v < 2 ^ 47 →
    ptOf st r (PAGE_ALIGN_DOWN v) = some t1 →
    st.mem t1 (PT_INDEX (PAGE_ALIGN_DOWN v)) &&& VMM_PRESENT ≠ 0 →
    LegalFrom st ops → AvoidsAll r (PAGE_ALIGN_DOWN v) ops →
    Inv (execList st ops) ∧ r ∈ (execList st ops).roots ∧
    ptOf (execList st ops) r (PAGE_ALIGN_DOWN v) = some t1 ∧
    (execList st ops).mem t1 (PT_INDEX (PAGE_ALIGN_DOWN v)) =
      st.mem t1 (PT_INDEX (PAGE_ALIGN_DOWN v)) := by
  induction ops with
  | nil =>
    intro st hInv r v t1 hr hv hpt hpres _ _
    exact ⟨hInv, hr, hpt, rfl⟩
  | cons op ops ih =>
    intro st hInv r v t1 hr hv hpt hpres hleg hav
    have hleg2 : LegalOp st op ∧ LegalFrom (execVM st op) ops := hleg
    have havop : Avoids r (PAGE_ALIGN_DOWN v) op :=
      hav op (List.mem_cons_self op ops)
    have havrest : AvoidsAll r (PAGE_ALIGN_DOWN v) ops :=
      fun o ho => hav o (List.mem_cons_of_mem op ho)
    obtain ⟨hInv2, hr2, hpt2, hm2⟩ :=
      op_preserves hInv hr hv hpt hpres hleg2.1 havop
    have hpres2 : (execVM st op).mem t1
        (PT_INDEX (PAGE_ALIGN_DOWN v)) &&& VMM_PRESENT ≠ 0 := by
      rw [hm2]
      exact hpres
    have hrec := ih hInv2 hr2 hv hpt2 hpres2 hleg2.2 havrest
    refine ⟨hrec.1, hrec.2.1, hrec.2.2.1, ?_⟩
    show (execList (execVM st op) ops).mem t1
        (PT_INDEX (PAGE_ALIGN_DOWN v)) =
      st.mem t1 (PT_INDEX (PAGE_ALIGN_DOWN v))
    rw [hrec.2.2.2, hm2]

end Vmm

namespace Vmm

/-- C1 counterexample: the claimed persistence "until the next unmap" is
refuted by a second successful map of the same virtual address: from the
vmm_init state, map(kroot, 0x400000, 0xAAAA000) succeeds and translate
returns frame 0xAAAA000, but a following map(kroot, 0x400000, 0xBBBB000)
(which is not an unmap) changes the frame returned by translate. -/
theorem C1_counterexample :
    (vmm_map_page (initVM (fun _ _ => 0)) 4096 0x400000
      0xAAAA000 0).1 = true ∧
    vmm_get_physical (vmm_map_page (initVM (fun _ _ => 0)) 4096 0x400000
      0xAAAA000 0).2 4096 0x400000 / 2 ^ 12 = 0xAAAA000 / 2 ^ 12 ∧
    (vmm_map_page (vmm_map_page (initVM (fun _ _ => 0)) 4096 0x400000
      0xAAAA000 0).2 4096 0x400000 0xBBBB000 0).1 = true ∧
    vmm_get_physical (vmm_map_page (vmm_map_page (initVM (fun _ _ => 0))
      4096 0x400000 0xAAAA000 0).2 4096 0x400000 0xBBBB000 0).2
      4096 0x400000 / 2 ^ 12 ≠ 0xAAAA000 / 2 ^ 12 := by
  decide

/-- C1 (amended): in any reachable vmm state, if map(space, v, p, flags)
succeeds for a created space, a lower-half v, a physical address within
the 52-bit limit and flags carrying no address bits, then translate
returns a physical address with the frame bits (bits 12 and up) of p,
and this persists across any sequence of legal create / map / unmap
operations that do not map or unmap the page of v in that space. -/
theorem C1_amended {st : VmState} (hre : ReachedVM st) {r v p f : Nat}
    (hr : r ∈ st.roots) (hv : v < 2 ^ 47) (hp : p < 2 ^ 52)
    (hf : f &&& (2 ^ 52 - 2 ^ 12) = 0) {st1 : VmState}
    (hmap : vmm_map_page st r v p f = (true, st1))
    (ops : List VOp) (hleg : LegalFrom st1 ops)
    (hav : AvoidsAll r (PAGE_ALIGN_DOWN v) ops) :
    vmm_get_physical (execList st1 ops) r v / 2 ^ 12 = p / 2 ^ 12 := by
  have hInv := reached_inv hre
  obtain ⟨b, st1b, heq1, hInv1, hroots1, _, _, _, hsucc1⟩ :=
    map_spec hInv hr hv
  rw [heq1] at hmap
  injection hmap with hb1 hst1
  subst hst1
  subst hb1
  obtain ⟨t1, hpt1, hleaf1⟩ := hsucc1 rfl
  have hr1 : r ∈ st1b.roots := by
    rw [hroots1]
    exact hr
  have hpres : st1b.mem t1 (PT_INDEX (PAGE_ALIGN_DOWN v)) &&&
      VMM_PRESENT ≠ 0 := by
    rw [hleaf1]
    exact leaf_present _ _
  obtain ⟨hInvf, hrf, hptf, hmf⟩ :=
    execList_preserves ops hInv1 hr1 hv hpt1 hpres hleg hav
  rw [get_physical_char hInvf hrf hv, hptf]
  dsimp only
  rw [hmf, hleaf1, if_neg (leaf_present _ _),
    pte_leaf (align_mod p) (lt_of_le_of_lt (align_le p) hp) hf,
    align_div_form (lt_trans hp (by norm_num))]
  omega

/-- C1 amended, witnessed on a concrete run: map frame 0xAAAA000 at
0x400000 in the kernel root of the vmm_init state, run no further
operations, and translate returns that frame. -/
theorem C1_amended_witness :
    vmm_get_physical (execList (vmm_map_page (initVM (fun _ _ => 0))
      4096 0x400000 0xAAAA000 0).2 []) 4096 0x400000 / 2 ^ 12 =
      0xAAAA000 / 2 ^ 12 := by
  have h1 : (vmm_map_page (initVM (fun _ _ => 0)) 4096 0x400000
      0xAAAA000 0).1 = true := by decide
  exact C1_amended (ReachedVM.init (fun _ _ => 0)) (by decide) (by decide)
    (by decide) (by decide) (Prod.ext h1 rfl) []
    True.intro (fun o ho => absurd ho (List.not_mem_nil o))

end Vmm

namespace Vmm

/-- C3 counterexample: two distinct physical addresses in the same page
frame refute the claimed conclusion translate(s1,v) ≠ translate(s2,v):
with spaces s1 = 8192 and s2 = 12288 both produced by create() from the
vmm_init state, map(s1, 0x400000, 0x5000) and map(s2, 0x400000, 0x5001)
succeed with p1 ≠ p2, yet both translates return frame 0x5000. -/
theorem C3_counterexample :
    (8192 : Nat) ∈ (execVM (execVM (initVM (fun _ _ => 0)) VOp.create)
      VOp.create).roots ∧
    (12288 : Nat) ∈ (execVM (execVM (initVM (fun _ _ => 0)) VOp.create)
      VOp.create).roots ∧
    (vmm_map_page (execVM (execVM (initVM (fun _ _ => 0)) VOp.create)
      VOp.create) 8192 0x400000 0x5000 0).1 = true ∧
    (vmm_map_page (vmm_map_page (execVM (execVM (initVM (fun _ _ => 0))
      VOp.create) VOp.create) 8192 0x400000 0x5000 0).2
      12288 0x400000 0x5001 0).1 = true ∧
    (0x5000 : Nat) ≠ 0x5001 ∧
    vmm_get_physical (vmm_map_page (vmm_map_page (execVM (execVM
      (initVM (fun _ _ => 0)) VOp.create) VOp.create) 8192 0x400000
      0x5000 0).2 12288 0x400000 0x5001 0).2 8192 0x400000 =
      vmm_get_physical (vmm_map_page (vmm_map_page (execVM (execVM
      (initVM (fun _ _ => 0)) VOp.create) VOp.create) 8192 0x400000
      0x5000 0).2 12288 0x400000 0x5001 0).2 12288 0x400000 := by
  decide

/-- C3 (amended): for two distinct spaces in any reachable vmm state and
a lower-half v, mapping v in the second space leaves the translation of
v in the first space unchanged (both translates return the frames just
mapped), and the translates differ exactly when the mapped frames (not
the raw physical addresses) differ. -/
theorem C3_amended {st : VmState} (hre : ReachedVM st)
    {r1 r2 v p1 p2 f1 f2 : Nat}
    (hr1 : r1 ∈ st.roots) (hr2 : r2 ∈ st.roots) (hrr : r1 ≠ r2)
    (hv : v < 2 ^ 47) (hp1 : p1 < 2 ^ 52) (hp2 : p2 < 2 ^ 52)
    (hf1 : f1 &&& (2 ^ 52 - 2 ^ 12) = 0)
    (hf2 : f2 &&& (2 ^ 52 - 2 ^ 12) = 0) (hf2b : f2 < 2 ^ 64)
    {st1 st2 : VmState}
    (hmap1 : vmm_map_page st r1 v p1 f1 = (true, st1))
    (hmap2 : vmm_map_page st1 r2 v p2 f2 = (true, st2)) :
    vmm_get_physical st2 r1 v / 2 ^ 12 = p1 / 2 ^ 12 ∧
    vmm_get_physical st2 r2 v / 2 ^ 12 = p2 / 2 ^ 12 ∧
    (p1 / 2 ^ 12 ≠ p2 / 2 ^ 12 →
      vmm_get_physical st2 r1 v ≠ vmm_get_physical st2 r2 v) := by
  have hInv := reached_inv hre
  obtain ⟨b, st1b, heq1, hInv1, hroots1, _, _, _, hsucc1⟩ :=
    map_spec hInv hr1 hv
  rw [heq1] at hmap1
  injection hmap1 with hb1 hst1
  subst hst1
  subst hb1
  obtain ⟨t1, hpt1, hleaf1⟩ := hsucc1 rfl
  have hr2b : r2 ∈ st1b.roots := by
    rw [hroots1]
    exact hr2
  have hr1b : r1 ∈ st1b.roots := by
    rw [hroots1]
    exact hr1
  obtain ⟨b2, st2b, heq2, hInv2, hroots2, _, _, _, hsucc2⟩ :=
    map_spec hInv1 hr2b hv
  rw [heq2] at hmap2
  injection hmap2 with hb2 hst2
  subst hst2
  subst hb2
  obtain ⟨u1, hpt2, hleaf2⟩ := hsucc2 rfl
  have hpres1 : st1b.mem t1 (PT_INDEX (PAGE_ALIGN_DOWN v)) &&&
      VMM_PRESENT ≠ 0 := by
    rw [hleaf1]
    exact leaf_present _ _
  have hlegop : LegalOp st1b (VOp.map r2 v p2 f2) :=
    ⟨hr2b, hv, lt_trans hp2 (by norm_num), hf2b⟩
  have havop : Avoids r1 (PAGE_ALIGN_DOWN v) (VOp.map r2 v p2 f2) :=
    Or.inl (fun he => hrr he.symm)
  obtain ⟨hInv2c, hr1c, hptf, hmf⟩ :=
    op_preserves hInv1 hr1b hv hpt1 hpres1 hlegop havop
  have hex : execVM st1b (VOp.map r2 v p2 f2) = st2b := by
    show (vmm_map_page st1b r2 v p2 f2).2 = st2b
    rw [heq2]
  rw [hex] at hr1c hptf hmf
  have htr1 : vmm_get_physical st2b r1 v = PAGE_ALIGN_DOWN p1 := by
    rw [get_physical_char hInv2 hr1c hv, hptf]
    dsimp only
    rw [hmf, hleaf1, if_neg (leaf_present _ _)]
    exact pte_leaf (align_mod p1) (lt_of_le_of_lt (align_le p1) hp1) hf1
  have htr2 : vmm_get_physical st2b r2 v = PAGE_ALIGN_DOWN p2 := by
    have hr2c : r2 ∈ st2b.roots := by
      rw [hroots2]
      exact hr2b
    rw [get_physical_char hInv2 hr2c hv, hpt2]
    dsimp only
    rw [hleaf2, if_neg (leaf_present _ _)]
    exact pte_leaf (align_mod p2) (lt_of_le_of_lt (align_le p2) hp2) hf2
  refine ⟨?_, ?_, ?_⟩
  · rw [htr1, align_div_form (lt_trans hp1 (by norm_num))]
    omega
  · rw [htr2, align_div_form (lt_trans hp2 (by norm_num))]
    omega
  · intro hne hcontra
    rw [htr1, htr2, align_div_form (lt_trans hp1 (by norm_num)),
      align_div_form (lt_trans hp2 (by norm_num))] at hcontra
    exact hne (by omega)

/-- C3 amended, witnessed on a concrete run: two created spaces, map
frame 0x5000 at 0x400000 in the first and frame 0x6000 in the second;
both translations hold and differ. -/
theorem C3_amended_witness :
    vmm_get_physical (vmm_map_page (vmm_map_page (execVM (execVM
      (initVM (fun _ _ => 0)) VOp.create) VOp.create) 8192 0x400000
      0x5000 0).2 12288 0x400000 0x6000 0).2 8192 0x400000 / 2 ^ 12 =
      0x5000 / 2 ^ 12 ∧
    vmm_get_physical (vmm_map_page (vmm_map_page (execVM (execVM
      (initVM (fun _ _ => 0)) VOp.create) VOp.create) 8192 0x400000
      0x5000 0).2 12288 0x400000 0x6000 0).2 12288 0x400000 / 2 ^ 12 =
      0x6000 / 2 ^ 12 ∧
    ((0x5000 : Nat) / 2 ^ 12 ≠ 0x6000 / 2 ^ 12 →
      vmm_get_physical (vmm_map_page (vmm_map_page (execVM (execVM
        (initVM (fun _ _ => 0)) VOp.create) VOp.create) 8192 0x400000
        0x5000 0).2 12288 0x400000 0x6000 0).2 8192 0x400000 ≠
      vmm_get_physical (vmm_map_page (vmm_map_page (execVM (execVM
        (initVM (fun _ _ => 0)) VOp.create) VOp.create) 8192 0x400000
        0x5000 0).2 12288 0x400000 0x6000 0).2 12288 0x400000) := by
  have h1 : (vmm_map_page (execVM (execVM (initVM (fun _ _ => 0))
      VOp.create) VOp.create) 8192 0x400000 0x5000 0).1 = true := by
    decide
  have h2 : (vmm_map_page (vmm_map_page (execVM (execVM
      (initVM (fun _ _ => 0)) VOp.create) VOp.create) 8192 0x400000
      0x5000 0).2 12288 0x400000 0x6000 0).1 = true := by
    decide
  exact C3_amended
    (ReachedVM.step VOp.create
      (ReachedVM.step VOp.create (ReachedVM.init (fun _ _ => 0))
        True.intro)
      True.intro)
    (by decide) (by decide) (by decide) (by decide) (by decide)
    (by decide) (by decide) (by decide) (by decide)
    (Prod.ext h1 rfl) (Prod.ext h2 rfl)

end Vmm

/-! ## SimpleFS, from src/kernel/fs/simplefs.c and simplefs.h

The disk is a byte array indexed by (block, offset); ata_read_sectors /
ata_write_sectors on the single present drive always succeed and move
whole 4096-byte blocks, so they are the identity on this representation.
kmalloc always succeeds; the contents of a freshly kmalloc-ed buffer are
an explicit junk oracle parameter wherever the code reads bytes it never
initialised (this happens only in sfs_read_dir_entries, whose entries
array keeps its kmalloc contents past the bytes actually read).
Filenames are NUL-free byte lists; a path "/name" is represented by the
name list, so the path[0] == a slash check always passes and
strlen(path) >= 2 becomes name being nonempty.  uint32 counters wrap
modulo 2^32.  sizeof(sfs_inode_t) = 108 and sizeof(sfs_dirent_t) = 60
with the packed field offsets of simplefs.h. -/

namespace Sfs

def SFS_MAGIC : Nat := 0x53465330
def SFS_BLOCK_SIZE : Nat := 4096
def SFS_MAX_FILENAME : Nat := 56
def SFS_DIRECT_BLOCKS : Nat := 12
def SFS_MAX_INODES : Nat := 1024
def SFS_MAX_BLOCKS : Nat := 131072
def SFS_TYPE_FILE : Nat := 1
def SFS_TYPE_DIR : Nat := 2
def SFS_ERR_SUCCESS : Int := 0
def SFS_ERR_INVALID : Int := -1
def SFS_ERR_NOT_FOUND : Int := -4
def SFS_ERR_EXISTS : Int := -5
def SFS_ERR_NO_SPACE : Int := -6
def SFS_ERR_NOT_MOUNTED : Int := -7
def INODE_SIZE : Nat := 108
def DIRENT_SIZE : Nat := 60
def inodes_per_block : Nat := SFS_BLOCK_SIZE / INODE_SIZE

/-- bitmap_blocks from simplefs.c lines 19-23. -/
def bitmap_blocks (num_items : Nat) : Nat :=
  ((num_items + 7) / 8 + SFS_BLOCK_SIZE - 1) / SFS_BLOCK_SIZE

/-- bitmap_set from simplefs.c lines 26-28 (bitmap bytes stay below
256). -/
def bitmap_set (bm : Nat → Nat) (bit : Nat) : Nat → Nat :=
  fun k => if k = bit / 8 then bm k ||| (1 <<< (bit % 8)) else bm k

/-- bitmap_clear from simplefs.c lines 31-33: the complement mask
truncated to the uint8 byte is 255 - 2^(bit mod 8). -/
def bitmap_clear (bm : Nat → Nat) (bit : Nat) : Nat → Nat :=
  fun k => if k = bit / 8 then bm k &&& (255 - (1 <<< (bit % 8)))
    else bm k

/-- bitmap_test from simplefs.c lines 36-38. -/
def bitmap_test (bm : Nat → Nat) (bit : Nat) : Bool :=
  decide (bm (bit / 8) &&& (1 <<< (bit % 8)) ≠ 0)

/-- The scan loop of bitmap_find_free (simplefs.c lines 41-48); the
fuel is the number of remaining iterations. -/
def bitmap_find_free_from (bm : Nat → Nat) : Nat → Nat → Option Nat
  | _, 0 => none
  | i, fuel + 1 =>
    if bitmap_test bm i = false then some i
    else bitmap_find_free_from bm (i + 1) fuel

def bitmap_find_free (bm : Nat → Nat) (num_bits : Nat) : Option Nat :=
  bitmap_find_free_from bm 0 num_bits

/-- Number of set bits among the first n bits of a bitmap. -/
def popcount (bm : Nat → Nat) : Nat → Nat
  | 0 => 0
  | k + 1 => popcount bm k + (if bitmap_test bm k then 1 else 0)

abbrev Disk : Type := Nat → Nat → Nat

/-- sfs_write_block: ata_write_sectors of one 4096-byte block. -/
def write_block (d : Disk) (b : Nat) (f : Nat → Nat) : Disk :=
  fun x i => if x = b then f i else d x i

/-- Little-endian uint32 load from a byte function. -/
def bytesU32 (f : Nat → Nat) (off : Nat) : Nat :=
  f off + 256 * f (off + 1) + 65536 * f (off + 2) +
    16777216 * f (off + 3)

def readU32 (d : Disk) (b off : Nat) : Nat := bytesU32 (d b) off

/-- Byte k of the little-endian encoding of a uint32 value. -/
def u32byte (v k : Nat) : Nat := v / 256 ^ k % 256

structure sfs_superblock_t where
  magic : Nat
  version : Nat
  block_size : Nat
  total_blocks : Nat
  total_inodes : Nat
  free_blocks : Nat
  free_inodes : Nat
  inode_bitmap_block : Nat
  data_bitmap_block : Nat
  inode_table_block : Nat
  data_blocks_start : Nat
  drive_number : Nat

structure sfs_inode_t where
  type : Nat
  size : Nat
  blocks : Nat
  links_count : Nat
  direct : Nat → Nat
  indirect : Nat
  ctime : Nat
  mtime : Nat

structure sfs_state_t where
  sb : sfs_superblock_t
  inode_bitmap : Nat → Nat
  data_bitmap : Nat → Nat
  drive : Nat
  mounted : Bool

/-- The packed on-disk superblock bytes (offsets 0,4,...,40,44 as in
simplefs.h; reserved bytes zero). -/
def sbBytes (sb : sfs_superblock_t) (i : Nat) : Nat :=
  if i < 4 then u32byte sb.magic i
  else if i < 8 then u32byte sb.version (i - 4)
  else if i < 12 then u32byte sb.block_size (i - 8)
  else if i < 16 then u32byte sb.total_blocks (i - 12)
  else if i < 20 then u32byte sb.total_inodes (i - 16)
  else if i < 24 then u32byte sb.free_blocks (i - 20)
  else if i < 28 then u32byte sb.free_inodes (i - 24)
  else if i < 32 then u32byte sb.inode_bitmap_block (i - 28)
  else if i < 36 then u32byte sb.data_bitmap_block (i - 32)
  else if i < 40 then u32byte sb.inode_table_block (i - 36)
  else if i < 44 then u32byte sb.data_blocks_start (i - 40)
  else if i = 44 then sb.drive_number % 256
  else 0

/-- Superblock as sfs_mount reads it from block 0. -/
def decodeSb (d : Disk) : sfs_superblock_t :=
  { magic := readU32 d 0 0, version := readU32 d 0 4,
    block_size := readU32 d 0 8, total_blocks := readU32 d 0 12,
    total_inodes := readU32 d 0 16, free_blocks := readU32 d 0 20,
    free_inodes := readU32 d 0 24, inode_bitmap_block := readU32 d 0 28,
    data_bitmap_block := readU32 d 0 32,
    inode_table_block := readU32 d 0 36,
    data_blocks_start := readU32 d 0 40, drive_number := d 0 44 }

/-- The packed 108 on-disk bytes of an inode (offsets as in simplefs.h;
every inode the code ever writes has zero reserved bytes). -/
def inodeBytes (ino : sfs_inode_t) (i : Nat) : Nat :=
  if i < 4 then u32byte ino.type i
  else if i < 8 then u32byte ino.size (i - 4)
  else if i < 12 then u32byte ino.blocks (i - 8)
  else if i < 16 then u32byte ino.links_count (i - 12)
  else if i < 64 then u32byte (ino.direct ((i - 16) / 4)) ((i - 16) % 4)
  else if i < 68 then u32byte ino.indirect (i - 64)
  else if i < 72 then u32byte ino.ctime (i - 68)
  else if i < 76 then u32byte ino.mtime (i - 72)
  else 0

/-- Inode n as sfs_read_inode loads it from the inode table. -/
def decodeInode (d : Disk) (sb : sfs_superblock_t) (n : Nat) :
    sfs_inode_t :=
  { type := readU32 d (sb.inode_table_block + n / inodes_per_block)
      (n % inodes_per_block * INODE_SIZE),
    size := readU32 d (sb.inode_table_block + n / inodes_per_block)
      (n % inodes_per_block * INODE_SIZE + 4),
    blocks := readU32 d (sb.inode_table_block + n / inodes_per_block)
      (n % inodes_per_block * INODE_SIZE + 8),
    links_count := readU32 d (sb.inode_table_block + n / inodes_per_block)
      (n % inodes_per_block * INODE_SIZE + 12),
    direct := fun j =>
      readU32 d (sb.inode_table_block + n / inodes_per_block)
        (n % inodes_per_block * INODE_SIZE + 16 + 4 * j),
    indirect := readU32 d (sb.inode_table_block + n / inodes_per_block)
      (n % inodes_per_block * INODE_SIZE + 64),
    ctime := readU32 d (sb.inode_table_block + n / inodes_per_block)
      (n % inodes_per_block * INODE_SIZE + 68),
    mtime := readU32 d (sb.inode_table_block + n / inodes_per_block)
      (n % inodes_per_block * INODE_SIZE + 72) }

/-- sfs_read_inode (simplefs.c 131-158): bounds check, then the load;
block reads always succeed. -/
def sfs_read_inode (st : sfs_state_t) (d : Disk) (n : Nat) :
    Except Int sfs_inode_t :=
  if st.sb.total_inodes ≤ n then Except.error SFS_ERR_INVALID
  else Except.ok (decodeInode d st.sb n)

/-- sfs_write_inode (simplefs.c 163-193): read-modify-write of the 108
byte window of inode n inside its table block. -/
def sfs_write_inode (st : sfs_state_t) (d : Disk) (n : Nat)
    (ino : sfs_inode_t) : Int × Disk :=
  if st.sb.total_inodes ≤ n then (SFS_ERR_INVALID, d)
  else
    (SFS_ERR_SUCCESS,
      write_block d (st.sb.inode_table_block + n / inodes_per_block)
        (fun i =>
          if n % inodes_per_block * INODE_SIZE ≤ i ∧
              i < n % inodes_per_block * INODE_SIZE + INODE_SIZE then
            inodeBytes ino (i - n % inodes_per_block * INODE_SIZE)
          else d (st.sb.inode_table_block + n / inodes_per_block) i))

/-- sfs_alloc_block (simplefs.c 81-91). -/
def sfs_alloc_block (st : sfs_state_t) : Option Nat × sfs_state_t :=
  match bitmap_find_free st.data_bitmap st.sb.total_blocks with
  | none => (none, st)
  | some b =>
    (some b,
      { st with
        data_bitmap := bitmap_set st.data_bitmap b,
        sb := { st.sb with free_blocks := (st.sb.free_blocks + 2 ^ 32 - 1) % 2 ^ 32 } })

/-- sfs_free_block (simplefs.c 96-101). -/
def sfs_free_block (st : sfs_state_t) (b : Nat) : sfs_state_t :=
  if b < st.sb.total_blocks ∧ bitmap_test st.data_bitmap b = true then
    { st with
      data_bitmap := bitmap_clear st.data_bitmap b,
      sb := { st.sb with free_blocks := (st.sb.free_blocks + 1) % 2 ^ 32 } }
  else st

/-- sfs_alloc_inode (simplefs.c 106-116). -/
def sfs_alloc_inode (st : sfs_state_t) : Option Nat × sfs_state_t :=
  match bitmap_find_free st.inode_bitmap st.sb.total_inodes with
  | none => (none, st)
  | some n =>
    (some n,
      { st with
        inode_bitmap := bitmap_set st.inode_bitmap n,
        sb := { st.sb with free_inodes := (st.sb.free_inodes + 2 ^ 32 - 1) % 2 ^ 32 } })

/-- sfs_free_inode (simplefs.c 121-126). -/
def sfs_free_inode (st : sfs_state_t) (n : Nat) : sfs_state_t :=
  if n < st.sb.total_inodes ∧ bitmap_test st.inode_bitmap n = true then
    { st with
      inode_bitmap := bitmap_clear st.inode_bitmap n,
      sb := { st.sb with free_inodes := (st.sb.free_inodes + 1) % 2 ^ 32 } }
  else st

/-- strcmp(field, name) == 0 for a NUL-free name list against the bytes
of a byte function starting at off. -/
def strEqAt (f : Nat → Nat) (off : Nat) : List Nat → Bool
  | [] => decide (f off = 0)
  | c :: cs => decide (f off = c) && strEqAt f (off + 1) cs

/-- The copy loop of sfs_read_dir_entries (simplefs.c 505-524): number
of bytes actually read, stopping at the first direct slot equal to 0. -/
def dirReadLoop (direct : Nat → Nat) (size : Nat) :
    Nat → Nat → Nat → Nat
  | _, 0, bytes_read => bytes_read
  | i, fuel + 1, bytes_read =>
    if i < SFS_DIRECT_BLOCKS ∧ bytes_read < size then
      if direct i = 0 then bytes_read
      else dirReadLoop direct size (i + 1) fuel
        (bytes_read + min SFS_BLOCK_SIZE (size - bytes_read))
    else bytes_read

/-- The entries array sfs_read_dir_entries hands back: bytes actually
read come from the directory data blocks; the rest of the kmalloc-ed
array keeps its junk contents. -/
def dirEntries (st : sfs_state_t) (d : Disk) (junk : Nat → Nat)
    (dir : sfs_inode_t) : Nat → Nat :=
  fun i =>
    if i < dirReadLoop dir.direct dir.size 0 SFS_DIRECT_BLOCKS 0 then
      d (st.sb.data_blocks_start + dir.direct (i / SFS_BLOCK_SIZE))
        (i % SFS_BLOCK_SIZE)
    else junk i

/-- The scan loop of sfs_find_dirent (simplefs.c 554-560). -/
def findLoop (ent : Nat → Nat) (name : List Nat) :
    Nat → Nat → Option Nat
  | _, 0 => none
  | i, fuel + 1 =>
    if bytesU32 ent (DIRENT_SIZE * i) ≠ 0 ∧
        strEqAt ent (DIRENT_SIZE * i + 4) name = true then
      some (bytesU32 ent (DIRENT_SIZE * i))
    else findLoop ent name (i + 1) fuel

/-- sfs_find_dirent (simplefs.c 534-564) on the root directory: the C
returns an int status and fills *out_inode on success (the second
component is meaningful only when the first is SFS_ERR_SUCCESS). -/
def sfs_find_dirent (st : sfs_state_t) (d : Disk) (junk : Nat → Nat)
    (name : List Nat) : Int × Nat :=
  match sfs_read_inode st d 0 with
  | Except.error e => (e, 0)
  | Except.ok dir =>
    if dir.type ≠ SFS_TYPE_DIR then (SFS_ERR_INVALID, 0)
    else
      match findLoop (dirEntries st d junk dir) name 0
          (dir.size / DIRENT_SIZE) with
      | some ino => (SFS_ERR_SUCCESS, ino)
      | none => (SFS_ERR_NOT_FOUND, 0)

end Sfs

namespace Sfs

/-- sfs_create_file (simplefs.c 569-675).  The path is "/" ++ name, so
the leading-slash check always passes and strlen(path) >= 2 is name
being nonempty.  The continuation after the optional directory-block
allocation is shared by both branches, as in the C. -/
def sfs_create_file (st : sfs_state_t) (d : Disk) (junk : Nat → Nat)
    (name : List Nat) (ty : Nat) : Int × sfs_state_t × Disk :=
  if st.mounted = false then (SFS_ERR_NOT_MOUNTED, st, d)
  else if name = [] then (SFS_ERR_INVALID, st, d)
  else
    if (sfs_find_dirent st d junk name).1 = SFS_ERR_SUCCESS then
      (SFS_ERR_EXISTS, st, d)
    else
      match sfs_alloc_inode st with
      | (none, st1) => (SFS_ERR_NO_SPACE, st1, d)
      | (some inode_num, st1) =>
        match sfs_write_inode st1 d inode_num
            { type := ty, size := 0, blocks := 0, links_count := 1,
              direct := fun _ => 0, indirect := 0, ctime := 0,
              mtime := 0 } with
        | (r1, d1) =>
          if r1 ≠ SFS_ERR_SUCCESS then
            (r1, sfs_free_inode st1 inode_num, d1)
          else
            match sfs_read_inode st1 d1 0 with
            | Except.error e => (e, sfs_free_inode st1 inode_num, d1)
            | Except.ok root0 =>
              let finish : sfs_state_t → sfs_inode_t →
                  Int × sfs_state_t × Disk := fun st2 root =>
                let last_block := root.direct (root.blocks - 1)
                let off := root.size % SFS_BLOCK_SIZE
                let blkno := st2.sb.data_blocks_start + last_block
                let d2 := write_block d1 blkno (fun i =>
                  if off ≤ i ∧ i < off + 4 then
                    u32byte inode_num (i - off)
                  else if off + 4 ≤ i ∧ i < off + 59 then
                    name.getD (i - off - 4) 0
                  else if i = off + 59 then 0
                  else d1 blkno i)
                match sfs_write_inode st2 d2 0
                    { root with size := root.size + DIRENT_SIZE } with
                | (r2, d3) =>
                  if r2 ≠ SFS_ERR_SUCCESS then
                    (r2, sfs_free_inode st2 inode_num, d3)
                  else (SFS_ERR_SUCCESS, st2, d3)
              if root0.blocks <
                  (root0.size + DIRENT_SIZE + SFS_BLOCK_SIZE - 1) /
                    SFS_BLOCK_SIZE then
                if SFS_DIRECT_BLOCKS ≤ root0.blocks then
                  (SFS_ERR_NO_SPACE, sfs_free_inode st1 inode_num, d1)
                else
                  match sfs_alloc_block st1 with
                  | (none, st2) =>
                    (SFS_ERR_NO_SPACE, sfs_free_inode st2 inode_num, d1)
                  | (some b, st2) =>
                    finish st2
                      { root0 with
                        direct := fun j =>
                          if j = root0.blocks then b else root0.direct j,
                        blocks := root0.blocks + 1 }
              else finish st1 root0

/-- The read loop of sfs_read_file (simplefs.c 724-746): bytes read
before hitting a missing direct slot or the direct limit. -/
def fileReadLoop (direct : Nat → Nat) (offset size2 : Nat) :
    Nat → Nat → Nat
  | 0, bytes_read => bytes_read
  | fuel + 1, bytes_read =>
    if bytes_read < size2 then
      if SFS_DIRECT_BLOCKS ≤ (offset + bytes_read) / SFS_BLOCK_SIZE ∨
          direct ((offset + bytes_read) / SFS_BLOCK_SIZE) = 0 then
        bytes_read
      else
        fileReadLoop direct offset size2 fuel
          (bytes_read + min
            (SFS_BLOCK_SIZE - (offset + bytes_read) % SFS_BLOCK_SIZE)
            (size2 - bytes_read))
    else bytes_read

/-- sfs_read_file (simplefs.c 680-750); the second component holds the
bytes placed in the caller's buffer (zero past the returned count).
The fuel 14 covers the at most 13 loop iterations (the block index
grows past SFS_DIRECT_BLOCKS after at most 12 block boundaries). -/
def sfs_read_file (st : sfs_state_t) (d : Disk) (junk : Nat → Nat)
    (name : List Nat) (offset size : Nat) : Int × (Nat → Nat) :=
  if st.mounted = false then (SFS_ERR_NOT_MOUNTED, fun _ => 0)
  else if name = [] then (SFS_ERR_INVALID, fun _ => 0)
  else
    if (sfs_find_dirent st d junk name).1 ≠ SFS_ERR_SUCCESS then
      ((sfs_find_dirent st d junk name).1, fun _ => 0)
    else
      match sfs_read_inode st d (sfs_find_dirent st d junk name).2 with
      | Except.error e => (e, fun _ => 0)
      | Except.ok ino =>
        if ino.type ≠ SFS_TYPE_FILE then (SFS_ERR_INVALID, fun _ => 0)
        else if ino.size ≤ offset then (0, fun _ => 0)
        else
          let size2 := if ino.size < offset + size then ino.size - offset
            else size
          let bytes_read := fileReadLoop ino.direct offset size2 14 0
          (Int.ofNat bytes_read, fun i =>
            if i < bytes_read then
              d (st.sb.data_blocks_start +
                  ino.direct ((offset + i) / SFS_BLOCK_SIZE))
                ((offset + i) % SFS_BLOCK_SIZE)
            else 0)

/-- The block-allocation loop of sfs_write_file (simplefs.c 788-800).
Each iteration grows ino.blocks, which the loop and the direct-limit
check bound by SFS_DIRECT_BLOCKS, so fuel 13 never runs out. -/
def allocLoop (blocks_needed : Nat) :
    Nat → sfs_state_t → sfs_inode_t → Option sfs_inode_t × sfs_state_t
  | 0, st, ino => (some ino, st)
  | fuel + 1, st, ino =>
    if ino.blocks < blocks_needed then
      if SFS_DIRECT_BLOCKS ≤ ino.blocks then (none, st)
      else
        match sfs_alloc_block st with
        | (none, st2) => (none, st2)
        | (some b, st2) =>
          allocLoop blocks_needed fuel st2
            { ino with
              direct := fun j => if j = ino.blocks then b
                else ino.direct j,
              blocks := ino.blocks + 1 }
    else (some ino, st)

/-- The data-write loop of sfs_write_file (simplefs.c 809-840).  When a
partial block is written the rest of the block keeps its prior disk
contents, matching the read-modify-write in the C; when a full block is
written the copy covers all 4096 bytes. -/
def writeLoop (st : sfs_state_t) (ino : sfs_inode_t)
    (offset size : Nat) (buf : Nat → Nat) :
    Nat → Nat → Disk → Nat × Disk
  | 0, bytes_written, d => (bytes_written, d)
  | fuel + 1, bytes_written, d =>
    if bytes_written < size then
      if SFS_DIRECT_BLOCKS ≤ (offset + bytes_written) / SFS_BLOCK_SIZE
        then (bytes_written, d)
      else
        writeLoop st ino offset size buf fuel
          (bytes_written + min
            (SFS_BLOCK_SIZE - (offset + bytes_written) % SFS_BLOCK_SIZE)
            (size - bytes_written))
          (write_block d
            (st.sb.data_blocks_start +
              ino.direct ((offset + bytes_written) / SFS_BLOCK_SIZE))
            (fun i =>
              if (offset + bytes_written) % SFS_BLOCK_SIZE ≤ i ∧
                  i < (offset + bytes_written) % SFS_BLOCK_SIZE + min
                    (SFS_BLOCK_SIZE -
                      (offset + bytes_written) % SFS_BLOCK_SIZE)
                    (size - bytes_written) then
                buf (bytes_written +
                  (i - (offset + bytes_written) % SFS_BLOCK_SIZE))
              else
                d (st.sb.data_blocks_start +
                    ino.direct ((offset + bytes_written) /
                      SFS_BLOCK_SIZE)) i))
    else (bytes_written, d)

/-- sfs_write_file (simplefs.c 755-855). -/
def sfs_write_file (st : sfs_state_t) (d : Disk) (junk : Nat → Nat)
    (name : List Nat) (offset size : Nat) (buf : Nat → Nat) :
    Int × sfs_state_t × Disk :=
  if st.mounted = false then (SFS_ERR_NOT_MOUNTED, st, d)
  else if name = [] then (SFS_ERR_INVALID, st, d)
  else
    if (sfs_find_dirent st d junk name).1 ≠ SFS_ERR_SUCCESS then
      ((sfs_find_dirent st d junk name).1, st, d)
    else
      match sfs_read_inode st d (sfs_find_dirent st d junk name).2 with
      | Except.error e => (e, st, d)
      | Except.ok ino =>
        if ino.type ≠ SFS_TYPE_FILE then (SFS_ERR_INVALID, st, d)
        else
          match allocLoop
              ((offset + size + SFS_BLOCK_SIZE - 1) / SFS_BLOCK_SIZE)
              13 st ino with
          | (none, st2) => (SFS_ERR_NO_SPACE, st2, d)
          | (some ino2, st2) =>
            match writeLoop st2 ino2 offset size buf 14 0 d with
            | (bytes_written, d2) =>
              match sfs_write_inode st2 d2
                  (sfs_find_dirent st d junk name).2
                  (if ino2.size < offset + size then
                    { ino2 with size := offset + size }
                  else ino2) with
              | (r, d3) =>
                if r ≠ SFS_ERR_SUCCESS then (r, st2, d3)
                else (Int.ofNat bytes_written, st2, d3)

/-- The superblock sfs_format builds (simplefs.c 232-245), including
the SFS_MAX_BLOCKS cap of line 219. -/
def formatSb (n0 : Nat) : sfs_superblock_t :=
  { magic := SFS_MAGIC, version := 1, block_size := SFS_BLOCK_SIZE,
    total_blocks := if SFS_MAX_BLOCKS < n0 then SFS_MAX_BLOCKS else n0,
    total_inodes := SFS_MAX_INODES,
    free_blocks := ((if SFS_MAX_BLOCKS < n0 then SFS_MAX_BLOCKS else n0) +
      2 ^ 32 -
      (1 + bitmap_blocks SFS_MAX_INODES +
        bitmap_blocks (if SFS_MAX_BLOCKS < n0 then SFS_MAX_BLOCKS
          else n0) +
        (SFS_MAX_INODES + inodes_per_block - 1) / inodes_per_block)) %
      2 ^ 32,
    free_inodes := SFS_MAX_INODES - 1,
    inode_bitmap_block := 1,
    data_bitmap_block := 1 + bitmap_blocks SFS_MAX_INODES,
    inode_table_block := 1 + bitmap_blocks SFS_MAX_INODES +
      bitmap_blocks (if SFS_MAX_BLOCKS < n0 then SFS_MAX_BLOCKS else n0),
    data_blocks_start := 1 + bitmap_blocks SFS_MAX_INODES +
      bitmap_blocks (if SFS_MAX_BLOCKS < n0 then SFS_MAX_BLOCKS else n0) +
      (SFS_MAX_INODES + inodes_per_block - 1) / inodes_per_block,
    drive_number := 0 }

/-- The root directory inode sfs_format writes (simplefs.c 302-306). -/
def rootInode : sfs_inode_t :=
  { type := SFS_TYPE_DIR, size := 0, blocks := 0, links_count := 1,
    direct := fun _ => 0, indirect := 0, ctime := 0, mtime := 0 }

/-- sfs_format (simplefs.c 198-334) for an explicitly given block count
(every call site passes one); the C writes exactly the metadata blocks
0 .. data_blocks_start-1, each exactly once, so the resulting disk is
given directly by cases on the block number: the superblock, the inode
bitmap (bit 0 set in its first byte), the zeroed data bitmap, the root
inode at the head of the inode table, and the zeroed rest of the
table. -/
def sfs_format (n0 : Nat) (d : Disk) : Int × Disk :=
  (SFS_ERR_SUCCESS, fun b i =>
    if b = 0 then sbBytes (formatSb n0) i
    else if 1 ≤ b ∧ b < (formatSb n0).data_bitmap_block then
      (if b = 1 ∧ i = 0 then 1 else 0)
    else if (formatSb n0).data_bitmap_block ≤ b ∧
        b < (formatSb n0).inode_table_block then 0
    else if b = (formatSb n0).inode_table_block then
      (if i < INODE_SIZE then inodeBytes rootInode i else 0)
    else if b < (formatSb n0).data_blocks_start then 0
    else d b i)

/-- The inode bitmap bytes as sfs_mount loads them from disk
(simplefs.c 398-408). -/
def diskIB (d : Disk) (sb : sfs_superblock_t) : Nat → Nat :=
  fun j => d (sb.inode_bitmap_block + j / SFS_BLOCK_SIZE)
    (j % SFS_BLOCK_SIZE)

/-- The data bitmap bytes as sfs_mount loads them from disk
(simplefs.c 421-433). -/
def diskDB (d : Disk) (sb : sfs_superblock_t) : Nat → Nat :=
  fun j => d (sb.data_bitmap_block + j / SFS_BLOCK_SIZE)
    (j % SFS_BLOCK_SIZE)

/-- sfs_mount (simplefs.c 339-442): read and check the superblock, then
cache the bitmaps from disk. -/
def sfs_mount (st : sfs_state_t) (d : Disk) (drive : Nat) :
    Int × sfs_state_t :=
  if st.mounted = true then (SFS_ERR_INVALID, st)
  else if (decodeSb d).magic ≠ SFS_MAGIC then (SFS_ERR_INVALID, st)
  else
    (SFS_ERR_SUCCESS,
      { sb := decodeSb d,
        inode_bitmap := diskIB d (decodeSb d),
        data_bitmap := diskDB d (decodeSb d),
        drive := drive, mounted := true })

/-- sfs_unmount (simplefs.c 447-468): frees the cached bitmaps and
clears the mounted flag; nothing is written to disk. -/
def sfs_unmount (st : sfs_state_t) : sfs_state_t :=
  if st.mounted = false then st
  else
    { st with
      inode_bitmap := fun _ => 0,
      data_bitmap := fun _ => 0,
      mounted := false }

/-- The zeroed state after sfs_init (simplefs.c 899-910). -/
def initState : sfs_state_t :=
  { sb :=
      { magic := 0, version := 0, block_size := 0, total_blocks := 0,
        total_inodes := 0, free_blocks := 0, free_inodes := 0,
        inode_bitmap_block := 0, data_bitmap_block := 0,
        inode_table_block := 0, data_blocks_start := 0,
        drive_number := 0 },
    inode_bitmap := fun _ => 0, data_bitmap := fun _ => 0,
    drive := 0, mounted := false }

end Sfs

namespace Sfs

theorem test_set_self (bm : Nat → Nat) (k : Nat) :
    bitmap_test (bitmap_set bm k) k = true := by
  unfold bitmap_test bitmap_set
  rw [if_pos rfl]
  refine decide_eq_true ?_
  intro h
  rw [Nat.shiftLeft_eq, Nat.one_mul] at h
  have h2 := congrArg (fun x => Nat.testBit x (k % 8)) h
  simp only [Nat.testBit_and, Nat.testBit_or, Nat.testBit_two_pow_self,
    Nat.zero_testBit, Bool.or_true, Bool.true_and] at h2
  exact absurd h2 (by decide)

theorem test_set_other (bm : Nat → Nat) (k j : Nat) (h : j ≠ k) :
    bitmap_test (bitmap_set bm k) j = bitmap_test bm j := by
  unfold bitmap_test bitmap_set
  by_cases hb : j / 8 = k / 8
  · rw [if_pos hb]
    have hne : k % 8 ≠ j % 8 := by omega
    have key : ∀ a, a < 8 → ∀ b, b < 8 → a ≠ b →
        (1 <<< a : Nat) &&& (1 <<< b) = 0 := by decide
    rw [Nat.and_distrib_right,
      key (k % 8) (by omega) (j % 8) (by omega) hne, Nat.or_zero]
  · rw [if_neg hb]

theorem test_clear_self (bm : Nat → Nat) (k : Nat) :
    bitmap_test (bitmap_clear bm k) k = false := by
  unfold bitmap_test bitmap_clear
  rw [if_pos rfl]
  refine decide_eq_false ?_
  intro h
  apply h
  have key : ∀ a, a < 8 → (255 - (1 <<< a) : Nat) &&& (1 <<< a) = 0 := by
    decide
  rw [Nat.and_assoc, key (k % 8) (by omega), Nat.and_zero]

theorem test_clear_other (bm : Nat → Nat) (k j : Nat) (h : j ≠ k) :
    bitmap_test (bitmap_clear bm k) j = bitmap_test bm j := by
  unfold bitmap_test bitmap_clear
  by_cases hb : j / 8 = k / 8
  · rw [if_pos hb]
    have hne : k % 8 ≠ j % 8 := by omega
    have key : ∀ a, a < 8 → ∀ b, b < 8 → a ≠ b →
        (255 - (1 <<< a) : Nat) &&& (1 <<< b) = 1 <<< b := by decide
    rw [Nat.and_assoc, key (k % 8) (by omega) (j % 8) (by omega) hne]
  · rw [if_neg hb]

theorem popcount_congr {bm1 bm2 : Nat → Nat} :
    ∀ m, (∀ k, k < m → bitmap_test bm1 k = bitmap_test bm2 k) →
    popcount bm1 m = popcount bm2 m := by
  intro m
  induction m with
  | zero => intro _; rfl
  | succ m ih =>
    intro h
    unfold popcount
    rw [ih (fun k hk => h k (by omega)), h m (by omega)]

theorem popcount_set {bm : Nat → Nat} {k : Nat} :
    ∀ m, k < m → bitmap_test bm k = false →
    popcount (bitmap_set bm k) m = popcount bm m + 1 := by
  intro m
  induction m with
  | zero => intro h; omega
  | succ m ih =>
    intro hk hf
    unfold popcount
    by_cases hm : k = m
    · rw [popcount_congr m (fun j hj =>
        test_set_other bm k j (by omega))]
      rw [hm, test_set_self, ← hm, hf]
      simp
    · rw [ih (by omega) hf, test_set_other bm k m (by omega)]
      omega

theorem popcount_clear {bm : Nat → Nat} {k : Nat} :
    ∀ m, k < m → bitmap_test bm k = true →
    popcount (bitmap_clear bm k) m + 1 = popcount bm m := by
  intro m
  induction m with
  | zero => intro h; omega
  | succ m ih =>
    intro hk ht
    unfold popcount
    by_cases hm : k = m
    · rw [popcount_congr m (fun j hj =>
        test_clear_other bm k j (by omega))]
      rw [hm, test_clear_self, ← hm, ht]
      simp
    · rw [← ih (by omega) ht, test_clear_other bm k m (by omega)]
      omega

theorem popcount_all_false {bm : Nat → Nat} :
    ∀ m, (∀ k, k < m → bitmap_test bm k = false) → popcount bm m = 0 := by
  intro m
  induction m with
  | zero => intro _; rfl
  | succ m ih =>
    intro h
    unfold popcount
    rw [ih (fun k hk => h k (by omega)), h m (by omega)]
    simp

theorem popcount_single {bm : Nat → Nat} (h0 : bitmap_test bm 0 = true) :
    ∀ m, 1 ≤ m → (∀ k, 1 ≤ k → k < m → bitmap_test bm k = false) →
    popcount bm m = 1 := by
  intro m
  induction m with
  | zero => intro h; omega
  | succ m ih =>
    intro _ h
    unfold popcount
    by_cases hm : m = 0
    · rw [hm, popcount, hm] at *
      rw [h0]
      simp
    · rw [ih (by omega) (fun k h1 hk => h k h1 (by omega)),
        h m (by omega) (by omega)]
      simp

theorem find_free_from_spec {bm : Nat → Nat} :
    ∀ fuel i k, bitmap_find_free_from bm i fuel = some k →
    i ≤ k ∧ k < i + fuel ∧ bitmap_test bm k = false := by
  intro fuel
  induction fuel with
  | zero => intro i k h; exact absurd h (by unfold bitmap_find_free_from; simp)
  | succ fuel ih =>
    intro i k h
    unfold bitmap_find_free_from at h
    by_cases hf : bitmap_test bm i = false
    · rw [if_pos hf] at h
      injection h with h
      subst h
      exact ⟨le_refl _, by omega, hf⟩
    · rw [if_neg hf] at h
      obtain ⟨h1, h2, h3⟩ := ih (i + 1) k h
      exact ⟨by omega, by omega, h3⟩

theorem find_free_spec {bm : Nat → Nat} {n k : Nat}
    (h : bitmap_find_free bm n = some k) :
    k < n ∧ bitmap_test bm k = false := by
  obtain ⟨_, h2, h3⟩ := find_free_from_spec n 0 k h
  exact ⟨by omega, h3⟩

theorem findLoop_ne_zero {ent : Nat → Nat} {name : List Nat} :
    ∀ fuel i k, findLoop ent name i fuel = some k → k ≠ 0 := by
  intro fuel
  induction fuel with
  | zero => intro i k h; exact absurd h (by unfold findLoop; simp)
  | succ fuel ih =>
    intro i k h
    unfold findLoop at h
    by_cases hc : bytesU32 ent (DIRENT_SIZE * i) ≠ 0 ∧
        strEqAt ent (DIRENT_SIZE * i + 4) name = true
    · rw [if_pos hc] at h
      injection h with h
      subst h
      exact hc.1
    · rw [if_neg hc] at h
      exact ih (i + 1) k h

/-- A successful sfs_find_dirent never reports inode 0: the scan skips
entries with a zero inode field. -/
theorem find_dirent_ne_zero {st : sfs_state_t} {d : Disk}
    {junk : Nat → Nat} {name : List Nat}
    (h : (sfs_find_dirent st d junk name).1 = SFS_ERR_SUCCESS) :
    (sfs_find_dirent st d junk name).2 ≠ 0 := by
  unfold sfs_find_dirent at h ⊢
  cases hri : sfs_read_inode st d 0 with
  | error e =>
    exfalso
    rw [hri] at h
    dsimp only at h
    unfold sfs_read_inode at hri
    by_cases h0 : st.sb.total_inodes ≤ 0
    · rw [if_pos h0] at hri
      injection hri with hri
      rw [← hri] at h
      exact absurd h (by unfold SFS_ERR_SUCCESS SFS_ERR_INVALID; decide)
    · rw [if_neg h0] at hri
      exact absurd hri (by simp)
  | ok dir =>
    rw [hri] at h
    dsimp only at h ⊢
    by_cases ht : dir.type ≠ SFS_TYPE_DIR
    · exfalso
      rw [if_pos ht] at h
      exact absurd h (by unfold SFS_ERR_SUCCESS SFS_ERR_INVALID; decide)
    · rw [if_neg ht] at h ⊢
      cases hfl : findLoop (dirEntries st d junk dir) name 0
          (dir.size / DIRENT_SIZE) with
      | none =>
        exfalso
        rw [hfl] at h
        exact absurd h
          (by unfold SFS_ERR_SUCCESS SFS_ERR_NOT_FOUND; decide)
      | some ino =>
        dsimp only
        exact findLoop_ne_zero _ 0 ino hfl

end Sfs

namespace Sfs

theorem write_block_ne {d : Disk} {b : Nat} {f : Nat → Nat} {x : Nat}
    (h : x ≠ b) : write_block d b f x = d x :=
  funext fun i => by
    unfold write_block
    rw [if_neg h]

theorem write_block_eq {d : Disk} {b : Nat} {f : Nat → Nat} :
    write_block d b f b = f :=
  funext fun i => by
    unfold write_block
    rw [if_pos rfl]

theorem decodeSb_write {d : Disk} {b : Nat} {f : Nat → Nat}
    (hb : b ≠ 0) : decodeSb (write_block d b f) = decodeSb d := by
  unfold decodeSb readU32
  rw [write_block_ne (Ne.symm hb)]

theorem bytesU32_of (f : Nat → Nat) (off v : Nat)
    (h0 : f off = v / 256 ^ 0 % 256) (h1 : f (off + 1) = v / 256 ^ 1 % 256)
    (h2 : f (off + 2) = v / 256 ^ 2 % 256)
    (h3 : f (off + 3) = v / 256 ^ 3 % 256) :
    bytesU32 f off = v % 2 ^ 32 := by
  unfold bytesU32
  rw [h0, h1, h2, h3]
  have e0 : (256 : Nat) ^ 0 = 1 := by norm_num
  have e1 : (256 : Nat) ^ 1 = 256 := by norm_num
  have e2 : (256 : Nat) ^ 2 = 65536 := by norm_num
  have e3 : (256 : Nat) ^ 3 = 16777216 := by norm_num
  rw [e0, e1, e2, e3]
  omega

theorem bbi_eq : bitmap_blocks SFS_MAX_INODES = 1 := by decide

theorem ipb_eq : inodes_per_block = 37 := by decide

theorem itb_count :
    (SFS_MAX_INODES + inodes_per_block - 1) / inodes_per_block = 28 := by
  decide

theorem bb_bounds {n : Nat} (h1 : 64 ≤ n) (h2 : n ≤ SFS_MAX_BLOCKS) :
    1 ≤ bitmap_blocks n ∧ bitmap_blocks n ≤ 4 := by
  unfold bitmap_blocks SFS_BLOCK_SIZE
  unfold SFS_MAX_BLOCKS at h2
  omega

end Sfs

namespace Sfs

/-- Reading back a superblock written by sbBytes recovers every field
that fits its storage. -/
theorem decode_sbBytes {f : Disk} {sb : sfs_superblock_t}
    (hf : f 0 = sbBytes sb)
    (b1 : sb.magic < 2 ^ 32) (b2 : sb.version < 2 ^ 32)
    (b3 : sb.block_size < 2 ^ 32) (b4 : sb.total_blocks < 2 ^ 32)
    (b5 : sb.total_inodes < 2 ^ 32) (b6 : sb.free_blocks < 2 ^ 32)
    (b7 : sb.free_inodes < 2 ^ 32) (b8 : sb.inode_bitmap_block < 2 ^ 32)
    (b9 : sb.data_bitmap_block < 2 ^ 32)
    (b10 : sb.inode_table_block < 2 ^ 32)
    (b11 : sb.data_blocks_start < 2 ^ 32)
    (b12 : sb.drive_number < 256) :
    decodeSb f = sb := by
  have e0 : bytesU32 (sbBytes sb) 0 = sb.magic % 2 ^ 32 :=
    bytesU32_of _ _ _ (by unfold sbBytes u32byte; norm_num)
      (by unfold sbBytes u32byte; norm_num)
      (by unfold sbBytes u32byte; norm_num)
      (by unfold sbBytes u32byte; norm_num)
  have e4 : bytesU32 (sbBytes sb) 4 = sb.version % 2 ^ 32 :=
    bytesU32_of _ _ _ (by unfold sbBytes u32byte; norm_num)
      (by unfold sbBytes u32byte; norm_num)
      (by unfold sbBytes u32byte; norm_num)
      (by unfold sbBytes u32byte; norm_num)
  have e8 : bytesU32 (sbBytes sb) 8 = sb.block_size % 2 ^ 32 :=
    bytesU32_of _ _ _ (by unfold sbBytes u32byte; norm_num)
      (by unfold sbBytes u32byte; norm_num)
      (by unfold sbBytes u32byte; norm_num)
      (by unfold sbBytes u32byte; norm_num)
  have e12 : bytesU32 (sbBytes sb) 12 = sb.total_blocks % 2 ^ 32 :=
    bytesU32_of _ _ _ (by unfold sbBytes u32byte; norm_num)
      (by unfold sbBytes u32byte; norm_num)
      (by unfold sbBytes u32byte; norm_num)
      (by unfold sbBytes u32byte; norm_num)
  have e16 : bytesU32 (sbBytes sb) 16 = sb.total_inodes % 2 ^ 32 :=
    bytesU32_of _ _ _ (by unfold sbBytes u32byte; norm_num)
      (by unfold sbBytes u32byte; norm_num)
      (by unfold sbBytes u32byte; norm_num)
      (by unfold sbBytes u32byte; norm_num)
  have e20 : bytesU32 (sbBytes sb) 20 = sb.free_blocks % 2 ^ 32 :=
    bytesU32_of _ _ _ (by unfold sbBytes u32byte; norm_num)
      (by unfold sbBytes u32byte; norm_num)
      (by unfold sbBytes u32byte; norm_num)
      (by unfold sbBytes u32byte; norm_num)
  have e24 : bytesU32 (sbBytes sb) 24 = sb.free_inodes % 2 ^ 32 :=
    bytesU32_of _ _ _ (by unfold sbBytes u32byte; norm_num)
      (by unfold sbBytes u32byte; norm_num)
      (by unfold sbBytes u32byte; norm_num)
      (by unfold sbBytes u32byte; norm_num)
  have e28 : bytesU32 (sbBytes sb) 28 = sb.inode_bitmap_block % 2 ^ 32 :=
    bytesU32_of _ _ _ (by unfold sbBytes u32byte; norm_num)
      (by unfold sbBytes u32byte; norm_num)
      (by unfold sbBytes u32byte; norm_num)
      (by unfold sbBytes u32byte; norm_num)
  have e32 : bytesU32 (sbBytes sb) 32 = sb.data_bitmap_block % 2 ^ 32 :=
    bytesU32_of _ _ _ (by unfold sbBytes u32byte; norm_num)
      (by unfold sbBytes u32byte; norm_num)
      (by unfold sbBytes u32byte; norm_num)
      (by unfold sbBytes u32byte; norm_num)
  have e36 : bytesU32 (sbBytes sb) 36 = sb.inode_table_block % 2 ^ 32 :=
    bytesU32_of _ _ _ (by unfold sbBytes u32byte; norm_num)
      (by unfold sbBytes u32byte; norm_num)
      (by unfold sbBytes u32byte; norm_num)
      (by unfold sbBytes u32byte; norm_num)
  have e40 : bytesU32 (sbBytes sb) 40 = sb.data_blocks_start % 2 ^ 32 :=
    bytesU32_of _ _ _ (by unfold sbBytes u32byte; norm_num)
      (by unfold sbBytes u32byte; norm_num)
      (by unfold sbBytes u32byte; norm_num)
      (by unfold sbBytes u32byte; norm_num)
  have e44 : sbBytes sb 44 = sb.drive_number % 256 := by
    unfold sbBytes
    norm_num
  unfold decodeSb readU32
  rw [hf, e0, e4, e8, e12, e16, e20, e24, e28, e32, e36, e40, e44]
  have : sb = sfs_superblock_t.mk sb.magic sb.version sb.block_size
      sb.total_blocks sb.total_inodes sb.free_blocks sb.free_inodes
      sb.inode_bitmap_block sb.data_bitmap_block sb.inode_table_block
      sb.data_blocks_start sb.drive_number := rfl
  rw [this]
  simp only [sfs_superblock_t.mk.injEq]
  refine ⟨by omega, by omega, by omega, by omega, by omega, by omega,
    by omega, by omega, by omega, by omega, by omega, by omega⟩

end Sfs

namespace Sfs

/-- The fixed metadata layout every formatted disk carries: superblock
in block 0, one inode-bitmap block, the data bitmap from block 2, then
28 inode-table blocks, data from block 30 + data-bitmap-blocks. -/
def layout_ok (sb : sfs_superblock_t) : Prop :=
  sb.magic = SFS_MAGIC ∧ sb.total_inodes = SFS_MAX_INODES ∧
  sb.inode_bitmap_block = 1 ∧ sb.data_bitmap_block = 2 ∧
  sb.inode_table_block = 2 + bitmap_blocks sb.total_blocks ∧
  sb.data_blocks_start = 30 + bitmap_blocks sb.total_blocks ∧
  64 ≤ sb.total_blocks ∧ sb.total_blocks ≤ SFS_MAX_BLOCKS

/-- The invariant of the on-disk metadata: what a fresh mount would
load satisfies the counting relations.  Because no mutating call ever
writes the superblock or the bitmaps back to disk, these stay at their
format-time values. -/
def DiskInv (d : Disk) : Prop :=
  layout_ok (decodeSb d) ∧
  ((decodeSb d).free_blocks +
    popcount (diskDB d (decodeSb d)) (decodeSb d).total_blocks) %
      2 ^ 32 =
    ((decodeSb d).total_blocks + 2 ^ 32 -
      (decodeSb d).data_blocks_start) % 2 ^ 32 ∧
  ((decodeSb d).free_inodes +
    popcount (diskIB d (decodeSb d)) (decodeSb d).total_inodes) %
      2 ^ 32 =
    (decodeSb d).total_inodes % 2 ^ 32 ∧
  bitmap_test (diskIB d (decodeSb d)) 0 = true ∧
  (decodeInode d (decodeSb d) 0).type = SFS_TYPE_DIR

/-- The amended fs invariant: the free counters are conserved against
the cached bitmaps (the data-block relation holds against
total_blocks - data_blocks_start, not total_blocks), inode 0 is
allocated and is a directory on disk, and the on-disk metadata keeps
the same relations. -/
def SfsInv (st : sfs_state_t) (d : Disk) : Prop :=
  st.mounted = true ∧ layout_ok st.sb ∧
  st.sb.total_blocks = (decodeSb d).total_blocks ∧
  (st.sb.free_blocks + popcount st.data_bitmap st.sb.total_blocks) %
    2 ^ 32 =
    (st.sb.total_blocks + 2 ^ 32 - st.sb.data_blocks_start) % 2 ^ 32 ∧
  (st.sb.free_inodes + popcount st.inode_bitmap st.sb.total_inodes) %
    2 ^ 32 =
    st.sb.total_inodes % 2 ^ 32 ∧
  bitmap_test st.inode_bitmap 0 = true ∧
  (decodeInode d st.sb 0).type = SFS_TYPE_DIR ∧
  DiskInv d

/-- Mounted states reachable by format(n) of any disk for a sane block
count, mount, and then any create / write calls (including failing
ones) and unmount-remount cycles. -/
inductive SfsReached : sfs_state_t → Disk → Prop where
  | start (d0 : Disk) (n : Nat) (st1 : sfs_state_t)
      (h1 : 64 ≤ n) (h2 : n ≤ SFS_MAX_BLOCKS)
      (hmnt : sfs_mount initState (sfs_format n d0).2 0 =
        (SFS_ERR_SUCCESS, st1)) :
      SfsReached st1 (sfs_format n d0).2
  | create_step {st : sfs_state_t} {d : Disk} {r : Int}
      {st2 : sfs_state_t} {d2 : Disk} (junk : Nat → Nat)
      (name : List Nat) (ty : Nat) :
      SfsReached st d →
      sfs_create_file st d junk name ty = (r, st2, d2) →
      SfsReached st2 d2
  | write_step {st : sfs_state_t} {d : Disk} {r : Int}
      {st2 : sfs_state_t} {d2 : Disk} (junk : Nat → Nat)
      (name : List Nat) (offset size : Nat) (buf : Nat → Nat) :
      SfsReached st d →
      sfs_write_file st d junk name offset size buf = (r, st2, d2) →
      SfsReached st2 d2
  | remount_step {st : sfs_state_t} {d : Disk} {st2 : sfs_state_t} :
      SfsReached st d →
      sfs_mount (sfs_unmount st) d st.drive = (SFS_ERR_SUCCESS, st2) →
      SfsReached st2 d

theorem formatSb_eval {n0 : Nat} (h1 : 64 ≤ n0)
    (h2 : n0 ≤ SFS_MAX_BLOCKS) :
    (formatSb n0).magic = SFS_MAGIC ∧
    (formatSb n0).total_blocks = n0 ∧
    (formatSb n0).total_inodes = SFS_MAX_INODES ∧
    (formatSb n0).free_blocks = n0 - (30 + bitmap_blocks n0) ∧
    (formatSb n0).free_inodes = 1023 ∧
    (formatSb n0).inode_bitmap_block = 1 ∧
    (formatSb n0).data_bitmap_block = 2 ∧
    (formatSb n0).inode_table_block = 2 + bitmap_blocks n0 ∧
    (formatSb n0).data_blocks_start = 30 + bitmap_blocks n0 ∧
    (formatSb n0).drive_number = 0 := by
  have hcap : (if SFS_MAX_BLOCKS < n0 then SFS_MAX_BLOCKS else n0) =
      n0 := if_neg (by omega)
  obtain ⟨hbb1, hbb2⟩ := bb_bounds h1 h2
  have h2b := h2
  unfold SFS_MAX_BLOCKS at h2b
  unfold formatSb
  dsimp only
  rw [hcap, bbi_eq, itb_count]
  refine ⟨rfl, rfl, rfl, ?_, by unfold SFS_MAX_INODES; omega, rfl,
    by omega, by omega, by omega, rfl⟩
  omega

theorem formatSb_lt32 {n0 : Nat} (h1 : 64 ≤ n0)
    (h2 : n0 ≤ SFS_MAX_BLOCKS) :
    (formatSb n0).magic < 2 ^ 32 ∧ (formatSb n0).version < 2 ^ 32 ∧
    (formatSb n0).block_size < 2 ^ 32 ∧
    (formatSb n0).total_blocks < 2 ^ 32 ∧
    (formatSb n0).total_inodes < 2 ^ 32 ∧
    (formatSb n0).free_blocks < 2 ^ 32 ∧
    (formatSb n0).free_inodes < 2 ^ 32 ∧
    (formatSb n0).inode_bitmap_block < 2 ^ 32 ∧
    (formatSb n0).data_bitmap_block < 2 ^ 32 ∧
    (formatSb n0).inode_table_block < 2 ^ 32 ∧
    (formatSb n0).data_blocks_start < 2 ^ 32 ∧
    (formatSb n0).drive_number < 256 := by
  obtain ⟨ha, hb, hc, hd, he, hf, hg, hh, hi, hj⟩ := formatSb_eval h1 h2
  obtain ⟨hbb1, hbb2⟩ := bb_bounds h1 h2
  have h2b := h2
  unfold SFS_MAX_BLOCKS at h2b
  refine ⟨?_, ?_, ?_, ?_, ?_, ?_, ?_, ?_, ?_, ?_, ?_, ?_⟩
  · rw [ha]
    unfold SFS_MAGIC
    omega
  · show (formatSb n0).version < 2 ^ 32
    unfold formatSb
    dsimp only
    omega
  · show (formatSb n0).block_size < 2 ^ 32
    unfold formatSb SFS_BLOCK_SIZE
    dsimp only
    omega
  · rw [hb]
    omega
  · rw [hc]
    unfold SFS_MAX_INODES
    omega
  · rw [hd]
    omega
  · rw [he]
    omega
  · rw [hf]
    omega
  · rw [hg]
    omega
  · rw [hh]
    omega
  · rw [hi]
    omega
  · rw [hj]
    omega

theorem format_block0 (n0 : Nat) (d0 : Disk) :
    (sfs_format n0 d0).2 0 = sbBytes (formatSb n0) :=
  funext fun i => by
    unfold sfs_format
    dsimp only
    rw [if_pos rfl]

theorem decodeSb_format {n0 : Nat} (d0 : Disk) (h1 : 64 ≤ n0)
    (h2 : n0 ≤ SFS_MAX_BLOCKS) :
    decodeSb (sfs_format n0 d0).2 = formatSb n0 := by
  obtain ⟨b1, b2, b3, b4, b5, b6, b7, b8, b9, b10, b11, b12⟩ :=
    formatSb_lt32 h1 h2
  exact decode_sbBytes (format_block0 n0 d0) b1 b2 b3 b4 b5 b6 b7 b8 b9
    b10 b11 b12

theorem format_ib_byte {n0 : Nat} (d0 : Disk) (h1 : 64 ≤ n0)
    (h2 : n0 ≤ SFS_MAX_BLOCKS) (j : Nat) :
    (sfs_format n0 d0).2 1 j = (if j = 0 then 1 else 0) := by
  obtain ⟨_, _, _, _, _, _, hdb, _, _, _⟩ := formatSb_eval h1 h2
  unfold sfs_format
  dsimp only
  rw [if_neg (by omega : ¬ (1 : Nat) = 0),
    if_pos (show 1 ≤ (1 : Nat) ∧ 1 < (formatSb n0).data_bitmap_block by
      rw [hdb]; omega)]
  by_cases hj : j = 0
  · rw [if_pos ⟨rfl, hj⟩, if_pos hj]
  · rw [if_neg (fun hc => hj hc.2), if_neg hj]

theorem format_db_byte {n0 : Nat} (d0 : Disk) (h1 : 64 ≤ n0)
    (h2 : n0 ≤ SFS_MAX_BLOCKS) (b j : Nat) (hb1 : 2 ≤ b)
    (hb2 : b < 2 + bitmap_blocks n0) :
    (sfs_format n0 d0).2 b j = 0 := by
  obtain ⟨_, _, _, _, _, _, hdb, hit, _, _⟩ := formatSb_eval h1 h2
  unfold sfs_format
  dsimp only
  rw [if_neg (by omega : ¬ b = 0),
    if_neg (show ¬ (1 ≤ b ∧ b < (formatSb n0).data_bitmap_block) by
      rw [hdb]; omega),
    if_pos (show (formatSb n0).data_bitmap_block ≤ b ∧
        b < (formatSb n0).inode_table_block by rw [hdb, hit]; omega)]

theorem format_itb0 {n0 : Nat} (d0 : Disk) (h1 : 64 ≤ n0)
    (h2 : n0 ≤ SFS_MAX_BLOCKS) (j : Nat) :
    (sfs_format n0 d0).2 (2 + bitmap_blocks n0) j =
      (if j < INODE_SIZE then inodeBytes rootInode j else 0) := by
  obtain ⟨_, _, _, _, _, _, hdb, hit, _, _⟩ := formatSb_eval h1 h2
  unfold sfs_format
  dsimp only
  rw [if_neg (by omega : ¬ 2 + bitmap_blocks n0 = 0),
    if_neg (show ¬ (1 ≤ 2 + bitmap_blocks n0 ∧
        2 + bitmap_blocks n0 < (formatSb n0).data_bitmap_block) by
      rw [hdb]; omega),
    if_neg (show ¬ ((formatSb n0).data_bitmap_block ≤
          2 + bitmap_blocks n0 ∧
        2 + bitmap_blocks n0 < (formatSb n0).inode_table_block) by
      rw [hdb, hit]; omega),
    if_pos (show 2 + bitmap_blocks n0 = (formatSb n0).inode_table_block
      by rw [hit])]

end Sfs

namespace Sfs

theorem format_diskIB_test0 {n0 : Nat} (d0 : Disk) (h1 : 64 ≤ n0)
    (h2 : n0 ≤ SFS_MAX_BLOCKS) :
    bitmap_test (diskIB (sfs_format n0 d0).2 (formatSb n0)) 0 = true := by
  obtain ⟨_, _, _, _, _, hib, _, _, _, _⟩ := formatSb_eval h1 h2
  unfold bitmap_test diskIB
  rw [hib]
  norm_num
  rw [format_ib_byte d0 h1 h2 0]
  decide

theorem format_diskIB_test_pos {n0 : Nat} (d0 : Disk) (h1 : 64 ≤ n0)
    (h2 : n0 ≤ SFS_MAX_BLOCKS) (k : Nat) (hk1 : 1 ≤ k)
    (hk2 : k < SFS_MAX_INODES) :
    bitmap_test (diskIB (sfs_format n0 d0).2 (formatSb n0)) k =
      false := by
  obtain ⟨_, _, _, _, _, hib, _, _, _, _⟩ := formatSb_eval h1 h2
  unfold SFS_MAX_INODES at hk2
  unfold bitmap_test diskIB
  rw [hib]
  have hdiv : k / 8 / SFS_BLOCK_SIZE = 0 := by
    unfold SFS_BLOCK_SIZE
    omega
  have hmod : k / 8 % SFS_BLOCK_SIZE = k / 8 := by
    unfold SFS_BLOCK_SIZE
    omega
  rw [hdiv, hmod]
  rw [format_ib_byte d0 h1 h2 (k / 8)]
  by_cases h8 : k / 8 = 0
  · rw [if_pos h8]
    have key : ∀ a, 1 ≤ a → a < 8 → ((1 : Nat) &&& (1 <<< a) ≠ 0) =
        False := by decide
    refine decide_eq_false ?_
    intro hc
    have hk8 : 1 ≤ k % 8 ∧ k % 8 < 8 := by omega
    rw [key (k % 8) hk8.1 hk8.2] at hc
    exact hc
  · rw [if_neg h8]
    refine decide_eq_false ?_
    intro hc
    exact hc (Nat.zero_and _)

theorem format_diskIB_pop {n0 : Nat} (d0 : Disk) (h1 : 64 ≤ n0)
    (h2 : n0 ≤ SFS_MAX_BLOCKS) :
    popcount (diskIB (sfs_format n0 d0).2 (formatSb n0))
      SFS_MAX_INODES = 1 :=
  popcount_single (format_diskIB_test0 d0 h1 h2) SFS_MAX_INODES
    (by unfold SFS_MAX_INODES; omega)
    (fun k hk1 hk2 => format_diskIB_test_pos d0 h1 h2 k hk1 hk2)

theorem format_diskDB_pop {n0 : Nat} (d0 : Disk) (h1 : 64 ≤ n0)
    (h2 : n0 ≤ SFS_MAX_BLOCKS) :
    popcount (diskDB (sfs_format n0 d0).2 (formatSb n0)) n0 = 0 := by
  refine popcount_all_false n0 ?_
  intro k hk
  obtain ⟨_, _, _, _, _, _, hdb, _, _, _⟩ := formatSb_eval h1 h2
  unfold bitmap_test diskDB
  rw [hdb]
  have hbb : bitmap_blocks n0 = ((n0 + 7) / 8 + SFS_BLOCK_SIZE - 1) /
      SFS_BLOCK_SIZE := rfl
  have hblk : 2 ≤ 2 + k / 8 / SFS_BLOCK_SIZE ∧
      2 + k / 8 / SFS_BLOCK_SIZE < 2 + bitmap_blocks n0 := by
    rw [hbb]
    unfold SFS_BLOCK_SIZE
    omega
  rw [format_db_byte d0 h1 h2 (2 + k / 8 / SFS_BLOCK_SIZE)
    (k / 8 % SFS_BLOCK_SIZE) hblk.1 hblk.2]
  refine decide_eq_false ?_
  intro hc
  exact hc (Nat.zero_and _)

theorem format_root_type {n0 : Nat} (d0 : Disk) (h1 : 64 ≤ n0)
    (h2 : n0 ≤ SFS_MAX_BLOCKS) :
    (decodeInode (sfs_format n0 d0).2 (formatSb n0) 0).type =
      SFS_TYPE_DIR := by
  obtain ⟨_, _, _, _, _, _, _, hit, _, _⟩ := formatSb_eval h1 h2
  unfold decodeInode
  dsimp only
  have hblk : (formatSb n0).inode_table_block + 0 / inodes_per_block =
      2 + bitmap_blocks n0 := by
    rw [hit]
    simp
  have hoff : 0 % inodes_per_block * INODE_SIZE = 0 := by
    simp
  rw [hblk, hoff]
  unfold readU32
  have hv := bytesU32_of ((sfs_format n0 d0).2 (2 + bitmap_blocks n0)) 0
    SFS_TYPE_DIR
    (by rw [format_itb0 d0 h1 h2 0]; decide)
    (by rw [format_itb0 d0 h1 h2 1]; decide)
    (by rw [format_itb0 d0 h1 h2 2]; decide)
    (by rw [format_itb0 d0 h1 h2 3]; decide)
  rw [hv]
  decide

theorem format_DiskInv {n0 : Nat} (d0 : Disk) (h1 : 64 ≤ n0)
    (h2 : n0 ≤ SFS_MAX_BLOCKS) : DiskInv (sfs_format n0 d0).2 := by
  obtain ⟨ha, hb, hc, hd, he, hf, hg, hh, hi, hj⟩ := formatSb_eval h1 h2
  obtain ⟨hbb1, hbb2⟩ := bb_bounds h1 h2
  have h2b := h2
  unfold SFS_MAX_BLOCKS at h2b
  have hdec := decodeSb_format d0 h1 h2
  unfold DiskInv
  rw [hdec]
  refine ⟨⟨ha, hc, hf, hg, by rw [hh, hb], by rw [hi, hb],
    by rw [hb]; exact h1, by rw [hb]; exact h2⟩, ?_, ?_, ?_, ?_⟩
  · rw [hb, hd, hi, format_diskDB_pop d0 h1 h2]
    omega
  · rw [hc, he, format_diskIB_pop d0 h1 h2]
    unfold SFS_MAX_INODES
    omega
  · exact format_diskIB_test0 d0 h1 h2
  · exact format_root_type d0 h1 h2

end Sfs

namespace Sfs

/-- The state after mounting a freshly formatted disk satisfies the
invariant. -/
theorem start_case {n0 : Nat} (d0 : Disk) {st1 : sfs_state_t}
    (h1 : 64 ≤ n0) (h2 : n0 ≤ SFS_MAX_BLOCKS)
    (hmnt : sfs_mount initState (sfs_format n0 d0).2 0 =
      (SFS_ERR_SUCCESS, st1)) :
    SfsInv st1 (sfs_format n0 d0).2 := by
  have hdec := decodeSb_format d0 h1 h2
  have hmag : (formatSb n0).magic = SFS_MAGIC := (formatSb_eval h1 h2).1
  unfold sfs_mount at hmnt
  rw [if_neg (by decide : ¬ initState.mounted = true), hdec,
    if_neg (fun hc => hc hmag)] at hmnt
  injection hmnt with _ hst
  have hD := format_DiskInv d0 h1 h2
  have hD2 := hD
  unfold DiskInv at hD2
  rw [hdec] at hD2
  obtain ⟨hlay, hdata, hino, hbit, htyp⟩ := hD2
  rw [← hst]
  exact ⟨rfl, hlay, by rw [hdec], hdata, hino, hbit, htyp, hD⟩

theorem readU32_write_ne {d : Disk} {b : Nat} {f : Nat → Nat}
    {x off : Nat} (h : x ≠ b) :
    readU32 (write_block d b f) x off = readU32 d x off := by
  unfold readU32
  rw [write_block_ne h]

theorem decodeInode_write_ne {d : Disk} {sb : sfs_superblock_t}
    {n b : Nat} {f : Nat → Nat}
    (h : sb.inode_table_block + n / inodes_per_block ≠ b) :
    decodeInode (write_block d b f) sb n = decodeInode d sb n := by
  unfold decodeInode readU32
  rw [write_block_ne h]

theorem test_diskIB_write {d : Disk} {sb : sfs_superblock_t}
    {b : Nat} {f : Nat → Nat} {k : Nat}
    (h : sb.inode_bitmap_block + k / 8 / SFS_BLOCK_SIZE ≠ b) :
    bitmap_test (diskIB (write_block d b f) sb) k =
      bitmap_test (diskIB d sb) k := by
  unfold bitmap_test diskIB
  rw [write_block_ne h]

theorem test_diskDB_write {d : Disk} {sb : sfs_superblock_t}
    {b : Nat} {f : Nat → Nat} {k : Nat}
    (h : sb.data_bitmap_block + k / 8 / SFS_BLOCK_SIZE ≠ b) :
    bitmap_test (diskDB (write_block d b f) sb) k =
      bitmap_test (diskDB d sb) k := by
  unfold bitmap_test diskDB
  rw [write_block_ne h]

/-- A write to any block at or past the inode table leaves the on-disk
superblock and both bitmaps unchanged; if it additionally keeps the
root inode a directory, the whole disk invariant survives. -/
theorem DiskInv_write {d : Disk} {b : Nat} {f : Nat → Nat}
    (hD : DiskInv d) (hb : (decodeSb d).inode_table_block ≤ b)
    (hino : (decodeInode (write_block d b f) (decodeSb d) 0).type =
      SFS_TYPE_DIR) :
    DiskInv (write_block d b f) := by
  obtain ⟨hlay, hdata, hinoc, hbit, _⟩ := hD
  obtain ⟨hm, hti, hib, hdb, hit, hds, htb1, htb2⟩ := hlay
  have hb0 : b ≠ 0 := by omega
  have hdsb : decodeSb (write_block d b f) = decodeSb d :=
    decodeSb_write hb0
  have hibne : ∀ k, k < (decodeSb d).total_inodes →
      (decodeSb d).inode_bitmap_block + k / 8 / SFS_BLOCK_SIZE ≠ b := by
    intro k hk
    rw [hti] at hk
    unfold SFS_MAX_INODES at hk
    rw [hib]
    unfold SFS_BLOCK_SIZE
    omega
  have hdbne : ∀ k, k < (decodeSb d).total_blocks →
      (decodeSb d).data_bitmap_block + k / 8 / SFS_BLOCK_SIZE ≠ b := by
    intro k hk
    have hbbb : bitmap_blocks (decodeSb d).total_blocks =
        (((decodeSb d).total_blocks + 7) / 8 + SFS_BLOCK_SIZE - 1) /
          SFS_BLOCK_SIZE := rfl
    rw [hdb]
    rw [hit, hbbb] at hb
    unfold SFS_BLOCK_SIZE at *
    omega
  refine ⟨?_, ?_, ?_, ?_, ?_⟩
  · rw [hdsb]
    exact ⟨hm, hti, hib, hdb, hit, hds, htb1, htb2⟩
  · rw [hdsb]
    rw [popcount_congr (decodeSb d).total_blocks
      (fun k hk => test_diskDB_write (hdbne k hk))]
    exact hdata
  · rw [hdsb]
    rw [popcount_congr (decodeSb d).total_inodes
      (fun k hk => test_diskIB_write (hibne k hk))]
    exact hinoc
  · rw [hdsb]
    rw [test_diskIB_write (hibne 0 (by rw [hti]; unfold SFS_MAX_INODES; omega))]
    exact hbit
  · rw [hdsb]
    exact hino

end Sfs
